import Mathlib

/-!
mLib k-means clustering: a shallow embedding of `core-math/kMeansClustering.h`.

Conventions of the embedding.

* `float` and `double` are the rationals `ℚ`: arithmetic is exact; rounding, NaN and
  infinities are outside the model.
* The element type `T` is a type with an addition and a scaling by a rational
  (`operator+=` and `operator*=(float)`); the metric `Metric::Dist` is a parameter
  `dist : T → T → ℚ`.
* `Vector<X>` is `List X`. Container sizes are taken to fit the 32-bit index types, so the
  casts `(int)elements.size()` and `(int)m_clusters.size()` preserve the value. The loop
  counter `pass` of `cluster` is kept as a 32-bit unsigned integer with its wrap-around.
* An out-of-range read or write is the result `none`.
* The process-wide random source is a stream `rng : Nat → Nat` with a read position that
  every draw advances by one.
* The buffer `storage` that `iterate` fills is the list returned by its first loop. That loop
  may run in parallel under OpenMP; its iterations are independent, and it is taken in
  element order.
* The console log written under `verbose` does not touch the clusters and is left out; the
  pair `(pass, delta)` that each per-pass log line carries is kept as the `trace`.
* The points `vec2f` and `vec3f` are pairs and triples of rationals, with the squared
  Euclidean distance as `distSq`.

The namespace `ml` embeds the class `MeshData` of `core-mesh/meshData.h`: its data members
as lists, an `unsigned int` index as a natural number, and `isConsistent` statement by
statement.
-/

namespace KMeans

/-- The struct `KMeansCluster<T>`: a center and the accumulator `entries` of one pass. -/
structure KMeansCluster (T : Type) where
  center : T
  entries : List (T × ℚ)
deriving DecidableEq, Repr

namespace KMeansCluster

variable {T : Type}

/-- The method `KMeansCluster::init`: only the center is written. -/
def init (c : KMeansCluster T) (start : T) : KMeansCluster T :=
  { c with center := start }

/-- The loop of `finalizeIteration` over `entries[1..]`, carrying `sum` and `newCenter`. -/
def finalizeLoop [Add T] : List (T × ℚ) → ℚ → T → ℚ × T
  | [], sum, newCenter => (sum, newCenter)
  | entry :: rest, sum, newCenter => finalizeLoop rest (sum + entry.2) (newCenter + entry.1)

/-- The method `KMeansCluster::finalizeIteration`. With no entries the center becomes the fallback and
the function returns at once; otherwise the center is the sum of the entries, scaled by
`1 / sum` when `sum > 0`, and the entries are released. -/
def finalizeIteration [Add T] [SMul ℚ T] (c : KMeansCluster T) (fallbackElement : T) :
    KMeansCluster T :=
  match c.entries with
  | [] => { c with center := fallbackElement }
  | entry0 :: rest =>
    let r := finalizeLoop rest entry0.2 entry0.1
    { center := if r.1 > 0 then (1 / r.1) • r.2 else r.2, entries := [] }

/-- The method `KMeansCluster::addEntry(preWeightedEntry, weight)`. -/
def addEntry (c : KMeansCluster T) (preWeightedEntry : T) (weight : ℚ) : KMeansCluster T :=
  { c with entries := c.entries ++ [(preWeightedEntry, weight)] }

/-- The method `KMeansCluster::addEntry(entry)`: the overload with weight `1.0f`. -/
def addEntryUnit (c : KMeansCluster T) (entry : T) : KMeansCluster T :=
  { c with entries := c.entries ++ [(entry, 1)] }

end KMeansCluster

variable {T : Type}

/-- The inner loop shared by `quantizeToNearestClusterIndex` and both `iterate` overloads:
`clusterIndex` runs over the clusters after the first, and a cluster replaces the closest
one only on a strictly smaller distance. -/
def closestLoop (dist : T → T → ℚ) (e : T) :
    List (KMeansCluster T) → Nat → Nat → ℚ → Nat
  | [], _, closestClusterIndex, _ => closestClusterIndex
  | c :: rest, clusterIndex, closestClusterIndex, closestClusterDist =>
    let curClusterDist := dist e c.center
    if curClusterDist < closestClusterDist then
      closestLoop dist e rest (clusterIndex + 1) clusterIndex curClusterDist
    else
      closestLoop dist e rest (clusterIndex + 1) closestClusterIndex closestClusterDist

/-- The method `KMeansClustering::quantizeToNearestClusterIndex`. Reading `m_clusters[0]` of an engine
without clusters is out of range. -/
def quantizeToNearestClusterIndex (dist : T → T → ℚ) (m_clusters : List (KMeansCluster T))
    (element : T) : Option Nat :=
  match m_clusters with
  | [] => none
  | c0 :: rest => some (closestLoop dist element rest 1 0 (dist element c0.center))

/-- The body of the first loop of `iterate` for one element `e`: the value written to
`storage[elementIndex]`. -/
def closestClusterIndex (dist : T → T → ℚ) (clusters : List (KMeansCluster T)) (e : T) :
    Option Nat :=
  match clusters with
  | [] => none
  | c0 :: rest => some (closestLoop dist e rest 1 0 (dist e c0.center))

/-- Runs a fallible loop body over every element in order and collects the results. -/
def forEach {α β : Type} (body : α → Option β) : List α → Option (List β)
  | [] => some []
  | a :: rest =>
    match body a with
    | none => none
    | some b =>
      match forEach body rest with
      | none => none
      | some bs => some (b :: bs)

/-- First loop of the unweighted `iterate`: the content of `storage` after it. -/
def iterateStorage (dist : T → T → ℚ) (clusters : List (KMeansCluster T))
    (elements : List T) : Option (List Nat) :=
  forEach (closestClusterIndex dist clusters) elements

/-- First loop of the weighted `iterate`: the distance is taken on `elements`; neither
`weightedElements` nor `weights` is read. -/
def iterateWeightedStorage (dist : T → T → ℚ) (clusters : List (KMeansCluster T))
    (elements : List T) (_weightedElements : List T) (_weights : List ℚ) : Option (List Nat) :=
  forEach (closestClusterIndex dist clusters) elements

/-- Modelled from the spec: `Vector::randomElement` is not among the sources at hand. The
spec calls it a randomly drawn member of the input elements; here it is the element at
index `draw % size`, and an empty vector has no element to give. -/
def randomElement (elements : List T) (draw : Nat) : Option T :=
  elements[draw % elements.length]?

/-- Modelled from the spec: `Vector::allocate` is not among the sources at hand. The spec
says the clusters are created anew at the start of every `cluster` call: the previous
content is dropped and `clusterCount` default clusters (no entries) take its place. -/
def allocate [Zero T] (clusterCount : Nat) : List (KMeansCluster T) :=
  List.replicate clusterCount { center := 0, entries := [] }

/-- The writes `clustersPtr[index].f()`: applies `f` to the cluster at `index`; an index that
is out of range gives `none`. -/
def modifyAt {α : Type} (f : α → α) : List α → Nat → Option (List α)
  | [], _ => none
  | x :: xs, 0 => some (f x :: xs)
  | x :: xs, index + 1 =>
    match modifyAt f xs index with
    | none => none
    | some xs1 => some (x :: xs1)

/-- Second loop of the unweighted `iterate`: `clustersPtr[storage[i]].addEntry(elementPtr[i])`
for every element index in order. -/
def accumulate : List (KMeansCluster T) → List T → List Nat → Option (List (KMeansCluster T))
  | clusters, [], _ => some clusters
  | _, _ :: _, [] => none
  | clusters, e :: elements, s :: storage =>
    match modifyAt (fun c => c.addEntryUnit e) clusters s with
    | none => none
    | some clusters1 => accumulate clusters1 elements storage

/-- Second loop of the weighted `iterate`:
`clustersPtr[storage[i]].addEntry(weightedElements[i], weightsPtr[i])` for every index below
`elements.size()`. -/
def accumulateWeighted : List (KMeansCluster T) → List T → List T → List ℚ → List Nat →
    Option (List (KMeansCluster T))
  | clusters, [], _, _, _ => some clusters
  | clusters, _ :: elements, we :: weightedElements, w :: weights, s :: storage =>
    match modifyAt (fun c => c.addEntry we w) clusters s with
    | none => none
    | some clusters1 => accumulateWeighted clusters1 elements weightedElements weights storage
  | _, _ :: _, _, _, _ => none

/-- A loop over all clusters in index order that draws one random element per cluster and
applies `f` to the cluster and the drawn element. It returns the clusters and the read
position of the random source after the loop. -/
def forEachClusterDraw (f : KMeansCluster T → T → KMeansCluster T) (rng : Nat → Nat)
    (elements : List T) : List (KMeansCluster T) → Nat → Option (List (KMeansCluster T) × Nat)
  | [], pos => some ([], pos)
  | c :: rest, pos =>
    match randomElement elements (rng pos) with
    | none => none
    | some drawn =>
      match forEachClusterDraw f rng elements rest (pos + 1) with
      | none => none
      | some (rest1, pos1) => some (f c drawn :: rest1, pos1)

/-- Third loop of `iterate` (both overloads):
`clustersPtr[clusterIndex].finalizeIteration(elements.randomElement())`. -/
def finalizeAll [Add T] [SMul ℚ T] (rng : Nat → Nat) (elements : List T)
    (clusters : List (KMeansCluster T)) (pos : Nat) : Option (List (KMeansCluster T) × Nat) :=
  forEachClusterDraw KMeansCluster.finalizeIteration rng elements clusters pos

/-- The unweighted `KMeansClustering::iterate(elements, storage)`: one pass. -/
def iterate [Add T] [SMul ℚ T] (dist : T → T → ℚ) (rng : Nat → Nat) (elements : List T)
    (m_clusters : List (KMeansCluster T)) (pos : Nat) : Option (List (KMeansCluster T) × Nat) :=
  match iterateStorage dist m_clusters elements with
  | none => none
  | some storage =>
    match accumulate m_clusters elements storage with
    | none => none
    | some accumulated => finalizeAll rng elements accumulated pos

/-- The weighted `KMeansClustering::iterate(elements, weightedElements, weights, storage)`. -/
def iterateWeighted [Add T] [SMul ℚ T] (dist : T → T → ℚ) (rng : Nat → Nat)
    (elements weightedElements : List T) (weights : List ℚ)
    (m_clusters : List (KMeansCluster T)) (pos : Nat) : Option (List (KMeansCluster T) × Nat) :=
  match iterateWeightedStorage dist m_clusters elements weightedElements weights with
  | none => none
  | some storage =>
    match accumulateWeighted m_clusters elements weightedElements weights storage with
    | none => none
    | some accumulated => finalizeAll rng elements accumulated pos

/-- The sum `delta += Metric::Dist(previousClusterCenters[i], m_clusters[i].center)` over all
cluster indices, starting from `0.0`. -/
def convergenceDelta (dist : T → T → ℚ) (previousClusterCenters : List T)
    (clusters : List (KMeansCluster T)) : ℚ :=
  (List.zipWith dist previousClusterCenters (clusters.map (fun c => c.center))).foldl
    (fun delta d => delta + d) 0

/-- The increment `pass++` of the 32-bit unsigned counter. -/
def nextPass (pass : Nat) : Nat := (pass + 1) % 2 ^ 32

/-- The test `converged = (delta <= maxDelta || pass == maxIterations)`. -/
def convergedTest (delta maxDelta : ℚ) (pass maxIterations : Nat) : Bool :=
  decide (delta ≤ maxDelta) || decide (pass = maxIterations)

/-- State at the exit of the `while(!converged)` loop: the clusters, the read position of the
random source, the counter `pass`, and for every completed pass the pair `(pass, delta)` that
the verbose log line carries. -/
structure LoopResult (T : Type) where
  m_clusters : List (KMeansCluster T)
  pos : Nat
  pass : Nat
  trace : List (Nat × ℚ)

/-- The `while(!converged)` loop of `cluster`, the same text in both overloads but for the
call of `iterate`, which is the parameter `step`. The first argument bounds the number of
passes still allowed; running out of it gives `none`. -/
def passLoop (dist : T → T → ℚ)
    (step : List (KMeansCluster T) → Nat → Option (List (KMeansCluster T) × Nat))
    (maxIterations : Nat) (maxDelta : ℚ) :
    Nat → Nat → List (KMeansCluster T) → Nat → List (Nat × ℚ) → Option (LoopResult T)
  | 0, _, _, _, _ => none
  | fuel + 1, pass, m_clusters, pos, trace =>
    let pass1 := nextPass pass
    let previousClusterCenters := m_clusters.map (fun c => c.center)
    match step m_clusters pos with
    | none => none
    | some (clusters1, pos1) =>
      let delta := convergenceDelta dist previousClusterCenters clusters1
      let trace1 := trace ++ [(pass1, delta)]
      if convergedTest delta maxDelta pass1 maxIterations then
        some { m_clusters := clusters1, pos := pos1, pass := pass1, trace := trace1 }
      else
        passLoop dist step maxIterations maxDelta fuel pass1 clusters1 pos1 trace1

/-- How a call of `cluster` ends. -/
inductive CallOutcome where
  | returned
  | assertFailed (message : String)
deriving DecidableEq, Repr

/-- What a call of `cluster` leaves behind: how it ended, the engine's clusters, the read
position of the random source, and the `(pass, delta)` pairs of the passes it ran. -/
structure CallResult (T : Type) where
  outcome : CallOutcome
  m_clusters : List (KMeansCluster T)
  pos : Nat
  trace : List (Nat × ℚ)

/-- Modelled from the spec: the macro `MLIB_ASSERT` is not among the sources at hand. The
spec says a violated precondition is fatal and aborts the call before any clustering work;
here the call ends at once with the message and the state it had. -/
def assertFailure (message : String) (m_clusters : List (KMeansCluster T)) (pos : Nat) :
    CallResult T :=
  { outcome := CallOutcome.assertFailed message, m_clusters := m_clusters, pos := pos,
    trace := [] }

/-- The seeding loop of `cluster`: `m_clusters[clusterIndex].init(elements.randomElement())`. -/
def seed (rng : Nat → Nat) (elements : List T) (clusters : List (KMeansCluster T))
    (pos : Nat) : Option (List (KMeansCluster T) × Nat) :=
  forEachClusterDraw KMeansCluster.init rng elements clusters pos

/-- The part of `cluster` after the seeding, shared by both overloads: the pass loop, started
with `pass = 0`. A 32-bit counter returns to every value within `2 ^ 32` increments, so that
many passes are allowed. -/
def runPasses (dist : T → T → ℚ)
    (step : List (KMeansCluster T) → Nat → Option (List (KMeansCluster T) × Nat))
    (maxIterations : Nat) (maxDelta : ℚ) (seeded : List (KMeansCluster T)) (pos : Nat) :
    Option (CallResult T) :=
  match passLoop dist step maxIterations maxDelta (2 ^ 32) 0 seeded pos [] with
  | none => none
  | some r =>
    some { outcome := CallOutcome.returned, m_clusters := r.m_clusters, pos := r.pos,
           trace := r.trace }

/-- The unweighted `KMeansClustering::cluster`, called on an engine whose clusters are
`m_clusters`, with the random source at read position `pos`. -/
def cluster [Zero T] [Add T] [SMul ℚ T] (dist : T → T → ℚ) (rng : Nat → Nat)
    (elements : List T) (clusterCount maxIterations : Nat) (maxDelta : ℚ)
    (m_clusters : List (KMeansCluster T)) (pos : Nat) : Option (CallResult T) :=
  if ¬ (elements.length ≥ clusterCount) then
    some (assertFailure "Too many clusters" m_clusters pos)
  else
    match seed rng elements (allocate clusterCount) pos with
    | none => none
    | some (seeded, pos1) =>
      runPasses dist (iterate dist rng elements) maxIterations maxDelta seeded pos1

/-- The loop `weightedElements[i] *= weights[i]` over a copy of `elements`. -/
def weightElements [SMul ℚ T] (elements : List T) (weights : List ℚ) : List T :=
  List.zipWith (fun e w => w • e) elements weights

/-- The weighted `KMeansClustering::cluster`. -/
def clusterWeighted [Zero T] [Add T] [SMul ℚ T] (dist : T → T → ℚ) (rng : Nat → Nat)
    (elements : List T) (weights : List ℚ) (clusterCount maxIterations : Nat) (maxDelta : ℚ)
    (m_clusters : List (KMeansCluster T)) (pos : Nat) : Option (CallResult T) :=
  if ¬ (elements.length ≥ clusterCount) then
    some (assertFailure "Too many clusters" m_clusters pos)
  else if ¬ (elements.length = weights.length) then
    some (assertFailure "Incorrect number of weights" m_clusters pos)
  else
    match seed rng elements (allocate clusterCount) pos with
    | none => none
    | some (seeded, pos1) =>
      runPasses dist (iterateWeighted dist rng elements (weightElements elements weights) weights)
        maxIterations maxDelta seeded pos1

/-- Squared distance of two numbers: the metric of the one-dimensional examples. -/
def distSq1 (a b : ℚ) : ℚ := (a - b) * (a - b)

/-- The index that the first loop of `iterate` stores for `e`, as a total function: `0` stands
in when the engine has no cluster to read. -/
def storedIndex (dist : T → T → ℚ) (clusters : List (KMeansCluster T)) (e : T) : Nat :=
  (closestClusterIndex dist clusters e).getD 0

/-- The pairs `(values[i], weights[i])` of the indices `i` with `storage[i] = j`, in index
order. With the weighted elements as `values` these are the entries that the second loop of
`iterate` hands to cluster `j`; with the raw elements as `values` they are the elements
assigned to cluster `j`, each with its weight. -/
def entriesOf (j : Nat) (values : List T) (weights : List ℚ) (storage : List Nat) :
    List (T × ℚ) :=
  (((values.zip weights).zip storage).filter (fun p => decide (p.2 = j))).map Prod.fst

/-- Three clusters with centers `0`, `10` and `10` and empty accumulators, for the examples.
The third one loses every tie against the second, so no element is assigned to it. -/
def exampleClusters : List (KMeansCluster ℚ) :=
  [{ center := 0, entries := [] }, { center := 10, entries := [] },
   { center := 10, entries := [] }]

/-- Three elements for the examples: `1` and `4` are nearest to center `0`, `9` to `10`. -/
def exampleElements : List ℚ := [1, 9, 4]

/-- Three weights for the examples. -/
def exampleWeights : List ℚ := [2, 1, 3]

/-- A cluster in the middle of a pass, with two accumulated entries, for the examples. -/
def exampleCluster : KMeansCluster ℚ := { center := 0, entries := [(2, 1), (12, 3)] }

/-- A cluster in the middle of a pass whose two accumulated entries both carry the weight `0`,
for the examples. -/
def zeroWeightCluster : KMeansCluster ℚ := { center := 0, entries := [(2, 0), (12, 0)] }

/-- A cluster with an empty accumulator, for the examples. -/
def emptyCluster : KMeansCluster ℚ := { center := 0, entries := [] }

/-- The method `KMeansClustering::clusterCount`: the size of `m_clusters`. -/
def clusterCount (m_clusters : List (KMeansCluster T)) : Nat := m_clusters.length

/-- The state after `n` passes run back to back from a given state, without the convergence
test between them; `step` is the call of `iterate`. The loop of `cluster` goes through a
prefix of these states. -/
def iteratePasses (step : List (KMeansCluster T) → Nat → Option (List (KMeansCluster T) × Nat)) :
    Nat → List (KMeansCluster T) → Nat → Option (List (KMeansCluster T) × Nat)
  | 0, clusters, pos => some (clusters, pos)
  | n + 1, clusters, pos =>
    match step clusters pos with
    | none => none
    | some (clusters1, pos1) => iteratePasses step n clusters1 pos1

/-- Modelled from the spec: the class `vec2f` is not among the sources at hand. It is a point
with two coordinates, added and scaled coordinate by coordinate. -/
abbrev vec2f : Type := ℚ × ℚ

/-- Modelled from the spec: the class `vec3f` is not among the sources at hand. It is a point
with three coordinates, added and scaled coordinate by coordinate. -/
abbrev vec3f : Type := ℚ × ℚ × ℚ

/-- Modelled from the spec: `vec2f::distSq` is not among the sources at hand. The spec names
the metric in use as the squared Euclidean distance in 2 dimensions. -/
def vec2f.distSq (L R : vec2f) : ℚ :=
  (L.1 - R.1) * (L.1 - R.1) + (L.2 - R.2) * (L.2 - R.2)

/-- Modelled from the spec: `vec3f::distSq` is not among the sources at hand. The spec names
the metric in use as the squared Euclidean distance in 3 dimensions. -/
def vec3f.distSq (L R : vec3f) : ℚ :=
  (L.1 - R.1) * (L.1 - R.1) + (L.2.1 - R.2.1) * (L.2.1 - R.2.1) +
    (L.2.2 - R.2.2) * (L.2.2 - R.2.2)

/-- The metric `Vec2fKMeansMetric::Dist`. -/
def Vec2fKMeansMetric.Dist (L R : vec2f) : ℚ := vec2f.distSq L R

/-- The metric `Vec3fKMeansMetric::Dist`. -/
def Vec3fKMeansMetric.Dist (L R : vec3f) : ℚ := vec3f.distSq L R

/-- The smallest distance from `e` to a center of `clusters`, and `0` when there is no
cluster: the term `min over clusters j of Dist(e, c_j)` of the k-means objective. -/
def minDist (dist : T → T → ℚ) (clusters : List (KMeansCluster T)) (e : T) : ℚ :=
  match clusters with
  | [] => 0
  | c0 :: rest => rest.foldl (fun m c => min m (dist e c.center)) (dist e c0.center)

/-- The k-means objective `J(c)`: the sum over the elements of the distance to the nearest
center. -/
def objective (dist : T → T → ℚ) (clusters : List (KMeansCluster T)) (elements : List T) : ℚ :=
  (elements.map (minDist dist clusters)).sum

/-- The two elements of the weighted one-dimensional example. -/
def lineElements : List ℚ := [0, 10]

/-- The four elements of the 2D example: the corners of a `10` by `1` rectangle. -/
def rectElements : List vec2f := [(0, 0), (0, 1), (10, 0), (10, 1)]

/-- The two unit weights of the weighted one-dimensional example. -/
def lineWeights : List ℚ := [1, 1]

/-- Two clusters with the given centers and empty accumulators: the state of an engine with
two clusters between passes. -/
def twoClusters (a b : T) : List (KMeansCluster T) :=
  [{ center := a, entries := [] }, { center := b, entries := [] }]

end KMeans

namespace ml

/-- The class `MeshData<FloatType>`: its eight data members. A `point3d`, `point2d` or
`point4d` is a tuple of coordinates; a face is the list of its indices. -/
structure MeshData (FloatType : Type) where
  m_Vertices : List (FloatType × FloatType × FloatType)
  m_Normals : List (FloatType × FloatType × FloatType)
  m_TextureCoords : List (FloatType × FloatType)
  m_Colors : List (FloatType × FloatType × FloatType × FloatType)
  m_FaceIndicesVertices : List (List Nat)
  m_FaceIndicesNormals : List (List Nat)
  m_FaceIndicesTextureCoords : List (List Nat)
  m_FaceIndicesColors : List (List Nat)

namespace MeshData

variable {FloatType : Type}

/-- The method `MeshData::hasNormals`. -/
def hasNormals (m : MeshData FloatType) : Bool := decide (m.m_Normals.length > 0)

/-- The method `MeshData::hasColors`. -/
def hasColors (m : MeshData FloatType) : Bool := decide (m.m_Colors.length > 0)

/-- The method `MeshData::hasTexCoords`. -/
def hasTexCoords (m : MeshData FloatType) : Bool := decide (m.m_TextureCoords.length > 0)

/-- The method `MeshData::hasPerVertexNormals`. -/
def hasPerVertexNormals (m : MeshData FloatType) : Bool :=
  m.hasNormals && decide (m.m_FaceIndicesNormals.length = 0)

/-- The method `MeshData::hasPerVertexColors`. -/
def hasPerVertexColors (m : MeshData FloatType) : Bool :=
  m.hasColors && decide (m.m_FaceIndicesColors.length = 0)

/-- The method `MeshData::hasPerVertexTexCoords`. -/
def hasPerVertexTexCoords (m : MeshData FloatType) : Bool :=
  m.hasTexCoords && decide (m.m_FaceIndicesTextureCoords.length = 0)

/-- The nested loops of the detailed check of `isConsistent` over one index array:
`for (auto& face : faces) for (auto& idx : face) if (idx >= bound) consistent = false;`. -/
def checkIndices (faces : List (List Nat)) (bound : Nat) (consistent : Bool) : Bool :=
  faces.foldl
    (fun acc face => face.foldl (fun acc1 idx => if idx ≥ bound then false else acc1) acc)
    consistent

/-- The method `MeshData::isConsistent(detailedCheck)`, statement by statement. The third size
test compares `m_FaceIndicesColors.size()` with itself, and the third index loop compares
the normal indices with `m_FaceIndicesNormals.size()`, as the source does. -/
def isConsistent (m : MeshData FloatType) (detailedCheck : Bool) : Bool :=
  let consistent0 := true
  let consistent1 :=
    if m.m_FaceIndicesNormals.length > 0 ∧
        m.m_FaceIndicesVertices.length ≠ m.m_FaceIndicesNormals.length then false
    else consistent0
  let consistent2 :=
    if m.m_FaceIndicesTextureCoords.length > 0 ∧
        m.m_FaceIndicesVertices.length ≠ m.m_FaceIndicesTextureCoords.length then false
    else consistent1
  let consistent3 :=
    if m.m_FaceIndicesColors.length > 0 ∧
        m.m_FaceIndicesColors.length ≠ m.m_FaceIndicesColors.length then false
    else consistent2
  let consistent4 :=
    if m.hasPerVertexNormals = true ∧ m.m_Vertices.length ≠ m.m_Normals.length then false
    else consistent3
  let consistent5 :=
    if m.hasPerVertexTexCoords = true ∧ m.m_Vertices.length ≠ m.m_TextureCoords.length then false
    else consistent4
  let consistent6 :=
    if m.hasPerVertexColors = true ∧ m.m_Vertices.length ≠ m.m_Colors.length then false
    else consistent5
  if detailedCheck then
    let consistent7 := checkIndices m.m_FaceIndicesVertices m.m_Vertices.length consistent6
    let consistent8 := checkIndices m.m_FaceIndicesColors m.m_Colors.length consistent7
    checkIndices m.m_FaceIndicesNormals m.m_FaceIndicesNormals.length consistent8
  else consistent6

/-- A mesh of three vertices and one normal with two faces; the first face names normal `1`,
which does not exist. -/
def strayNormalMesh : MeshData ℚ :=
  { m_Vertices := [(0, 0, 0), (1, 0, 0), (0, 1, 0)],
    m_Normals := [(0, 0, 1)],
    m_TextureCoords := [],
    m_Colors := [],
    m_FaceIndicesVertices := [[0, 1, 2], [0, 2, 1]],
    m_FaceIndicesNormals := [[1, 1, 1], [0, 0, 0]],
    m_FaceIndicesTextureCoords := [],
    m_FaceIndicesColors := [] }

/-- The method `MeshData::hasVertexIndices`. -/
def hasVertexIndices (m : MeshData FloatType) : Bool :=
  decide (m.m_FaceIndicesVertices.length > 0)

/-- The method `MeshData::hasColorIndices`. -/
def hasColorIndices (m : MeshData FloatType) : Bool :=
  decide (m.m_FaceIndicesColors.length > 0)

/-- The method `MeshData::hasNormalIndices`. -/
def hasNormalIndices (m : MeshData FloatType) : Bool :=
  decide (m.m_FaceIndicesNormals.length > 0)

/-- The method `MeshData::hasTexCoordsIndices`. -/
def hasTexCoordsIndices (m : MeshData FloatType) : Bool :=
  decide (m.m_FaceIndicesTextureCoords.length > 0)

/-- The faces of `other` as `merge` appends them: the loop
`for (auto& idx : faces[i]) idx += (unsigned int)before` over the appended faces, a 32-bit
unsigned addition of the count truncated to 32 bits. -/
def shiftFaces (faces : List (List Nat)) (before : Nat) : List (List Nat) :=
  faces.map (fun face => face.map (fun idx => (idx + before % 2 ^ 32) % 2 ^ 32))

/-- The method `MeshData::merge(other)`, statement by statement; the thrown
`MLIB_EXCEPTION` is the result `Except.error`, and the mesh is left as it was. -/
def merge (m other : MeshData FloatType) : Except String (MeshData FloatType) :=
  if m.hasVertexIndices != other.hasVertexIndices then
    Except.error "invalid mesh conversion"
  else
    let m1 :=
      if (m.hasNormals != other.hasNormals || m.hasNormalIndices != other.hasNormalIndices) = true
      then { m with m_Normals := [], m_FaceIndicesNormals := [] }
      else m
    let m2 :=
      if (m1.hasColors != other.hasColors || m1.hasColorIndices != other.hasColorIndices) = true
      then { m1 with m_Colors := [], m_FaceIndicesColors := [] }
      else m1
    let m3 :=
      if (m2.hasTexCoords != other.hasTexCoords ||
          m2.hasTexCoordsIndices != other.hasTexCoordsIndices) = true
      then { m2 with m_TextureCoords := [], m_FaceIndicesTextureCoords := [] }
      else m2
    let vertsBefore := m3.m_Vertices.length
    let normsBefore := m3.m_Normals.length
    let colorBefore := m3.m_Colors.length
    let texCoordsBefore := m3.m_TextureCoords.length
    let m4 := { m3 with m_Vertices := m3.m_Vertices ++ other.m_Vertices }
    let m5 :=
      if m4.hasColors = true then { m4 with m_Colors := m4.m_Colors ++ other.m_Colors } else m4
    let m6 :=
      if m5.hasNormals = true then { m5 with m_Normals := m5.m_Normals ++ other.m_Normals }
      else m5
    let m7 :=
      if m6.hasTexCoords = true then
        { m6 with m_TextureCoords := m6.m_TextureCoords ++ other.m_TextureCoords }
      else m6
    let m8 :=
      if m7.hasVertexIndices = true then
        { m7 with m_FaceIndicesVertices :=
            m7.m_FaceIndicesVertices ++ shiftFaces other.m_FaceIndicesVertices vertsBefore }
      else m7
    let m9 :=
      if m8.hasNormalIndices = true then
        { m8 with m_FaceIndicesNormals :=
            m8.m_FaceIndicesNormals ++ shiftFaces other.m_FaceIndicesNormals normsBefore }
      else m8
    let m10 :=
      if m9.hasColorIndices = true then
        { m9 with m_FaceIndicesColors :=
            m9.m_FaceIndicesColors ++ shiftFaces other.m_FaceIndicesColors colorBefore }
      else m9
    let m11 :=
      if m10.hasTexCoordsIndices = true then
        { m10 with m_FaceIndicesTextureCoords :=
            m10.m_FaceIndicesTextureCoords ++
              shiftFaces other.m_FaceIndicesTextureCoords texCoordsBefore }
      else m10
    Except.ok m11

/-- A mesh of one triangle: three vertices, one face, nothing else. -/
def triangleMesh : MeshData ℚ :=
  { m_Vertices := [(0, 0, 1), (1, 0, 1), (0, 1, 1)],
    m_Normals := [],
    m_TextureCoords := [],
    m_Colors := [],
    m_FaceIndicesVertices := [[0, 1, 2]],
    m_FaceIndicesNormals := [],
    m_FaceIndicesTextureCoords := [],
    m_FaceIndicesColors := [] }

end MeshData

end ml

namespace KMeans

variable {T : Type}

/-! Lemmas on the nearest-cluster scan. -/

theorem closestLoop_spec (dist : T → T → ℚ) (e : T) (rest : List (KMeansCluster T)) :
    ∀ (pre : List (KMeansCluster T)) (b : Nat) (d : ℚ) (cb : KMeansCluster T),
      (pre ++ rest)[b]? = some cb → d = dist e cb.center → b < pre.length →
      (∀ (j : Nat) (cj : KMeansCluster T), pre[j]? = some cj → d ≤ dist e cj.center) →
      (∀ (j : Nat) (cj : KMeansCluster T), j < b → pre[j]? = some cj → d < dist e cj.center) →
      ∃ cr, (pre ++ rest)[closestLoop dist e rest pre.length b d]? = some cr ∧
        (∀ (j : Nat) (cj : KMeansCluster T), (pre ++ rest)[j]? = some cj →
          dist e cr.center ≤ dist e cj.center) ∧
        (∀ (j : Nat) (cj : KMeansCluster T), j < closestLoop dist e rest pre.length b d →
          (pre ++ rest)[j]? = some cj → dist e cr.center < dist e cj.center) := by
  induction rest with
  | nil =>
    intro pre b d cb hb hd _ hmin hlow
    refine ⟨cb, by simpa [closestLoop] using hb, ?_, ?_⟩
    · intro j cj hj
      rw [← hd]
      exact hmin j cj (by simpa using hj)
    · intro j cj hjb hj
      rw [← hd]
      exact hlow j cj (by simpa [closestLoop] using hjb) (by simpa using hj)
  | cons c rest ih =>
    intro pre b d cb hb hd hlt hmin hlow
    have hlen : (pre ++ [c]).length = pre.length + 1 := by simp
    have happ : pre ++ c :: rest = (pre ++ [c]) ++ rest := by simp
    have hget : ∀ (j : Nat) (cj : KMeansCluster T), (pre ++ [c])[j]? = some cj →
        (pre[j]? = some cj ∧ j < pre.length) ∨ (j = pre.length ∧ cj = c) := by
      intro j cj hj
      rcases Nat.lt_or_ge j pre.length with h | h
      · left
        rw [List.getElem?_append_left h] at hj
        exact ⟨hj, h⟩
      · right
        rw [List.getElem?_append_right h] at hj
        rcases Nat.eq_or_lt_of_le h with h1 | h1
        · subst h1
          simp at hj
          exact ⟨rfl, hj.symm⟩
        · have : 0 < j - pre.length := Nat.sub_pos_of_lt h1
          obtain ⟨m, hm⟩ := Nat.exists_eq_succ_of_ne_zero (Nat.pos_iff_ne_zero.mp this)
          rw [hm] at hj
          simp at hj
    simp only [closestLoop]
    split
    · rename_i hcur
      rw [happ, ← hlen]
      apply ih (pre ++ [c]) pre.length (dist e c.center) c
      · rw [List.getElem?_append_left (by simp)]
        simp
      · rfl
      · simp
      · intro j cj hj
        rcases hget j cj hj with ⟨h1, _⟩ | ⟨_, h2⟩
        · exact le_of_lt (lt_of_lt_of_le hcur (hmin j cj h1))
        · rw [h2]
      · intro j cj hjlt hj
        rcases hget j cj hj with ⟨h1, _⟩ | ⟨h2, _⟩
        · exact lt_of_lt_of_le hcur (hmin j cj h1)
        · omega
    · rename_i hcur
      rw [happ, ← hlen]
      apply ih (pre ++ [c]) b d cb
      · rw [← happ]; exact hb
      · exact hd
      · simp; omega
      · intro j cj hj
        rcases hget j cj hj with ⟨h1, _⟩ | ⟨_, h2⟩
        · exact hmin j cj h1
        · rw [h2]; exact not_lt.mp hcur
      · intro j cj hjlt hj
        rcases hget j cj hj with ⟨h1, _⟩ | ⟨h2, _⟩
        · exact hlow j cj hjlt h1
        · omega

theorem closestClusterIndex_spec (dist : T → T → ℚ) (clusters : List (KMeansCluster T))
    (e : T) (hne : clusters ≠ []) :
    ∃ i ci, closestClusterIndex dist clusters e = some i ∧ clusters[i]? = some ci ∧
      (∀ (j : Nat) (cj : KMeansCluster T), clusters[j]? = some cj → dist e ci.center ≤ dist e cj.center) ∧
      (∀ (j : Nat) (cj : KMeansCluster T), j < i → clusters[j]? = some cj → dist e ci.center < dist e cj.center) := by
  cases clusters with
  | nil => exact absurd rfl hne
  | cons c0 rest =>
    have h := closestLoop_spec dist e rest [c0] 0 (dist e c0.center) c0 (by simp) rfl (by simp)
      (by
        intro j cj hj
        cases j with
        | zero => simp at hj; rw [hj]
        | succ n => simp at hj)
      (by intro j cj hj; omega)
    obtain ⟨cr, h1, h2, h3⟩ := h
    exact ⟨_, cr, rfl, h1, h2, h3⟩

theorem closestClusterIndex_eq_storedIndex (dist : T → T → ℚ)
    (clusters : List (KMeansCluster T)) (e : T) (hne : clusters ≠ []) :
    closestClusterIndex dist clusters e = some (storedIndex dist clusters e) := by
  cases clusters with
  | nil => exact absurd rfl hne
  | cons c0 rest => rfl

theorem storedIndex_spec (dist : T → T → ℚ) (clusters : List (KMeansCluster T))
    (e : T) (hne : clusters ≠ []) :
    ∃ ci, clusters[storedIndex dist clusters e]? = some ci ∧
      (∀ (j : Nat) (cj : KMeansCluster T), clusters[j]? = some cj →
        dist e ci.center ≤ dist e cj.center) ∧
      (∀ (j : Nat) (cj : KMeansCluster T), j < storedIndex dist clusters e →
        clusters[j]? = some cj → dist e ci.center < dist e cj.center) := by
  obtain ⟨i, ci, h0, h1, h2, h3⟩ := closestClusterIndex_spec dist clusters e hne
  have hi : storedIndex dist clusters e = i := by simp [storedIndex, h0]
  rw [hi]
  exact ⟨ci, h1, h2, h3⟩

theorem storedIndex_lt (dist : T → T → ℚ) (clusters : List (KMeansCluster T))
    (e : T) (hne : clusters ≠ []) : storedIndex dist clusters e < clusters.length := by
  obtain ⟨ci, h, _⟩ := storedIndex_spec dist clusters e hne
  by_contra hge
  rw [List.getElem?_eq_none (not_lt.mp hge)] at h
  cases h

theorem forEach_eq_map {α β : Type} (body : α → Option β) (g : α → β) (l : List α)
    (h : ∀ a, a ∈ l → body a = some (g a)) : forEach body l = some (l.map g) := by
  induction l with
  | nil => rfl
  | cons a rest ih =>
    have h1 := h a (List.mem_cons_self a rest)
    have h2 := ih (fun x hx => h x (List.mem_cons_of_mem a hx))
    simp [forEach, h1, h2]

theorem iterateStorage_eq (dist : T → T → ℚ) (clusters : List (KMeansCluster T))
    (elements : List T) (hne : clusters ≠ []) :
    iterateStorage dist clusters elements = some (elements.map (storedIndex dist clusters)) :=
  forEach_eq_map _ _ _ (fun a _ => closestClusterIndex_eq_storedIndex dist clusters a hne)

theorem iterateWeightedStorage_eq (dist : T → T → ℚ) (clusters : List (KMeansCluster T))
    (elements weightedElements : List T) (weights : List ℚ) (hne : clusters ≠ []) :
    iterateWeightedStorage dist clusters elements weightedElements weights =
      some (elements.map (storedIndex dist clusters)) :=
  forEach_eq_map _ _ _ (fun a _ => closestClusterIndex_eq_storedIndex dist clusters a hne)

/-- C1: in both `iterate` overloads the assignment loop succeeds on a non-empty list of
clusters, and the index it stores for an element `e` is a cluster whose center is at least as
close to `e` as every other center, and strictly closer than every center of lower index. -/
theorem iterate_assignment_lowest_nearest (dist : T → T → ℚ)
    (clusters : List (KMeansCluster T)) (elements weightedElements : List T) (weights : List ℚ)
    (hne : clusters ≠ []) :
    ∃ storage, iterateStorage dist clusters elements = some storage ∧
      iterateWeightedStorage dist clusters elements weightedElements weights = some storage ∧
      storage.length = elements.length ∧
      ∀ (k : Nat) (e : T), elements[k]? = some e →
        ∃ i ci, storage[k]? = some i ∧ clusters[i]? = some ci ∧
          (∀ (j : Nat) (cj : KMeansCluster T), clusters[j]? = some cj →
            dist e ci.center ≤ dist e cj.center) ∧
          (∀ (j : Nat) (cj : KMeansCluster T), j < i → clusters[j]? = some cj →
            dist e ci.center < dist e cj.center) := by
  refine ⟨elements.map (storedIndex dist clusters), iterateStorage_eq dist clusters elements hne,
    iterateWeightedStorage_eq dist clusters elements weightedElements weights hne, by simp, ?_⟩
  intro k e hk
  obtain ⟨ci, h1, h2, h3⟩ := storedIndex_spec dist clusters e hne
  exact ⟨storedIndex dist clusters e, ci, by simp [List.getElem?_map, hk], h1, h2, h3⟩

/-- C2: on an engine with at least one cluster `quantizeToNearestClusterIndex` returns an
index whose center is at least as close to the element as every other center and strictly
closer than every center of lower index, and the assignment loop of a pass stores that same
index for the element wherever it occurs among the elements. -/
theorem quantizeToNearestClusterIndex_lowest_nearest (dist : T → T → ℚ)
    (m_clusters : List (KMeansCluster T)) (element : T) (hne : m_clusters ≠ []) :
    ∃ i ci, quantizeToNearestClusterIndex dist m_clusters element = some i ∧
      m_clusters[i]? = some ci ∧
      (∀ (j : Nat) (cj : KMeansCluster T), m_clusters[j]? = some cj →
        dist element ci.center ≤ dist element cj.center) ∧
      (∀ (j : Nat) (cj : KMeansCluster T), j < i → m_clusters[j]? = some cj →
        dist element ci.center < dist element cj.center) ∧
      ∀ (elements : List T) (k : Nat), elements[k]? = some element →
        ∃ storage, iterateStorage dist m_clusters elements = some storage ∧
          storage[k]? = some i := by
  obtain ⟨ci, h1, h2, h3⟩ := storedIndex_spec dist m_clusters element hne
  refine ⟨storedIndex dist m_clusters element, ci, ?_, h1, h2, h3, ?_⟩
  · cases m_clusters with
    | nil => exact absurd rfl hne
    | cons c0 rest => rfl
  · intro elements k hk
    exact ⟨_, iterateStorage_eq dist m_clusters elements hne, by simp [List.getElem?_map, hk]⟩

/-! Lemmas on the accumulation loop. -/

theorem modifyAt_some_of_lt {α : Type} (f : α → α) (xs : List α) :
    ∀ (s : Nat), s < xs.length → ∃ ys, modifyAt f xs s = some ys := by
  induction xs with
  | nil => intro s hs; simp at hs
  | cons x xs ih =>
    intro s hs
    cases s with
    | zero => exact ⟨_, rfl⟩
    | succ n =>
      obtain ⟨ys, hys⟩ := ih n (by simpa using hs)
      exact ⟨x :: ys, by simp [modifyAt, hys]⟩

theorem modifyAt_spec {α : Type} (f : α → α) (xs : List α) :
    ∀ (s : Nat) (ys : List α), modifyAt f xs s = some ys →
      ys.length = xs.length ∧ s < xs.length ∧
      ∀ (j : Nat), ys[j]? = if j = s then (xs[j]?).map f else xs[j]? := by
  induction xs with
  | nil => intro s ys h; simp [modifyAt] at h
  | cons x xs ih =>
    intro s ys h
    cases s with
    | zero =>
      simp only [modifyAt, Option.some.injEq] at h
      subst h
      refine ⟨by simp, by simp, ?_⟩
      intro j
      cases j with
      | zero => simp
      | succ n => simp
    | succ n =>
      simp only [modifyAt] at h
      cases hm : modifyAt f xs n with
      | none => rw [hm] at h; cases h
      | some zs =>
        rw [hm] at h
        simp only [Option.some.injEq] at h
        subst h
        obtain ⟨h1, h2, h3⟩ := ih n zs hm
        refine ⟨by simp [h1], by simpa using h2, ?_⟩
        intro j
        cases j with
        | zero => simp
        | succ m => simpa using h3 m

theorem entriesOf_cons (j : Nat) (we : T) (w : ℚ) (s : Nat) (wE : List T) (ws : List ℚ)
    (ss : List Nat) :
    entriesOf j (we :: wE) (w :: ws) (s :: ss) =
      if s = j then (we, w) :: entriesOf j wE ws ss else entriesOf j wE ws ss := by
  by_cases h : s = j <;> simp [entriesOf, List.filter_cons, h]

theorem accumulateWeighted_spec (elements : List T) :
    ∀ (wE : List T) (ws : List ℚ) (storage : List Nat) (clusters acc : List (KMeansCluster T)),
      wE.length = elements.length → ws.length = elements.length →
      storage.length = elements.length →
      accumulateWeighted clusters elements wE ws storage = some acc →
      acc.length = clusters.length ∧
      (∀ (s : Nat), s ∈ storage → s < clusters.length) ∧
      ∀ (j : Nat) (c : KMeansCluster T), clusters[j]? = some c →
        acc[j]? = some { center := c.center, entries := c.entries ++ entriesOf j wE ws storage } := by
  induction elements with
  | nil =>
    intro wE ws storage clusters acc h1 h2 h3 h
    have e1 : wE = [] := List.length_eq_zero.mp h1
    have e2 : ws = [] := List.length_eq_zero.mp h2
    have e3 : storage = [] := List.length_eq_zero.mp h3
    subst e1 e2 e3
    simp only [accumulateWeighted, Option.some.injEq] at h
    subst h
    refine ⟨rfl, by simp, ?_⟩
    intro j c hc
    simp [entriesOf, hc]
  | cons e elements ih =>
    intro wE ws storage clusters acc h1 h2 h3 h
    cases wE with
    | nil => simp at h1
    | cons we wE =>
      cases ws with
      | nil => simp at h2
      | cons w ws =>
        cases storage with
        | nil => simp at h3
        | cons s ss =>
          simp only [accumulateWeighted] at h
          cases hm : modifyAt (fun c => c.addEntry we w) clusters s with
          | none => rw [hm] at h; cases h
          | some clusters1 =>
            rw [hm] at h
            obtain ⟨m1, m2, m3⟩ := modifyAt_spec _ clusters s clusters1 hm
            obtain ⟨a1, a2, a3⟩ := ih wE ws ss clusters1 acc (by simpa using h1)
              (by simpa using h2) (by simpa using h3) h
            refine ⟨by rw [a1, m1], ?_, ?_⟩
            · intro x hx
              rcases List.mem_cons.mp hx with hx | hx
              · rw [hx]; exact m2
              · rw [← m1]; exact a2 x hx
            · intro j c hc
              have hj := m3 j
              rw [hc] at hj
              rw [entriesOf_cons]
              by_cases hjs : j = s
              · subst hjs
                simp only [if_true, Option.map_some'] at hj
                rw [a3 j _ hj]
                simp [KMeansCluster.addEntry]
              · simp only [hjs, if_false] at hj
                rw [a3 j _ hj]
                have : ¬ s = j := fun h => hjs h.symm
                simp [this]

theorem accumulateWeighted_some (elements : List T) :
    ∀ (wE : List T) (ws : List ℚ) (storage : List Nat) (clusters : List (KMeansCluster T)),
      wE.length = elements.length → ws.length = elements.length →
      storage.length = elements.length → (∀ (s : Nat), s ∈ storage → s < clusters.length) →
      ∃ acc, accumulateWeighted clusters elements wE ws storage = some acc := by
  induction elements with
  | nil => intro wE ws storage clusters _ _ _ _; exact ⟨clusters, rfl⟩
  | cons e elements ih =>
    intro wE ws storage clusters h1 h2 h3 hs
    cases wE with
    | nil => simp at h1
    | cons we wE =>
      cases ws with
      | nil => simp at h2
      | cons w ws =>
        cases storage with
        | nil => simp at h3
        | cons s ss =>
          obtain ⟨clusters1, hm⟩ := modifyAt_some_of_lt (fun c => c.addEntry we w) clusters s
            (hs s (List.mem_cons_self s ss))
          obtain ⟨m1, _, _⟩ := modifyAt_spec _ clusters s clusters1 hm
          obtain ⟨acc, hacc⟩ := ih wE ws ss clusters1 (by simpa using h1) (by simpa using h2)
            (by simpa using h3) (fun x hx => by rw [m1]; exact hs x (List.mem_cons_of_mem s hx))
          exact ⟨acc, by simp [accumulateWeighted, hm, hacc]⟩

theorem accumulate_eq_accumulateWeighted (elements : List T) :
    ∀ (storage : List Nat) (clusters : List (KMeansCluster T)),
      storage.length = elements.length →
      accumulate clusters elements storage =
        accumulateWeighted clusters elements elements (List.replicate elements.length 1)
          storage := by
  induction elements with
  | nil => intro storage clusters _; simp [accumulate, accumulateWeighted]
  | cons e elements ih =>
    intro storage clusters h
    cases storage with
    | nil => simp at h
    | cons s ss =>
      have hf : (fun c : KMeansCluster T => c.addEntryUnit e) = (fun c => c.addEntry e 1) := rfl
      simp only [accumulate, List.length_cons, List.replicate_succ, accumulateWeighted, hf]
      cases hm : modifyAt (fun c : KMeansCluster T => c.addEntry e 1) clusters s with
      | none => rfl
      | some clusters1 => exact ih ss clusters1 (by simpa using h)

/-! Lemmas on the random draws and on the finalize loop. -/

theorem randomElement_some (elements : List T) (draw : Nat) (hne : elements ≠ []) :
    ∃ d, randomElement elements draw = some d ∧ d ∈ elements := by
  have hpos : 0 < elements.length := List.length_pos.mpr hne
  have hlt : draw % elements.length < elements.length := Nat.mod_lt _ hpos
  refine ⟨elements[draw % elements.length], ?_, List.getElem_mem _⟩
  simp [randomElement, List.getElem?_eq_getElem hlt]

theorem forEachClusterDraw_spec (f : KMeansCluster T → T → KMeansCluster T) (rng : Nat → Nat)
    (elements : List T) (hne : elements ≠ []) (clusters : List (KMeansCluster T)) :
    ∀ (pos : Nat), ∃ res, forEachClusterDraw f rng elements clusters pos =
        some (res, pos + clusters.length) ∧ res.length = clusters.length ∧
      ∀ (j : Nat) (c : KMeansCluster T), clusters[j]? = some c →
        ∃ d, randomElement elements (rng (pos + j)) = some d ∧ d ∈ elements ∧
          res[j]? = some (f c d) := by
  induction clusters with
  | nil => intro pos; exact ⟨[], rfl, rfl, by intro j c h; simp at h⟩
  | cons c0 rest ih =>
    intro pos
    obtain ⟨d0, hd0, hmem0⟩ := randomElement_some elements (rng pos) hne
    obtain ⟨res, h1, h2, h3⟩ := ih (pos + 1)
    refine ⟨f c0 d0 :: res, ?_, by simp [h2], ?_⟩
    · simp [forEachClusterDraw, hd0, h1]; omega
    · intro j c hc
      cases j with
      | zero =>
        simp only [List.getElem?_cons_zero, Option.some.injEq] at hc
        subst hc
        exact ⟨d0, hd0, hmem0, by simp⟩
      | succ n =>
        simp only [List.getElem?_cons_succ] at hc
        obtain ⟨d, a1, a2, a3⟩ := h3 n c hc
        refine ⟨d, ?_, a2, by simpa using a3⟩
        rw [← a1]
        congr 2
        omega

theorem finalizeLoop_eq [AddMonoid T] (rest : List (T × ℚ)) :
    ∀ (sum : ℚ) (newCenter : T),
      KMeansCluster.finalizeLoop rest sum newCenter =
        (sum + (rest.map Prod.snd).sum, newCenter + (rest.map Prod.fst).sum) := by
  induction rest with
  | nil => intro sum newCenter; simp [KMeansCluster.finalizeLoop]
  | cons entry rest ih =>
    intro sum newCenter
    simp [KMeansCluster.finalizeLoop, ih, add_assoc]

theorem finalizeIteration_nonempty [AddMonoid T] [SMul ℚ T] (c : KMeansCluster T)
    (fallbackElement : T) (hne : c.entries ≠ []) :
    c.finalizeIteration fallbackElement =
      { center :=
          if 0 < (c.entries.map Prod.snd).sum then
            (1 / (c.entries.map Prod.snd).sum) • (c.entries.map Prod.fst).sum
          else (c.entries.map Prod.fst).sum,
        entries := [] } := by
  obtain ⟨center, entries⟩ := c
  cases entries with
  | nil => exact absurd rfl hne
  | cons entry0 rest =>
    simp [KMeansCluster.finalizeIteration, finalizeLoop_eq]

theorem finalizeIteration_empty [Add T] [SMul ℚ T] (c : KMeansCluster T)
    (fallbackElement : T) (hempty : c.entries = []) :
    c.finalizeIteration fallbackElement = { center := fallbackElement, entries := [] } := by
  obtain ⟨center, entries⟩ := c
  simp only at hempty
  subst hempty
  rfl

/-! Lemmas on one whole pass. -/

theorem entriesOf_eq_nil (j : Nat) (wE : List T) (ws : List ℚ) (storage : List Nat)
    (hj : j ∉ storage) : entriesOf j wE ws storage = [] := by
  unfold entriesOf
  rw [List.map_eq_nil_iff, List.filter_eq_nil_iff]
  intro p hp
  obtain ⟨a, b⟩ := p
  have hb : b ∈ storage := (List.of_mem_zip hp).2
  simp only [decide_eq_true_eq]
  intro hbj
  exact hj (hbj ▸ hb)

theorem entriesOf_weightElements [SMul ℚ T] (j : Nat) (elements : List T) :
    ∀ (ws : List ℚ) (storage : List Nat),
      entriesOf j (weightElements elements ws) ws storage =
        (entriesOf j elements ws storage).map (fun p => (p.2 • p.1, p.2)) := by
  induction elements with
  | nil => intro ws storage; simp [entriesOf, weightElements]
  | cons e elements ih =>
    intro ws storage
    cases ws with
    | nil => simp [entriesOf, weightElements]
    | cons w ws =>
      cases storage with
      | nil => simp [entriesOf, weightElements]
      | cons s ss =>
        have hw : weightElements (e :: elements) (w :: ws) = (w • e) :: weightElements elements ws :=
          rfl
        rw [hw, entriesOf_cons, entriesOf_cons, ih ws ss]
        by_cases h : s = j <;> simp [h]

theorem iterateWeighted_pass [Add T] [SMul ℚ T] (dist : T → T → ℚ) (rng : Nat → Nat)
    (elements wE : List T) (ws : List ℚ) (clusters : List (KMeansCluster T)) (pos : Nat)
    (hc : clusters ≠ []) (he : elements ≠ []) (h1 : wE.length = elements.length)
    (h2 : ws.length = elements.length) :
    ∃ res, iterateWeighted dist rng elements wE ws clusters pos =
        some (res, pos + clusters.length) ∧ res.length = clusters.length ∧
      ∀ (j : Nat) (c : KMeansCluster T), clusters[j]? = some c →
        ∃ d, randomElement elements (rng (pos + j)) = some d ∧ d ∈ elements ∧
          res[j]? = some (KMeansCluster.finalizeIteration
            { center := c.center,
              entries := c.entries ++
                entriesOf j wE ws (elements.map (storedIndex dist clusters)) } d) := by
  have hlen : (elements.map (storedIndex dist clusters)).length = elements.length := by simp
  have hlt : ∀ (s : Nat), s ∈ elements.map (storedIndex dist clusters) → s < clusters.length := by
    intro s hs
    obtain ⟨e, _, rfl⟩ := List.mem_map.mp hs
    exact storedIndex_lt dist clusters e hc
  obtain ⟨acc, hacc⟩ := accumulateWeighted_some elements wE ws _ clusters h1 h2 hlen hlt
  obtain ⟨a1, _, a3⟩ := accumulateWeighted_spec elements wE ws _ clusters acc h1 h2 hlen hacc
  obtain ⟨res, r1, r2, r3⟩ :=
    forEachClusterDraw_spec KMeansCluster.finalizeIteration rng elements he acc pos
  refine ⟨res, ?_, by rw [r2, a1], ?_⟩
  · simp only [iterateWeighted, iterateWeightedStorage_eq dist clusters elements wE ws hc, hacc,
      finalizeAll, r1, a1]
  · intro j c hjc
    obtain ⟨d, d1, d2, d3⟩ := r3 j _ (a3 j c hjc)
    exact ⟨d, d1, d2, d3⟩

theorem iterate_eq_iterateWeighted [Add T] [SMul ℚ T] (dist : T → T → ℚ) (rng : Nat → Nat)
    (elements : List T) (clusters : List (KMeansCluster T)) (pos : Nat) (hc : clusters ≠ []) :
    iterate dist rng elements clusters pos =
      iterateWeighted dist rng elements elements (List.replicate elements.length 1)
        clusters pos := by
  simp only [iterate, iterateWeighted, iterateStorage_eq dist clusters elements hc,
    iterateWeightedStorage_eq dist clusters elements _ _ hc]
  rw [accumulate_eq_accumulateWeighted elements _ clusters (by simp)]

/-- C3: `finalizeIteration` on a non-empty accumulator whose weights sum to a positive number
sets the center to the sum of all accumulated values scaled by `1 / (sum of all accumulated
weights)`, for every accumulator content; the result is the same for every fallback. -/
theorem finalizeIteration_center_weighted_mean [AddMonoid T] [SMul ℚ T] (c : KMeansCluster T)
    (fallbackElement : T) (hne : c.entries ≠ [])
    (hpos : 0 < (c.entries.map Prod.snd).sum) :
    (c.finalizeIteration fallbackElement).center =
        (1 / (c.entries.map Prod.snd).sum) • (c.entries.map Prod.fst).sum ∧
      ∀ (other : T), c.finalizeIteration other = c.finalizeIteration fallbackElement := by
  constructor
  · rw [finalizeIteration_nonempty c fallbackElement hne]
    simp [hpos]
  · intro other
    rw [finalizeIteration_nonempty c fallbackElement hne, finalizeIteration_nonempty c other hne]

/-- The center after `finalizeIteration`, by the three outcomes of the code: the fallback on
an empty accumulator; on a non-empty one the sum of the values scaled by
`1 / (sum of the weights)` if the guard `sum > 0` holds, and the raw sum of the values if it
does not. -/
theorem finalizeIteration_center_cases [AddMonoid T] [SMul ℚ T] (c : KMeansCluster T)
    (fallbackElement : T) :
    (c.entries = [] → (c.finalizeIteration fallbackElement).center = fallbackElement) ∧
    (c.entries ≠ [] → 0 < (c.entries.map Prod.snd).sum →
      (c.finalizeIteration fallbackElement).center =
        (1 / (c.entries.map Prod.snd).sum) • (c.entries.map Prod.fst).sum) ∧
    (c.entries ≠ [] → (c.entries.map Prod.snd).sum ≤ 0 →
      (c.finalizeIteration fallbackElement).center = (c.entries.map Prod.fst).sum) := by
  refine ⟨?_, ?_, ?_⟩
  · intro h
    rw [finalizeIteration_empty c fallbackElement h]
  · intro hne hpos
    rw [finalizeIteration_nonempty c fallbackElement hne]
    simp [hpos]
  · intro hne hle
    rw [finalizeIteration_nonempty c fallbackElement hne]
    simp [not_lt.mpr hle]

theorem weight_sum_nonneg (entries : List (T × ℚ))
    (hw : ∀ (entry : T × ℚ), entry ∈ entries → 0 ≤ entry.2) :
    0 ≤ (entries.map Prod.snd).sum := by
  apply List.sum_nonneg
  intro w hmem
  obtain ⟨entry, hentry, rfl⟩ := List.mem_map.mp hmem
  exact hw entry hentry

/-- C6: on an accumulator whose weights are all non-negative (the weights the specification
allows), and for every such accumulator content and every fallback, the center after
`finalizeIteration` is the fallback when the accumulator is empty; when the accumulator is
non-empty it is the sum of the values scaled by `1 / (sum of the weights)`, that is the
weighted mean, unless the weight sum is zero; and in that degenerate non-empty case it is the
raw unnormalised sum of the values. The accumulator is empty afterwards in every case. -/
theorem finalizeIteration_center_mean_or_fallback [AddMonoid T] [SMul ℚ T]
    (c : KMeansCluster T) (fallbackElement : T)
    (hw : ∀ (entry : T × ℚ), entry ∈ c.entries → 0 ≤ entry.2) :
    (c.entries = [] → (c.finalizeIteration fallbackElement).center = fallbackElement) ∧
    (c.entries ≠ [] → (c.entries.map Prod.snd).sum ≠ 0 →
      (c.finalizeIteration fallbackElement).center =
        (1 / (c.entries.map Prod.snd).sum) • (c.entries.map Prod.fst).sum) ∧
    (c.entries ≠ [] → (c.entries.map Prod.snd).sum = 0 →
      (c.finalizeIteration fallbackElement).center = (c.entries.map Prod.fst).sum) ∧
    (c.finalizeIteration fallbackElement).entries = [] := by
  have hsum := weight_sum_nonneg c.entries hw
  refine ⟨?_, ?_, ?_, ?_⟩
  · intro h
    rw [finalizeIteration_empty c fallbackElement h]
  · intro hne hnz
    have hpos : 0 < (c.entries.map Prod.snd).sum := lt_of_le_of_ne hsum (Ne.symm hnz)
    rw [finalizeIteration_nonempty c fallbackElement hne]
    simp [hpos]
  · intro hne hz
    rw [finalizeIteration_nonempty c fallbackElement hne]
    simp [hz]
  · by_cases h : c.entries = []
    · rw [finalizeIteration_empty c fallbackElement h]
    · rw [finalizeIteration_nonempty c fallbackElement h]

/-- C4: one pass of the weighted `iterate`, started on clusters with empty accumulators and
given `weightedElements[i] = elements[i] * weights[i]`, succeeds; it assigns every element to
the lowest-index nearest cluster at the pass-start centers, and every cluster that is assigned
at least one element and whose assigned weights have a positive sum ends with the center
`(1 / sum of assigned weights[i]) * (sum of assigned weights[i] * elements[i])`. -/
theorem iterateWeighted_center_weighted_centroid [AddMonoid T] [SMul ℚ T] (dist : T → T → ℚ)
    (rng : Nat → Nat) (elements : List T) (weights : List ℚ)
    (clusters : List (KMeansCluster T)) (pos : Nat)
    (hc : clusters ≠ []) (he : elements ≠ []) (hw : weights.length = elements.length)
    (hempty : ∀ (c : KMeansCluster T), c ∈ clusters → c.entries = []) :
    ∃ storage res,
      iterateWeightedStorage dist clusters elements (weightElements elements weights) weights =
        some storage ∧
      iterateWeighted dist rng elements (weightElements elements weights) weights clusters pos =
        some res ∧
      res.1.length = clusters.length ∧
      (∀ (k : Nat) (e : T), elements[k]? = some e →
        ∃ i ci, storage[k]? = some i ∧ clusters[i]? = some ci ∧
          (∀ (j : Nat) (cj : KMeansCluster T), clusters[j]? = some cj →
            dist e ci.center ≤ dist e cj.center) ∧
          (∀ (j : Nat) (cj : KMeansCluster T), j < i → clusters[j]? = some cj →
            dist e ci.center < dist e cj.center)) ∧
      ∀ (j : Nat), j < clusters.length →
        entriesOf j elements weights storage ≠ [] →
        0 < ((entriesOf j elements weights storage).map Prod.snd).sum →
        ∃ c, res.1[j]? = some c ∧
          c.center = (1 / ((entriesOf j elements weights storage).map Prod.snd).sum) •
            ((entriesOf j elements weights storage).map (fun p => p.2 • p.1)).sum := by
  have hwl : (weightElements elements weights).length = elements.length := by
    simp [weightElements, hw]
  obtain ⟨res, r1, r2, r3⟩ := iterateWeighted_pass dist rng elements
    (weightElements elements weights) weights clusters pos hc he hwl hw
  refine ⟨elements.map (storedIndex dist clusters), (res, pos + clusters.length),
    iterateWeightedStorage_eq dist clusters elements _ _ hc, r1, r2, ?_, ?_⟩
  · intro k e hk
    obtain ⟨ci, h1, h2, h3⟩ := storedIndex_spec dist clusters e hc
    exact ⟨storedIndex dist clusters e, ci, by simp [List.getElem?_map, hk], h1, h2, h3⟩
  · intro j hj hne hpos
    obtain ⟨d, _, _, d3⟩ := r3 j clusters[j] (List.getElem?_eq_getElem hj)
    have hentries : (clusters[j]).entries = [] := hempty _ (List.getElem_mem hj)
    rw [hentries, List.nil_append, entriesOf_weightElements] at d3
    refine ⟨_, d3, ?_⟩
    rw [finalizeIteration_nonempty _ d (by simpa using hne)]
    simp only [List.map_map]
    have e1 : (Prod.snd ∘ fun p : T × ℚ => (p.2 • p.1, p.2)) = Prod.snd := rfl
    have e2 : (Prod.fst ∘ fun p : T × ℚ => (p.2 • p.1, p.2)) = fun p => p.2 • p.1 := rfl
    rw [e1, e2, if_pos hpos]

/-- C5: `finalizeIteration` on an empty accumulator sets the center to the fallback it is
given; and in one pass of `iterate` (either overload) started on clusters with empty
accumulators, every cluster that no element is assigned to ends with the random element drawn
for it as its center, which is a member of the input elements. -/
theorem empty_cluster_center_is_input_element [Add T] [SMul ℚ T] (dist : T → T → ℚ)
    (rng : Nat → Nat) (elements : List T) (clusters : List (KMeansCluster T)) (pos : Nat)
    (hc : clusters ≠ []) (he : elements ≠ [])
    (hempty : ∀ (c : KMeansCluster T), c ∈ clusters → c.entries = []) :
    (∀ (c : KMeansCluster T) (fallbackElement : T), c.entries = [] →
      (c.finalizeIteration fallbackElement).center = fallbackElement) ∧
    ∃ storage res,
      iterateStorage dist clusters elements = some storage ∧
      iterate dist rng elements clusters pos = some res ∧
      (∀ (j : Nat), j < clusters.length → j ∉ storage →
        ∃ c d, res.1[j]? = some c ∧ randomElement elements (rng (pos + j)) = some d ∧
          c.center = d ∧ d ∈ elements) ∧
      ∀ (weightedElements : List T) (weights : List ℚ),
        weightedElements.length = elements.length → weights.length = elements.length →
        ∃ resW,
          iterateWeightedStorage dist clusters elements weightedElements weights =
            some storage ∧
          iterateWeighted dist rng elements weightedElements weights clusters pos =
            some resW ∧
          ∀ (j : Nat), j < clusters.length → j ∉ storage →
            ∃ c d, resW.1[j]? = some c ∧ randomElement elements (rng (pos + j)) = some d ∧
              c.center = d ∧ d ∈ elements := by
  have key : ∀ (wE : List T) (ws : List ℚ), wE.length = elements.length →
      ws.length = elements.length →
      ∃ resW, iterateWeighted dist rng elements wE ws clusters pos = some resW ∧
        ∀ (j : Nat), j < clusters.length → j ∉ elements.map (storedIndex dist clusters) →
          ∃ c d, resW.1[j]? = some c ∧ randomElement elements (rng (pos + j)) = some d ∧
            c.center = d ∧ d ∈ elements := by
    intro wE ws h1 h2
    obtain ⟨res, r1, _, r3⟩ := iterateWeighted_pass dist rng elements wE ws clusters pos hc he h1 h2
    refine ⟨(res, pos + clusters.length), r1, ?_⟩
    intro j hj hnot
    obtain ⟨d, d1, d2, d3⟩ := r3 j clusters[j] (List.getElem?_eq_getElem hj)
    have hentries : (clusters[j]).entries = [] := hempty _ (List.getElem_mem hj)
    rw [hentries, List.nil_append, entriesOf_eq_nil j wE ws _ hnot] at d3
    refine ⟨_, d, d3, d1, ?_, d2⟩
    rw [finalizeIteration_empty _ d rfl]
  refine ⟨?_, elements.map (storedIndex dist clusters), ?_⟩
  · intro c fallbackElement h
    rw [finalizeIteration_empty c fallbackElement h]
  · obtain ⟨res, r1, r2⟩ := key elements (List.replicate elements.length 1) rfl (by simp)
    refine ⟨res, iterateStorage_eq dist clusters elements hc, ?_, r2, ?_⟩
    · rw [iterate_eq_iterateWeighted dist rng elements clusters pos hc]
      exact r1
    · intro wE ws h1 h2
      obtain ⟨resW, w1, w2⟩ := key wE ws h1 h2
      exact ⟨resW, iterateWeightedStorage_eq dist clusters elements wE ws hc, w1, w2⟩

/-- C7: when `clusterCount > elements.size()` the unweighted `cluster`, and when
`clusterCount > elements.size()` or `weights.size() != elements.size()` the weighted
`cluster`, ends with a failed assertion, with no pass run, no random element drawn, and the
engine's clusters exactly as they were before the call. -/
theorem cluster_precondition_failure_atomic [Zero T] [Add T] [SMul ℚ T] (dist : T → T → ℚ)
    (rng : Nat → Nat) (elements : List T) (weights : List ℚ)
    (clusterCount maxIterations : Nat) (maxDelta : ℚ) (m_clusters : List (KMeansCluster T))
    (pos : Nat) :
    (elements.length < clusterCount →
      ∃ message, cluster dist rng elements clusterCount maxIterations maxDelta m_clusters pos =
        some { outcome := CallOutcome.assertFailed message, m_clusters := m_clusters,
               pos := pos, trace := [] }) ∧
    (elements.length < clusterCount ∨ weights.length ≠ elements.length →
      ∃ message, clusterWeighted dist rng elements weights clusterCount maxIterations maxDelta
          m_clusters pos =
        some { outcome := CallOutcome.assertFailed message, m_clusters := m_clusters,
               pos := pos, trace := [] }) := by
  constructor
  · intro h
    refine ⟨"Too many clusters", ?_⟩
    simp [cluster, assertFailure, h]
  · intro h
    by_cases h1 : elements.length < clusterCount
    · refine ⟨"Too many clusters", ?_⟩
      simp [clusterWeighted, assertFailure, h1]
    · have h2 : weights.length ≠ elements.length := by
        rcases h with h | h
        · exact absurd h h1
        · exact h
      refine ⟨"Incorrect number of weights", ?_⟩
      have h3 : ¬ elements.length = weights.length := fun e => h2 e.symm
      simp [clusterWeighted, assertFailure, not_lt.mp h1, h3]

/-! Lemmas on the accumulator lengths. -/

theorem modifyAt_addEntry_sum_length (we : T) (w : ℚ) (xs : List (KMeansCluster T)) :
    ∀ (s : Nat) (ys : List (KMeansCluster T)),
      modifyAt (fun c => c.addEntry we w) xs s = some ys →
      (ys.map (fun c => c.entries.length)).sum =
        (xs.map (fun c => c.entries.length)).sum + 1 := by
  induction xs with
  | nil => intro s ys h; simp [modifyAt] at h
  | cons x xs ih =>
    intro s ys h
    cases s with
    | zero =>
      simp only [modifyAt, Option.some.injEq] at h
      subst h
      simp [KMeansCluster.addEntry]
      omega
    | succ n =>
      simp only [modifyAt] at h
      cases hm : modifyAt (fun c => c.addEntry we w) xs n with
      | none => rw [hm] at h; cases h
      | some zs =>
        rw [hm] at h
        simp only [Option.some.injEq] at h
        subst h
        have := ih n zs hm
        simp only [List.map_cons, List.sum_cons, this]
        omega

theorem accumulateWeighted_sum_length (elements : List T) :
    ∀ (wE : List T) (ws : List ℚ) (storage : List Nat) (clusters acc : List (KMeansCluster T)),
      accumulateWeighted clusters elements wE ws storage = some acc →
      (acc.map (fun c => c.entries.length)).sum =
        (clusters.map (fun c => c.entries.length)).sum + elements.length := by
  induction elements with
  | nil =>
    intro wE ws storage clusters acc h
    simp only [accumulateWeighted, Option.some.injEq] at h
    subst h
    simp
  | cons e elements ih =>
    intro wE ws storage clusters acc h
    cases wE with
    | nil => simp [accumulateWeighted] at h
    | cons we wE =>
      cases ws with
      | nil => simp [accumulateWeighted] at h
      | cons w ws =>
        cases storage with
        | nil => simp [accumulateWeighted] at h
        | cons s ss =>
          simp only [accumulateWeighted] at h
          cases hm : modifyAt (fun c => c.addEntry we w) clusters s with
          | none => rw [hm] at h; cases h
          | some clusters1 =>
            rw [hm] at h
            have h1 := modifyAt_addEntry_sum_length we w clusters s clusters1 hm
            have h2 := ih wE ws ss clusters1 acc h
            rw [h2, h1, List.length_cons]
            omega

theorem entriesOf_length (j : Nat) (storage : List Nat) :
    ∀ (wE : List T) (ws : List ℚ), wE.length = storage.length → ws.length = storage.length →
      (entriesOf j wE ws storage).length = storage.count j := by
  induction storage with
  | nil => intro wE ws _ _; simp [entriesOf]
  | cons s ss ih =>
    intro wE ws h1 h2
    cases wE with
    | nil => simp at h1
    | cons we wE =>
      cases ws with
      | nil => simp at h2
      | cons w ws =>
        rw [entriesOf_cons, List.count_cons]
        have := ih wE ws (by simpa using h1) (by simpa using h2)
        by_cases h : s = j <;> simp [h, this]

theorem entriesOf_replicate_one (j : Nat) (elements : List T) :
    ∀ (storage : List Nat),
      entriesOf j elements (List.replicate elements.length 1) storage =
        ((elements.zip storage).filter (fun p => decide (p.2 = j))).map
          (fun p => (p.1, (1 : ℚ))) := by
  induction elements with
  | nil => intro storage; simp [entriesOf]
  | cons e elements ih =>
    intro storage
    cases storage with
    | nil => simp [entriesOf]
    | cons s ss =>
      rw [List.length_cons, List.replicate_succ, entriesOf_cons, ih ss]
      by_cases h : s = j <;> simp [List.filter_cons, h]

theorem sum_length_of_empty (clusters : List (KMeansCluster T))
    (hempty : ∀ (c : KMeansCluster T), c ∈ clusters → c.entries = []) :
    (clusters.map (fun c => c.entries.length)).sum = 0 := by
  induction clusters with
  | nil => rfl
  | cons c rest ih =>
    have h1 := hempty c (List.mem_cons_self c rest)
    have h2 := ih (fun x hx => hempty x (List.mem_cons_of_mem c hx))
    simp [h1, h2]

theorem accumulateWeighted_total (dist : T → T → ℚ) (elements wE : List T) (ws : List ℚ)
    (clusters : List (KMeansCluster T)) (hc : clusters ≠ [])
    (hempty : ∀ (c : KMeansCluster T), c ∈ clusters → c.entries = [])
    (h1 : wE.length = elements.length) (h2 : ws.length = elements.length) :
    ∃ acc, accumulateWeighted clusters elements wE ws
        (elements.map (storedIndex dist clusters)) = some acc ∧
      acc.length = clusters.length ∧
      (∀ (j : Nat) (c : KMeansCluster T), acc[j]? = some c →
        c.entries = entriesOf j wE ws (elements.map (storedIndex dist clusters)) ∧
        c.entries.length = (elements.map (storedIndex dist clusters)).count j) ∧
      (acc.map (fun c => c.entries.length)).sum = elements.length := by
  have hlen : (elements.map (storedIndex dist clusters)).length = elements.length := by simp
  have hlt : ∀ (s : Nat), s ∈ elements.map (storedIndex dist clusters) → s < clusters.length := by
    intro s hs
    obtain ⟨e, _, rfl⟩ := List.mem_map.mp hs
    exact storedIndex_lt dist clusters e hc
  obtain ⟨acc, hacc⟩ := accumulateWeighted_some elements wE ws _ clusters h1 h2 hlen hlt
  obtain ⟨a1, _, a3⟩ := accumulateWeighted_spec elements wE ws _ clusters acc h1 h2 hlen hacc
  refine ⟨acc, hacc, a1, ?_, ?_⟩
  · intro j c hjc
    have hj : j < clusters.length := by
      rw [← a1]
      by_contra hge
      rw [List.getElem?_eq_none (not_lt.mp hge)] at hjc
      cases hjc
    have h3 := a3 j clusters[j] (List.getElem?_eq_getElem hj)
    rw [hjc, hempty _ (List.getElem_mem hj), List.nil_append] at h3
    simp only [Option.some.injEq] at h3
    subst h3
    exact ⟨rfl, entriesOf_length j _ wE ws (by rw [h1, hlen]) (by rw [h2, hlen])⟩
  · rw [accumulateWeighted_sum_length elements wE ws _ clusters acc hacc,
      sum_length_of_empty clusters hempty, Nat.zero_add]

/-- C10: in a pass of `iterate` (either overload) started on clusters with empty
accumulators, after the accumulation loop and before the finalize loop: every element has
one stored index, and it is below the cluster count; the accumulator of cluster `j` holds
exactly the entries of the elements whose stored index is `j`, one entry each in element
order, so its length is the number of elements assigned to `j`; and the accumulator lengths
of all clusters add up to the number of elements. -/
theorem accumulation_total_assignment (dist : T → T → ℚ) (elements : List T)
    (clusters : List (KMeansCluster T)) (hc : clusters ≠ [])
    (hempty : ∀ (c : KMeansCluster T), c ∈ clusters → c.entries = []) :
    ∃ storage acc,
      iterateStorage dist clusters elements = some storage ∧
      accumulate clusters elements storage = some acc ∧
      storage.length = elements.length ∧ acc.length = clusters.length ∧
      (∀ (s : Nat), s ∈ storage → s < clusters.length) ∧
      (∀ (j : Nat) (c : KMeansCluster T), acc[j]? = some c →
        c.entries = ((elements.zip storage).filter (fun p => decide (p.2 = j))).map
          (fun p => (p.1, (1 : ℚ))) ∧
        c.entries.length = storage.count j) ∧
      (acc.map (fun c => c.entries.length)).sum = elements.length ∧
      ∀ (weightedElements : List T) (weights : List ℚ),
        weightedElements.length = elements.length → weights.length = elements.length →
        ∃ accW,
          iterateWeightedStorage dist clusters elements weightedElements weights =
            some storage ∧
          accumulateWeighted clusters elements weightedElements weights storage = some accW ∧
          accW.length = clusters.length ∧
          (∀ (j : Nat) (c : KMeansCluster T), accW[j]? = some c →
            c.entries = entriesOf j weightedElements weights storage ∧
            c.entries.length = storage.count j) ∧
          (accW.map (fun c => c.entries.length)).sum = elements.length := by
  obtain ⟨acc, a1, a2, a3, a4⟩ := accumulateWeighted_total dist elements elements
    (List.replicate elements.length 1) clusters hc hempty rfl (by simp)
  refine ⟨elements.map (storedIndex dist clusters), acc,
    iterateStorage_eq dist clusters elements hc, ?_, by simp, a2, ?_, ?_, a4, ?_⟩
  · rw [accumulate_eq_accumulateWeighted elements _ clusters (by simp)]
    exact a1
  · intro s hs
    obtain ⟨e, _, rfl⟩ := List.mem_map.mp hs
    exact storedIndex_lt dist clusters e hc
  · intro j c hjc
    obtain ⟨b1, b2⟩ := a3 j c hjc
    rw [entriesOf_replicate_one] at b1
    exact ⟨b1, b2⟩
  · intro wE ws h1 h2
    obtain ⟨accW, w1, w2, w3, w4⟩ :=
      accumulateWeighted_total dist elements wE ws clusters hc hempty h1 h2
    exact ⟨accW, iterateWeightedStorage_eq dist clusters elements wE ws hc, w1, w2, w3, w4⟩

/-! The pass counter and the pass loop. -/

theorem nextPass_iterate (p : Nat) : nextPass^[p] 0 = p % 2 ^ 32 := by
  induction p with
  | zero => rfl
  | succ n ih =>
    rw [Function.iterate_succ_apply', ih]
    unfold nextPass
    exact Nat.mod_add_mod n (2 ^ 32) 1

theorem passLoop_until_wrap (dist : T → T → ℚ)
    (step : List (KMeansCluster T) → Nat → Option (List (KMeansCluster T) × Nat))
    (maxDelta : ℚ) (c : List (KMeansCluster T))
    (hstep : ∀ (pos : Nat), step c pos = some (c, pos + 1))
    (hdelta : ¬ (convergenceDelta dist (c.map (fun x => x.center)) c ≤ maxDelta)) :
    ∀ (n pass fuel pos : Nat) (trace : List (Nat × ℚ)), pass + n + 1 = 2 ^ 32 → n < fuel →
      ∃ r, passLoop dist step 0 maxDelta fuel pass c pos trace = some r ∧
        r.m_clusters = c ∧ r.pos = pos + n + 1 ∧ r.pass = 0 ∧
        r.trace.length = trace.length + n + 1 ∧
        ∀ (x : Nat × ℚ), x ∈ r.trace →
          x ∈ trace ∨ x.2 = convergenceDelta dist (c.map (fun x => x.center)) c := by
  intro n
  induction n with
  | zero =>
    intro pass fuel pos trace hp hf
    obtain ⟨f, rfl⟩ := Nat.exists_eq_succ_of_ne_zero (Nat.pos_iff_ne_zero.mp hf)
    have hnext : nextPass pass = 0 := by
      unfold nextPass
      rw [show pass + 1 = 2 ^ 32 from hp]
      exact Nat.mod_self _
    refine ⟨{ m_clusters := c, pos := pos + 1, pass := 0,
              trace := trace ++ [(0, convergenceDelta dist (c.map (fun x => x.center)) c)] },
      ?_, rfl, rfl, rfl, by simp, ?_⟩
    · simp [passLoop, hstep, hnext, convergedTest]
    · intro x hx
      rcases List.mem_append.mp hx with h | h
      · exact Or.inl h
      · right
        rw [List.mem_singleton.mp h]
  | succ n ih =>
    intro pass fuel pos trace hp hf
    obtain ⟨f, rfl⟩ := Nat.exists_eq_succ_of_ne_zero
      (Nat.pos_iff_ne_zero.mp (Nat.lt_of_le_of_lt (Nat.zero_le _) hf))
    have hlt : pass + 1 < 2 ^ 32 := by omega
    have hnext : nextPass pass = pass + 1 := by
      unfold nextPass
      exact Nat.mod_eq_of_lt hlt
    obtain ⟨r, r1, r2, r3, r4, r5, r6⟩ := ih (pass + 1) f (pos + 1)
      (trace ++ [(pass + 1, convergenceDelta dist (c.map (fun x => x.center)) c)])
      (by omega) (by omega)
    refine ⟨r, ?_, r2, by rw [r3]; omega, r4, by rw [r5]; simp; omega, ?_⟩
    · rw [← r1]
      simp [passLoop, hstep, hnext, convergedTest, hdelta]
    · intro x hx
      rcases r6 x hx with h | h
      · rcases List.mem_append.mp h with h | h
        · exact Or.inl h
        · right
          rw [List.mem_singleton.mp h]
      · exact Or.inr h

/-- C8 (the code at the failing input): on the one element `0` with one cluster,
`maxIterations = 0` and `maxDelta = -1`, whatever the random draws and the earlier state of
the engine, `cluster` returns after exactly `2 ^ 32` passes although no pass has a delta
that is `≤ maxDelta`: the loop stops because the 32-bit pass counter has wrapped to `0`. -/
theorem cluster_stops_when_pass_counter_wraps (rng : Nat → Nat)
    (m_clusters : List (KMeansCluster ℚ)) (pos : Nat) :
    ∃ r, cluster distSq1 rng [0] 1 0 (-1) m_clusters pos = some r ∧
      r.outcome = CallOutcome.returned ∧ r.trace.length = 2 ^ 32 ∧
      ∀ (x : Nat × ℚ), x ∈ r.trace → ¬ (x.2 ≤ -1) := by
  have hstep : ∀ (p : Nat), iterate distSq1 rng [0] [KMeansCluster.mk (0 : ℚ) []] p =
      some ([KMeansCluster.mk (0 : ℚ) []], p + 1) := by
    intro p
    simp [iterate, iterateStorage, forEach, closestClusterIndex, closestLoop, accumulate,
      modifyAt, KMeansCluster.addEntryUnit, finalizeAll, forEachClusterDraw, randomElement,
      KMeansCluster.finalizeIteration, KMeansCluster.finalizeLoop, Nat.mod_one]
  have hd : convergenceDelta distSq1 ([KMeansCluster.mk (0 : ℚ) []].map (fun x => x.center))
      [KMeansCluster.mk (0 : ℚ) []] = 0 := by
    simp [convergenceDelta, distSq1]
  obtain ⟨r, r1, _, _, _, r5, r6⟩ := passLoop_until_wrap distSq1 (iterate distSq1 rng [0]) (-1)
    [KMeansCluster.mk (0 : ℚ) []] hstep (by rw [hd]; norm_num) (2 ^ 32 - 1) 0 (2 ^ 32) (pos + 1) []
    (by norm_num) (by norm_num)
  refine ⟨{ outcome := CallOutcome.returned, m_clusters := r.m_clusters, pos := r.pos,
            trace := r.trace }, ?_, rfl, ?_, ?_⟩
  · have hseed : seed rng [(0 : ℚ)] (allocate 1) pos =
        some ([KMeansCluster.mk (0 : ℚ) []], pos + 1) := by
      simp [seed, allocate, forEachClusterDraw, randomElement, KMeansCluster.init, Nat.mod_one]
    have r1n := r1
    norm_num at r1n
    simp [cluster, hseed, runPasses, r1n]
  · simp only [r5, List.length_nil]
    norm_num
  · intro x hx
    rcases r6 x hx with h | h
    · simp at h
    · rw [h, hd]
      norm_num

theorem pass_counter_nonzero_before_wrap (p : Nat) (h1 : 0 < p) (h2 : p < 2 ^ 32) :
    nextPass^[p] 0 ≠ 0 := by
  rw [nextPass_iterate, Nat.mod_eq_of_lt h2]
  omega

/-- C9 (the code at the failing input): after `2 ^ 32` increments the 32-bit pass counter is
`0` again, so with `maxIterations = 0` the test `pass == maxIterations` holds at pass
`2 ^ 32` and the convergence test is true whatever the delta and `maxDelta` are. -/
theorem pass_counter_equals_zero_maxIterations_at_wrap :
    nextPass^[2 ^ 32] 0 = 0 ∧
    ∀ (delta maxDelta : ℚ), convergedTest delta maxDelta (nextPass^[2 ^ 32] 0) 0 = true := by
  have h : nextPass^[2 ^ 32] 0 = 0 := by
    rw [nextPass_iterate]
    exact Nat.mod_self _
  refine ⟨h, ?_⟩
  intro delta maxDelta
  rw [h]
  simp [convergedTest]

/-! The theorems above at concrete inputs. -/

theorem exampleClusters_ne_nil : exampleClusters ≠ [] := by
  simp [exampleClusters]

theorem exampleElements_ne_nil : exampleElements ≠ [] := by
  simp [exampleElements]

theorem exampleClusters_entries_empty :
    ∀ (c : KMeansCluster ℚ), c ∈ exampleClusters → c.entries = [] := by
  intro c hc
  simp only [exampleClusters, List.mem_cons, List.mem_singleton, List.not_mem_nil,
    or_false] at hc
  rcases hc with h | h | h <;> rw [h]

theorem exampleCluster_weight_sum : (exampleCluster.entries.map Prod.snd).sum = 4 := by
  simp [exampleCluster]
  norm_num

/-- C1 at the example clusters and elements. -/
theorem iterate_assignment_lowest_nearest_witness :
    exampleClusters ≠ [] ∧
    ∃ storage, iterateStorage distSq1 exampleClusters exampleElements = some storage ∧
      iterateWeightedStorage distSq1 exampleClusters exampleElements
        (weightElements exampleElements exampleWeights) exampleWeights = some storage ∧
      storage.length = exampleElements.length ∧
      ∀ (k : Nat) (e : ℚ), exampleElements[k]? = some e →
        ∃ i ci, storage[k]? = some i ∧ exampleClusters[i]? = some ci ∧
          (∀ (j : Nat) (cj : KMeansCluster ℚ), exampleClusters[j]? = some cj →
            distSq1 e ci.center ≤ distSq1 e cj.center) ∧
          (∀ (j : Nat) (cj : KMeansCluster ℚ), j < i → exampleClusters[j]? = some cj →
            distSq1 e ci.center < distSq1 e cj.center) :=
  ⟨exampleClusters_ne_nil,
    iterate_assignment_lowest_nearest distSq1 exampleClusters exampleElements
      (weightElements exampleElements exampleWeights) exampleWeights exampleClusters_ne_nil⟩

/-- C2 at the example clusters and the element `4`. -/
theorem quantizeToNearestClusterIndex_lowest_nearest_witness :
    exampleClusters ≠ [] ∧
    ∃ i ci, quantizeToNearestClusterIndex distSq1 exampleClusters 4 = some i ∧
      exampleClusters[i]? = some ci ∧
      (∀ (j : Nat) (cj : KMeansCluster ℚ), exampleClusters[j]? = some cj →
        distSq1 4 ci.center ≤ distSq1 4 cj.center) ∧
      (∀ (j : Nat) (cj : KMeansCluster ℚ), j < i → exampleClusters[j]? = some cj →
        distSq1 4 ci.center < distSq1 4 cj.center) ∧
      ∀ (elements : List ℚ) (k : Nat), elements[k]? = some 4 →
        ∃ storage, iterateStorage distSq1 exampleClusters elements = some storage ∧
          storage[k]? = some i :=
  ⟨exampleClusters_ne_nil,
    quantizeToNearestClusterIndex_lowest_nearest distSq1 exampleClusters 4
      exampleClusters_ne_nil⟩

/-- C3 at the example cluster: its two entries have the weight sum `4`. -/
theorem finalizeIteration_center_weighted_mean_witness :
    exampleCluster.entries ≠ [] ∧ 0 < (exampleCluster.entries.map Prod.snd).sum ∧
    (exampleCluster.finalizeIteration 7).center =
        (1 / (exampleCluster.entries.map Prod.snd).sum) •
          (exampleCluster.entries.map Prod.fst).sum ∧
      ∀ (other : ℚ), exampleCluster.finalizeIteration other = exampleCluster.finalizeIteration 7 :=
  ⟨by simp [exampleCluster], by rw [exampleCluster_weight_sum]; norm_num,
    finalizeIteration_center_weighted_mean exampleCluster 7 (by simp [exampleCluster])
      (by rw [exampleCluster_weight_sum]; norm_num)⟩

/-- C4 at the example clusters, elements and weights. -/
theorem iterateWeighted_center_weighted_centroid_witness :
    exampleClusters ≠ [] ∧ exampleElements ≠ [] ∧
    exampleWeights.length = exampleElements.length ∧
    (∀ (c : KMeansCluster ℚ), c ∈ exampleClusters → c.entries = []) ∧
    ∃ storage res,
      iterateWeightedStorage distSq1 exampleClusters exampleElements
        (weightElements exampleElements exampleWeights) exampleWeights = some storage ∧
      iterateWeighted distSq1 (fun n => n) exampleElements
        (weightElements exampleElements exampleWeights) exampleWeights exampleClusters 0 =
        some res ∧
      res.1.length = exampleClusters.length ∧
      (∀ (k : Nat) (e : ℚ), exampleElements[k]? = some e →
        ∃ i ci, storage[k]? = some i ∧ exampleClusters[i]? = some ci ∧
          (∀ (j : Nat) (cj : KMeansCluster ℚ), exampleClusters[j]? = some cj →
            distSq1 e ci.center ≤ distSq1 e cj.center) ∧
          (∀ (j : Nat) (cj : KMeansCluster ℚ), j < i → exampleClusters[j]? = some cj →
            distSq1 e ci.center < distSq1 e cj.center)) ∧
      ∀ (j : Nat), j < exampleClusters.length →
        entriesOf j exampleElements exampleWeights storage ≠ [] →
        0 < ((entriesOf j exampleElements exampleWeights storage).map Prod.snd).sum →
        ∃ c, res.1[j]? = some c ∧
          c.center =
            (1 / ((entriesOf j exampleElements exampleWeights storage).map Prod.snd).sum) •
              ((entriesOf j exampleElements exampleWeights storage).map
                (fun p => p.2 • p.1)).sum :=
  ⟨exampleClusters_ne_nil, exampleElements_ne_nil, rfl, exampleClusters_entries_empty,
    iterateWeighted_center_weighted_centroid distSq1 (fun n => n) exampleElements exampleWeights
      exampleClusters 0 exampleClusters_ne_nil exampleElements_ne_nil rfl
      exampleClusters_entries_empty⟩

/-- C5 at the example clusters and elements. -/
theorem empty_cluster_center_is_input_element_witness :
    exampleClusters ≠ [] ∧ exampleElements ≠ [] ∧
    (∀ (c : KMeansCluster ℚ), c ∈ exampleClusters → c.entries = []) ∧
    (∀ (c : KMeansCluster ℚ) (fallbackElement : ℚ), c.entries = [] →
      (c.finalizeIteration fallbackElement).center = fallbackElement) ∧
    ∃ storage res,
      iterateStorage distSq1 exampleClusters exampleElements = some storage ∧
      iterate distSq1 (fun n => n) exampleElements exampleClusters 0 = some res ∧
      (∀ (j : Nat), j < exampleClusters.length → j ∉ storage →
        ∃ c d, res.1[j]? = some c ∧
          randomElement exampleElements ((fun n => n) (0 + j)) = some d ∧
          c.center = d ∧ d ∈ exampleElements) ∧
      ∀ (weightedElements : List ℚ) (weights : List ℚ),
        weightedElements.length = exampleElements.length →
        weights.length = exampleElements.length →
        ∃ resW,
          iterateWeightedStorage distSq1 exampleClusters exampleElements weightedElements
            weights = some storage ∧
          iterateWeighted distSq1 (fun n => n) exampleElements weightedElements weights
            exampleClusters 0 = some resW ∧
          ∀ (j : Nat), j < exampleClusters.length → j ∉ storage →
            ∃ c d, resW.1[j]? = some c ∧
              randomElement exampleElements ((fun n => n) (0 + j)) = some d ∧
              c.center = d ∧ d ∈ exampleElements :=
  ⟨exampleClusters_ne_nil, exampleElements_ne_nil, exampleClusters_entries_empty,
    empty_cluster_center_is_input_element distSq1 (fun n => n) exampleElements exampleClusters 0
      exampleClusters_ne_nil exampleElements_ne_nil exampleClusters_entries_empty⟩

/-- C6 at three clusters: the example cluster of weight sum `4`, whose center becomes the
weighted mean `7 / 2`; the cluster of two entries of weight `0`, whose center becomes the raw
sum `14`; and the cluster with an empty accumulator, whose center becomes the fallback `7`. -/
theorem finalizeIteration_center_mean_or_fallback_witness :
    ((∀ (entry : ℚ × ℚ), entry ∈ exampleCluster.entries → 0 ≤ entry.2) ∧
      exampleCluster.entries ≠ [] ∧ (exampleCluster.entries.map Prod.snd).sum ≠ 0 ∧
      (exampleCluster.finalizeIteration 7).center =
        (1 / (exampleCluster.entries.map Prod.snd).sum) •
          (exampleCluster.entries.map Prod.fst).sum) ∧
    ((∀ (entry : ℚ × ℚ), entry ∈ zeroWeightCluster.entries → 0 ≤ entry.2) ∧
      zeroWeightCluster.entries ≠ [] ∧ (zeroWeightCluster.entries.map Prod.snd).sum = 0 ∧
      (zeroWeightCluster.finalizeIteration 7).center =
        (zeroWeightCluster.entries.map Prod.fst).sum) ∧
    ((∀ (entry : ℚ × ℚ), entry ∈ emptyCluster.entries → 0 ≤ entry.2) ∧
      emptyCluster.entries = [] ∧ (emptyCluster.finalizeIteration 7).center = 7) :=
  ⟨⟨by simp [exampleCluster], by simp [exampleCluster],
      by rw [exampleCluster_weight_sum]; norm_num,
      (finalizeIteration_center_mean_or_fallback exampleCluster 7
        (by simp [exampleCluster])).2.1 (by simp [exampleCluster])
        (by rw [exampleCluster_weight_sum]; norm_num)⟩,
    ⟨by simp [zeroWeightCluster], by simp [zeroWeightCluster], by simp [zeroWeightCluster],
      (finalizeIteration_center_mean_or_fallback zeroWeightCluster 7
        (by simp [zeroWeightCluster])).2.2.1 (by simp [zeroWeightCluster])
        (by simp [zeroWeightCluster])⟩,
    ⟨by simp [emptyCluster], rfl,
      (finalizeIteration_center_mean_or_fallback emptyCluster 7
        (by simp [emptyCluster])).1 rfl⟩⟩

/-- C7 at three example elements with four requested clusters, and at three elements with two
weights, on an engine that holds the example clusters. -/
theorem cluster_precondition_failure_atomic_witness :
    exampleElements.length < 4 ∧
    (∃ message, cluster distSq1 (fun n => n) exampleElements 4 10 0 exampleClusters 5 =
      some { outcome := CallOutcome.assertFailed message, m_clusters := exampleClusters,
             pos := 5, trace := [] }) ∧
    ([1, 1] : List ℚ).length ≠ exampleElements.length ∧
    (∃ message, clusterWeighted distSq1 (fun n => n) exampleElements [1, 1] 2 10 0
        exampleClusters 5 =
      some { outcome := CallOutcome.assertFailed message, m_clusters := exampleClusters,
             pos := 5, trace := [] }) :=
  ⟨by simp [exampleElements],
    (cluster_precondition_failure_atomic distSq1 (fun n => n) exampleElements [1, 1] 4 10 0
      exampleClusters 5).1 (by simp [exampleElements]),
    by simp [exampleElements],
    (cluster_precondition_failure_atomic distSq1 (fun n => n) exampleElements [1, 1] 2 10 0
      exampleClusters 5).2 (Or.inr (by simp [exampleElements]))⟩

/-- C10 at the example clusters and elements. -/
theorem accumulation_total_assignment_witness :
    exampleClusters ≠ [] ∧
    (∀ (c : KMeansCluster ℚ), c ∈ exampleClusters → c.entries = []) ∧
    ∃ storage acc,
      iterateStorage distSq1 exampleClusters exampleElements = some storage ∧
      accumulate exampleClusters exampleElements storage = some acc ∧
      storage.length = exampleElements.length ∧ acc.length = exampleClusters.length ∧
      (∀ (s : Nat), s ∈ storage → s < exampleClusters.length) ∧
      (∀ (j : Nat) (c : KMeansCluster ℚ), acc[j]? = some c →
        c.entries = ((exampleElements.zip storage).filter (fun p => decide (p.2 = j))).map
          (fun p => (p.1, (1 : ℚ))) ∧
        c.entries.length = storage.count j) ∧
      (acc.map (fun c => c.entries.length)).sum = exampleElements.length ∧
      ∀ (weightedElements : List ℚ) (weights : List ℚ),
        weightedElements.length = exampleElements.length →
        weights.length = exampleElements.length →
        ∃ accW,
          iterateWeightedStorage distSq1 exampleClusters exampleElements weightedElements
            weights = some storage ∧
          accumulateWeighted exampleClusters exampleElements weightedElements weights storage =
            some accW ∧
          accW.length = exampleClusters.length ∧
          (∀ (j : Nat) (c : KMeansCluster ℚ), accW[j]? = some c →
            c.entries = entriesOf j weightedElements weights storage ∧
            c.entries.length = storage.count j) ∧
          (accW.map (fun c => c.entries.length)).sum = exampleElements.length :=
  ⟨exampleClusters_ne_nil, exampleClusters_entries_empty,
    accumulation_total_assignment distSq1 exampleElements exampleClusters exampleClusters_ne_nil
      exampleClusters_entries_empty⟩

/-! General facts on the pass loop: its stop rule and its termination. -/

theorem passLoop_trace_spec (dist : T → T → ℚ)
    (step : List (KMeansCluster T) → Nat → Option (List (KMeansCluster T) × Nat))
    (maxIterations : Nat) (maxDelta : ℚ) (fuel : Nat) :
    ∀ (pass : Nat) (clusters : List (KMeansCluster T)) (pos : Nat) (trace : List (Nat × ℚ))
      (r : LoopResult T),
      passLoop dist step maxIterations maxDelta fuel pass clusters pos trace = some r →
      ∃ new, r.trace = trace ++ new ∧ new ≠ [] ∧
        ∀ (i : Nat) (x : Nat × ℚ), new[i]? = some x →
          x.1 = nextPass^[i + 1] pass ∧
          (convergedTest x.2 maxDelta x.1 maxIterations = true ↔ i + 1 = new.length) := by
  induction fuel with
  | zero => intro pass clusters pos trace r h; simp [passLoop] at h
  | succ f ih =>
    intro pass clusters pos trace r h
    simp only [passLoop] at h
    cases hs : step clusters pos with
    | none => rw [hs] at h; cases h
    | some res =>
      obtain ⟨clusters1, pos1⟩ := res
      rw [hs] at h
      simp only at h
      by_cases ht : convergedTest
          (convergenceDelta dist (clusters.map (fun c => c.center)) clusters1) maxDelta
          (nextPass pass) maxIterations = true
      · rw [if_pos ht] at h
        simp only [Option.some.injEq] at h
        subst h
        refine ⟨[(nextPass pass,
          convergenceDelta dist (clusters.map (fun c => c.center)) clusters1)], rfl, by simp, ?_⟩
        intro i x hx
        cases i with
        | zero =>
          simp only [List.getElem?_cons_zero, Option.some.injEq] at hx
          subst hx
          exact ⟨rfl, by simp [ht]⟩
        | succ n => simp at hx
      · rw [if_neg ht] at h
        obtain ⟨new, n1, n2, n3⟩ := ih (nextPass pass) clusters1 pos1 _ r h
        refine ⟨(nextPass pass,
          convergenceDelta dist (clusters.map (fun c => c.center)) clusters1) :: new,
          by rw [n1]; simp, by simp, ?_⟩
        intro i x hx
        cases i with
        | zero =>
          simp only [List.getElem?_cons_zero, Option.some.injEq] at hx
          subst hx
          refine ⟨rfl, ?_⟩
          have hlen : 0 < new.length := List.length_pos.mpr n2
          constructor
          · intro h1; exact absurd h1 ht
          · intro h1; simp only [List.length_cons] at h1; omega
        | succ n =>
          simp only [List.getElem?_cons_succ] at hx
          obtain ⟨a1, a2⟩ := n3 n x hx
          refine ⟨?_, ?_⟩
          · rw [a1, Function.iterate_succ_apply nextPass (n + 1) pass]
          · rw [a2]; simp

theorem passLoop_total (dist : T → T → ℚ)
    (step : List (KMeansCluster T) → Nat → Option (List (KMeansCluster T) × Nat))
    (maxIterations : Nat) (maxDelta : ℚ) (Inv : List (KMeansCluster T) → Prop)
    (hstep : ∀ (c : List (KMeansCluster T)) (pos : Nat), Inv c →
      ∃ c1 pos1, step c pos = some (c1, pos1) ∧ Inv c1)
    (hmax : maxIterations < 4294967296) (fuel : Nat) :
    ∀ (pass : Nat) (clusters : List (KMeansCluster T)) (pos : Nat) (trace : List (Nat × ℚ)),
      Inv clusters → pass < 4294967296 →
      (maxIterations + 4294967296 - pass - 1) % 4294967296 < fuel →
      ∃ r, passLoop dist step maxIterations maxDelta fuel pass clusters pos trace = some r ∧
        Inv r.m_clusters := by
  induction fuel with
  | zero => intro pass clusters pos trace _ _ h; omega
  | succ f ih =>
    intro pass clusters pos trace hinv hpass hfuel
    obtain ⟨c1, pos1, hs, hinv1⟩ := hstep clusters pos hinv
    have hnext : nextPass pass = (pass + 1) % 4294967296 := by
      unfold nextPass; norm_num
    by_cases ht : convergedTest
        (convergenceDelta dist (clusters.map (fun c => c.center)) c1) maxDelta
        (nextPass pass) maxIterations = true
    · refine ⟨{ m_clusters := c1, pos := pos1, pass := nextPass pass,
                trace := trace ++ [(nextPass pass,
                  convergenceDelta dist (clusters.map (fun c => c.center)) c1)] }, ?_, hinv1⟩
      simp only [passLoop, hs, if_pos ht]
    · have hne : nextPass pass ≠ maxIterations := by
        intro he
        apply ht
        simp [convergedTest, he]
      obtain ⟨r, r1, r2⟩ := ih (nextPass pass) c1 pos1
        (trace ++ [(nextPass pass,
          convergenceDelta dist (clusters.map (fun c => c.center)) c1)]) hinv1
        (by rw [hnext]; omega) (by rw [hnext] at hne ⊢; omega)
      exact ⟨r, by simp only [passLoop, hs, if_neg ht]; exact r1, r2⟩

/-! The state at the start of every pass: `clusterCount` clusters with empty accumulators. -/

theorem finalizeIteration_entries_nil [Add T] [SMul ℚ T] (c : KMeansCluster T)
    (fallbackElement : T) : (c.finalizeIteration fallbackElement).entries = [] := by
  obtain ⟨center, entries⟩ := c
  cases entries with
  | nil => rfl
  | cons entry0 rest => rfl

theorem iterateWeighted_preserves [Add T] [SMul ℚ T] (dist : T → T → ℚ) (rng : Nat → Nat)
    (elements wE : List T) (ws : List ℚ) (k : Nat) (hk : 0 < k) (he : elements ≠ [])
    (h1 : wE.length = elements.length) (h2 : ws.length = elements.length)
    (cs : List (KMeansCluster T)) (pos : Nat)
    (hinv : cs.length = k ∧ ∀ (x : KMeansCluster T), x ∈ cs → x.entries = []) :
    ∃ c1 pos1, iterateWeighted dist rng elements wE ws cs pos = some (c1, pos1) ∧
      (c1.length = k ∧ ∀ (x : KMeansCluster T), x ∈ c1 → x.entries = []) := by
  have hc : cs ≠ [] := by
    intro h
    rw [h] at hinv
    simp at hinv
    omega
  obtain ⟨res, r1, r2, r3⟩ := iterateWeighted_pass dist rng elements wE ws cs pos hc he h1 h2
  refine ⟨res, pos + cs.length, r1, by rw [r2, hinv.1], ?_⟩
  intro x hx
  obtain ⟨j, hj, hjx⟩ := List.getElem_of_mem hx
  have hjc : j < cs.length := by rw [← r2]; exact hj
  obtain ⟨d, _, _, d3⟩ := r3 j cs[j] (List.getElem?_eq_getElem hjc)
  rw [List.getElem?_eq_getElem hj, hjx] at d3
  simp only [Option.some.injEq] at d3
  rw [d3]
  exact finalizeIteration_entries_nil _ d

theorem iterate_preserves [Add T] [SMul ℚ T] (dist : T → T → ℚ) (rng : Nat → Nat)
    (elements : List T) (k : Nat) (hk : 0 < k) (he : elements ≠ [])
    (cs : List (KMeansCluster T)) (pos : Nat)
    (hinv : cs.length = k ∧ ∀ (x : KMeansCluster T), x ∈ cs → x.entries = []) :
    ∃ c1 pos1, iterate dist rng elements cs pos = some (c1, pos1) ∧
      (c1.length = k ∧ ∀ (x : KMeansCluster T), x ∈ c1 → x.entries = []) := by
  have hc : cs ≠ [] := by
    intro h
    rw [h] at hinv
    simp at hinv
    omega
  rw [iterate_eq_iterateWeighted dist rng elements cs pos hc]
  exact iterateWeighted_preserves dist rng elements elements _ k hk he rfl (by simp) cs pos hinv

theorem seed_allocate_spec [Zero T] (rng : Nat → Nat) (elements : List T) (he : elements ≠ [])
    (clusterCount pos : Nat) :
    ∃ seeded, seed rng elements (allocate clusterCount) pos =
        some (seeded, pos + clusterCount) ∧
      seeded.length = clusterCount ∧
      (∀ (x : KMeansCluster T), x ∈ seeded → x.entries = [] ∧ x.center ∈ elements) := by
  obtain ⟨res, r1, r2, r3⟩ := forEachClusterDraw_spec KMeansCluster.init rng elements he
    (allocate clusterCount) pos
  have hlen : (allocate clusterCount : List (KMeansCluster T)).length = clusterCount := by
    simp [allocate]
  refine ⟨res, by rw [seed, r1, hlen], by rw [r2, hlen], ?_⟩
  intro x hx
  obtain ⟨j, hj, hjx⟩ := List.getElem_of_mem hx
  have hja : j < (allocate clusterCount : List (KMeansCluster T)).length := by
    rw [← r2]; exact hj
  obtain ⟨d, _, d2, d3⟩ := r3 j _ (List.getElem?_eq_getElem hja)
  rw [List.getElem?_eq_getElem hj, hjx] at d3
  simp only [Option.some.injEq] at d3
  rw [d3]
  refine ⟨?_, d2⟩
  simp [KMeansCluster.init, allocate]

theorem runPasses_returns (dist : T → T → ℚ)
    (step : List (KMeansCluster T) → Nat → Option (List (KMeansCluster T) × Nat))
    (maxIterations : Nat) (maxDelta : ℚ) (Inv : List (KMeansCluster T) → Prop)
    (hstep : ∀ (c : List (KMeansCluster T)) (pos : Nat), Inv c →
      ∃ c1 pos1, step c pos = some (c1, pos1) ∧ Inv c1)
    (hmax : maxIterations < 2 ^ 32) (seeded : List (KMeansCluster T)) (pos : Nat)
    (hinv : Inv seeded) :
    ∃ r, runPasses dist step maxIterations maxDelta seeded pos = some r ∧
      r.outcome = CallOutcome.returned ∧ Inv r.m_clusters ∧ r.trace ≠ [] ∧
      (0 < maxIterations → r.trace.length ≤ maxIterations) ∧
      ∀ (i : Nat) (x : Nat × ℚ), r.trace[i]? = some x →
        x.1 = (i + 1) % 2 ^ 32 ∧
        (convergedTest x.2 maxDelta x.1 maxIterations = true ↔ i + 1 = r.trace.length) := by
  obtain ⟨r, r1, r2⟩ := passLoop_total dist step maxIterations maxDelta Inv hstep
    (by norm_num at hmax ⊢; exact hmax) (2 ^ 32) 0 seeded pos [] hinv (by norm_num)
    (by norm_num; omega)
  obtain ⟨new, n1, n2, n3⟩ := passLoop_trace_spec dist step maxIterations maxDelta (2 ^ 32) 0
    seeded pos [] r r1
  rw [List.nil_append] at n1
  have hspec : ∀ (i : Nat) (x : Nat × ℚ), r.trace[i]? = some x →
      x.1 = (i + 1) % 2 ^ 32 ∧
      (convergedTest x.2 maxDelta x.1 maxIterations = true ↔ i + 1 = r.trace.length) := by
    intro i x hx
    rw [n1] at hx ⊢
    obtain ⟨a1, a2⟩ := n3 i x hx
    rw [nextPass_iterate] at a1
    exact ⟨a1, a2⟩
  refine ⟨{ outcome := CallOutcome.returned, m_clusters := r.m_clusters, pos := r.pos,
            trace := r.trace }, by simp only [runPasses, r1], rfl, r2,
    by rw [n1]; exact n2, ?_, hspec⟩
  intro hpos
  show r.trace.length ≤ maxIterations
  by_contra hgt
  have hlt : maxIterations - 1 < r.trace.length := by omega
  obtain ⟨b1, b2⟩ := hspec (maxIterations - 1) (r.trace[maxIterations - 1])
    (List.getElem?_eq_getElem hlt)
  have hcounter : (r.trace[maxIterations - 1]).1 = maxIterations := by
    rw [b1, show maxIterations - 1 + 1 = maxIterations by omega]
    exact Nat.mod_eq_of_lt hmax
  have htest : convergedTest (r.trace[maxIterations - 1]).2 maxDelta
      (r.trace[maxIterations - 1]).1 maxIterations = true := by
    simp [convergedTest, hcounter]
  have := b2.mp htest
  omega

theorem cluster_returns [Zero T] [Add T] [SMul ℚ T] (dist : T → T → ℚ) (rng : Nat → Nat)
    (elements : List T) (clusterCount maxIterations : Nat) (maxDelta : ℚ)
    (m_clusters : List (KMeansCluster T)) (pos : Nat)
    (h1 : 0 < clusterCount) (h2 : clusterCount ≤ elements.length)
    (hmax : maxIterations < 2 ^ 32) :
    ∃ r, cluster dist rng elements clusterCount maxIterations maxDelta m_clusters pos = some r ∧
      r.outcome = CallOutcome.returned ∧
      (r.m_clusters.length = clusterCount ∧
        ∀ (x : KMeansCluster T), x ∈ r.m_clusters → x.entries = []) ∧
      r.trace ≠ [] ∧
      (0 < maxIterations → r.trace.length ≤ maxIterations) ∧
      ∀ (i : Nat) (x : Nat × ℚ), r.trace[i]? = some x →
        x.1 = (i + 1) % 2 ^ 32 ∧
        (convergedTest x.2 maxDelta x.1 maxIterations = true ↔ i + 1 = r.trace.length) := by
  have he : elements ≠ [] := by
    intro h
    rw [h] at h2
    simp at h2
    omega
  obtain ⟨seeded, s1, s2, s3⟩ := seed_allocate_spec rng elements he clusterCount pos
  obtain ⟨r, r1, r2⟩ := runPasses_returns dist (iterate dist rng elements) maxIterations maxDelta
    (fun cs => cs.length = clusterCount ∧ ∀ (x : KMeansCluster T), x ∈ cs → x.entries = [])
    (fun cs p hinv => iterate_preserves dist rng elements clusterCount h1 he cs p hinv)
    hmax seeded (pos + clusterCount) ⟨s2, fun x hx => (s3 x hx).1⟩
  refine ⟨r, ?_, r2⟩
  simp only [cluster, ge_iff_le, h2, not_true_eq_false, if_false, s1]
  exact r1

theorem clusterWeighted_returns [Zero T] [Add T] [SMul ℚ T] (dist : T → T → ℚ)
    (rng : Nat → Nat) (elements : List T) (weights : List ℚ)
    (clusterCount maxIterations : Nat) (maxDelta : ℚ)
    (m_clusters : List (KMeansCluster T)) (pos : Nat)
    (h1 : 0 < clusterCount) (h2 : clusterCount ≤ elements.length)
    (hw : elements.length = weights.length) (hmax : maxIterations < 2 ^ 32) :
    ∃ r, clusterWeighted dist rng elements weights clusterCount maxIterations maxDelta
        m_clusters pos = some r ∧
      r.outcome = CallOutcome.returned ∧
      (r.m_clusters.length = clusterCount ∧
        ∀ (x : KMeansCluster T), x ∈ r.m_clusters → x.entries = []) ∧
      r.trace ≠ [] ∧
      (0 < maxIterations → r.trace.length ≤ maxIterations) ∧
      ∀ (i : Nat) (x : Nat × ℚ), r.trace[i]? = some x →
        x.1 = (i + 1) % 2 ^ 32 ∧
        (convergedTest x.2 maxDelta x.1 maxIterations = true ↔ i + 1 = r.trace.length) := by
  have he : elements ≠ [] := by
    intro h
    rw [h] at h2
    simp at h2
    omega
  have hwl : (weightElements elements weights).length = elements.length := by
    simp [weightElements, hw]
  obtain ⟨seeded, s1, s2, s3⟩ := seed_allocate_spec rng elements he clusterCount pos
  obtain ⟨r, r1, r2⟩ := runPasses_returns dist
    (iterateWeighted dist rng elements (weightElements elements weights) weights)
    maxIterations maxDelta
    (fun cs => cs.length = clusterCount ∧ ∀ (x : KMeansCluster T), x ∈ cs → x.entries = [])
    (fun cs p hinv => iterateWeighted_preserves dist rng elements _ weights clusterCount h1 he
      hwl hw.symm cs p hinv)
    hmax seeded (pos + clusterCount) ⟨s2, fun x hx => (s3 x hx).1⟩
  refine ⟨r, ?_, r2⟩
  unfold clusterWeighted
  rw [if_neg (not_not.mpr h2), if_neg (not_not.mpr hw), s1]
  exact r1

/-! States of the pass loop: what holds whenever a loop of `iterate` returns. -/

theorem forEach_length {α β : Type} (body : α → Option β) (l : List α) :
    ∀ (bs : List β), forEach body l = some bs → bs.length = l.length := by
  induction l with
  | nil =>
    intro bs h
    simp only [forEach, Option.some.injEq] at h
    subst h
    rfl
  | cons a rest ih =>
    intro bs h
    simp only [forEach] at h
    cases hb : body a with
    | none => rw [hb] at h; cases h
    | some b =>
      rw [hb] at h
      cases hr : forEach body rest with
      | none => rw [hr] at h; cases h
      | some bs1 =>
        rw [hr] at h
        simp only [Option.some.injEq] at h
        rw [← h, List.length_cons, List.length_cons, ih bs1 hr]

theorem forEachClusterDraw_of_some (f : KMeansCluster T → T → KMeansCluster T)
    (rng : Nat → Nat) (elements : List T) (clusters : List (KMeansCluster T)) :
    ∀ (pos : Nat) (res : List (KMeansCluster T)) (p : Nat),
      forEachClusterDraw f rng elements clusters pos = some (res, p) →
      res.length = clusters.length ∧ p = pos + clusters.length ∧
      ∀ (x : KMeansCluster T), x ∈ res →
        ∃ c d, c ∈ clusters ∧ d ∈ elements ∧ x = f c d := by
  induction clusters with
  | nil =>
    intro pos res p h
    simp only [forEachClusterDraw, Option.some.injEq, Prod.mk.injEq] at h
    obtain ⟨h1, h2⟩ := h
    subst h1 h2
    exact ⟨rfl, rfl, by intro x hx; simp at hx⟩
  | cons c0 rest ih =>
    intro pos res p h
    simp only [forEachClusterDraw] at h
    cases hd : randomElement elements (rng pos) with
    | none => rw [hd] at h; cases h
    | some d0 =>
      rw [hd] at h
      cases hr : forEachClusterDraw f rng elements rest (pos + 1) with
      | none => rw [hr] at h; cases h
      | some r1 =>
        obtain ⟨rest1, pos1⟩ := r1
        rw [hr] at h
        simp only [Option.some.injEq, Prod.mk.injEq] at h
        obtain ⟨h1, h2⟩ := h
        subst h1 h2
        obtain ⟨a1, a2, a3⟩ := ih (pos + 1) rest1 pos1 hr
        have hmem : d0 ∈ elements := by
          unfold randomElement at hd
          exact List.getElem?_mem hd
        refine ⟨by simp [a1], by rw [a2, List.length_cons]; omega, ?_⟩
        intro x hx
        rcases List.mem_cons.mp hx with hx | hx
        · exact ⟨c0, d0, List.mem_cons_self c0 rest, hmem, hx⟩
        · obtain ⟨c, d, b1, b2, b3⟩ := a3 x hx
          exact ⟨c, d, List.mem_cons_of_mem c0 b1, b2, b3⟩

theorem accumulateWeighted_length (elements : List T) :
    ∀ (wE : List T) (ws : List ℚ) (storage : List Nat) (clusters acc : List (KMeansCluster T)),
      accumulateWeighted clusters elements wE ws storage = some acc →
      acc.length = clusters.length := by
  induction elements with
  | nil =>
    intro wE ws storage clusters acc h
    simp only [accumulateWeighted, Option.some.injEq] at h
    rw [h]
  | cons e elements ih =>
    intro wE ws storage clusters acc h
    cases wE with
    | nil => simp [accumulateWeighted] at h
    | cons we wE =>
      cases ws with
      | nil => simp [accumulateWeighted] at h
      | cons w ws =>
        cases storage with
        | nil => simp [accumulateWeighted] at h
        | cons s ss =>
          simp only [accumulateWeighted] at h
          cases hm : modifyAt (fun c => c.addEntry we w) clusters s with
          | none => rw [hm] at h; cases h
          | some clusters1 =>
            rw [hm] at h
            rw [ih wE ws ss clusters1 acc h, (modifyAt_spec _ clusters s clusters1 hm).1]

theorem accumulate_length (elements : List T) :
    ∀ (storage : List Nat) (clusters acc : List (KMeansCluster T)),
      accumulate clusters elements storage = some acc → acc.length = clusters.length := by
  induction elements with
  | nil =>
    intro storage clusters acc h
    simp only [accumulate, Option.some.injEq] at h
    rw [h]
  | cons e elements ih =>
    intro storage clusters acc h
    cases storage with
    | nil => simp [accumulate] at h
    | cons s ss =>
      simp only [accumulate] at h
      cases hm : modifyAt (fun c => c.addEntryUnit e) clusters s with
      | none => rw [hm] at h; cases h
      | some clusters1 =>
        rw [hm] at h
        rw [ih ss clusters1 acc h, (modifyAt_spec _ clusters s clusters1 hm).1]

theorem iterate_of_some [Add T] [SMul ℚ T] (dist : T → T → ℚ) (rng : Nat → Nat)
    (elements : List T) (cs c1 : List (KMeansCluster T)) (pos p1 : Nat)
    (h : iterate dist rng elements cs pos = some (c1, p1)) :
    c1.length = cs.length ∧ p1 = pos + cs.length ∧
      ∀ (x : KMeansCluster T), x ∈ c1 → x.entries = [] := by
  simp only [iterate] at h
  cases hs : iterateStorage dist cs elements with
  | none => rw [hs] at h; cases h
  | some storage =>
    rw [hs] at h
    simp only at h
    cases ha : accumulate cs elements storage with
    | none => rw [ha] at h; cases h
    | some acc =>
      rw [ha] at h
      obtain ⟨a1, a2, a3⟩ := forEachClusterDraw_of_some _ rng elements acc pos c1 p1 h
      have hl := accumulate_length elements storage cs acc ha
      refine ⟨by rw [a1, hl], by rw [a2, hl], ?_⟩
      intro x hx
      obtain ⟨c, d, _, _, hxe⟩ := a3 x hx
      rw [hxe]
      exact finalizeIteration_entries_nil c d

theorem iterateWeighted_of_some [Add T] [SMul ℚ T] (dist : T → T → ℚ) (rng : Nat → Nat)
    (elements wE : List T) (ws : List ℚ) (cs c1 : List (KMeansCluster T)) (pos p1 : Nat)
    (h : iterateWeighted dist rng elements wE ws cs pos = some (c1, p1)) :
    c1.length = cs.length ∧ p1 = pos + cs.length ∧
      ∀ (x : KMeansCluster T), x ∈ c1 → x.entries = [] := by
  simp only [iterateWeighted] at h
  cases hs : iterateWeightedStorage dist cs elements wE ws with
  | none => rw [hs] at h; cases h
  | some storage =>
    rw [hs] at h
    simp only at h
    cases ha : accumulateWeighted cs elements wE ws storage with
    | none => rw [ha] at h; cases h
    | some acc =>
      rw [ha] at h
      obtain ⟨a1, a2, a3⟩ := forEachClusterDraw_of_some _ rng elements acc pos c1 p1 h
      have hl := accumulateWeighted_length elements wE ws storage cs acc ha
      refine ⟨by rw [a1, hl], by rw [a2, hl], ?_⟩
      intro x hx
      obtain ⟨c, d, _, _, hxe⟩ := a3 x hx
      rw [hxe]
      exact finalizeIteration_entries_nil c d

theorem seed_of_some [Zero T] (rng : Nat → Nat) (elements : List T) (k pos : Nat)
    (seeded : List (KMeansCluster T)) (pos1 : Nat)
    (h : seed rng elements (allocate k) pos = some (seeded, pos1)) :
    seeded.length = k ∧ pos1 = pos + k ∧
      ∀ (x : KMeansCluster T), x ∈ seeded → x.entries = [] ∧ x.center ∈ elements := by
  obtain ⟨a1, a2, a3⟩ := forEachClusterDraw_of_some _ rng elements _ pos seeded pos1 h
  have hlen : (allocate k : List (KMeansCluster T)).length = k := by simp [allocate]
  refine ⟨by rw [a1, hlen], by rw [a2, hlen], ?_⟩
  intro x hx
  obtain ⟨c, d, hc, hd, hxe⟩ := a3 x hx
  rw [hxe]
  have hce : c.entries = [] := by
    simp only [allocate, List.mem_replicate] at hc
    rw [hc.2]
  exact ⟨hce, hd⟩

theorem iteratePasses_invariant
    (step : List (KMeansCluster T) → Nat → Option (List (KMeansCluster T) × Nat))
    (Inv : List (KMeansCluster T) → Prop)
    (hstep : ∀ (cs c1 : List (KMeansCluster T)) (pos p1 : Nat),
      step cs pos = some (c1, p1) → Inv cs → Inv c1) (n : Nat) :
    ∀ (cs c1 : List (KMeansCluster T)) (pos p1 : Nat),
      iteratePasses step n cs pos = some (c1, p1) → Inv cs → Inv c1 := by
  induction n with
  | zero =>
    intro cs c1 pos p1 h hinv
    simp only [iteratePasses, Option.some.injEq, Prod.mk.injEq] at h
    rw [← h.1]
    exact hinv
  | succ m ih =>
    intro cs c1 pos p1 h hinv
    simp only [iteratePasses] at h
    cases hs : step cs pos with
    | none => rw [hs] at h; cases h
    | some r =>
      obtain ⟨c2, p2⟩ := r
      rw [hs] at h
      exact ih c2 c1 p2 p1 h (hstep cs c2 pos p2 hs hinv)

theorem passLoop_iteratePasses (dist : T → T → ℚ)
    (step : List (KMeansCluster T) → Nat → Option (List (KMeansCluster T) × Nat))
    (maxIterations : Nat) (maxDelta : ℚ) (fuel : Nat) :
    ∀ (pass : Nat) (cs : List (KMeansCluster T)) (pos : Nat) (trace : List (Nat × ℚ))
      (r : LoopResult T),
      passLoop dist step maxIterations maxDelta fuel pass cs pos trace = some r →
      ∃ n, 0 < n ∧ r.trace.length = trace.length + n ∧
        iteratePasses step n cs pos = some (r.m_clusters, r.pos) := by
  induction fuel with
  | zero => intro pass cs pos trace r h; simp [passLoop] at h
  | succ f ih =>
    intro pass cs pos trace r h
    simp only [passLoop] at h
    cases hs : step cs pos with
    | none => rw [hs] at h; cases h
    | some res =>
      obtain ⟨c1, p1⟩ := res
      rw [hs] at h
      simp only at h
      split at h
      · simp only [Option.some.injEq] at h
        subst h
        exact ⟨1, Nat.one_pos, by simp, by simp [iteratePasses, hs]⟩
      · obtain ⟨n, n1, n2, n3⟩ := ih _ c1 p1 _ r h
        refine ⟨n + 1, Nat.succ_pos n, ?_, by simp only [iteratePasses, hs]; exact n3⟩
        rw [n2]
        simp
        omega

/-- C11: for every cluster state and every fallback the accumulator is empty after
`finalizeIteration` (on the early return as well as on the normal path); and in a call of
`cluster` (either overload) every cluster's accumulator is empty in the seeded state and in
the state after any number of passes, that is at the start of every pass. -/
theorem accumulator_empty_after_finalize_and_at_pass_start [Zero T] [Add T] [SMul ℚ T]
    (dist : T → T → ℚ) (rng : Nat → Nat) (elements : List T) (weights : List ℚ)
    (clusterCount pos : Nat) :
    (∀ (c : KMeansCluster T) (fallbackElement : T),
      (c.finalizeIteration fallbackElement).entries = []) ∧
    (∀ (seeded cs : List (KMeansCluster T)) (pos1 p n : Nat),
      seed rng elements (allocate clusterCount) pos = some (seeded, pos1) →
      iteratePasses (iterate dist rng elements) n seeded pos1 = some (cs, p) →
      ∀ (x : KMeansCluster T), x ∈ cs → x.entries = []) ∧
    (∀ (seeded cs : List (KMeansCluster T)) (pos1 p n : Nat),
      seed rng elements (allocate clusterCount) pos = some (seeded, pos1) →
      iteratePasses (iterateWeighted dist rng elements (weightElements elements weights) weights)
        n seeded pos1 = some (cs, p) →
      ∀ (x : KMeansCluster T), x ∈ cs → x.entries = []) := by
  refine ⟨finalizeIteration_entries_nil, ?_, ?_⟩
  · intro seeded cs pos1 p n hseed hpasses
    exact iteratePasses_invariant (iterate dist rng elements)
      (fun l => ∀ (x : KMeansCluster T), x ∈ l → x.entries = [])
      (fun a b q1 q2 hs _ => (iterate_of_some dist rng elements a b q1 q2 hs).2.2)
      n seeded cs pos1 p hpasses
      (fun x hx => ((seed_of_some rng elements clusterCount pos seeded pos1 hseed).2.2 x hx).1)
  · intro seeded cs pos1 p n hseed hpasses
    exact iteratePasses_invariant
      (iterateWeighted dist rng elements (weightElements elements weights) weights)
      (fun l => ∀ (x : KMeansCluster T), x ∈ l → x.entries = [])
      (fun a b q1 q2 hs _ => (iterateWeighted_of_some dist rng elements _ weights a b q1 q2 hs).2.2)
      n seeded cs pos1 p hpasses
      (fun x hx => ((seed_of_some rng elements clusterCount pos seeded pos1 hseed).2.2 x hx).1)

/-! The metric contract, the classification, and the reset of the engine. -/

theorem foldl_zipWith_nonneg (dist : T → T → ℚ) (hdist : ∀ (a b : T), 0 ≤ dist a b)
    (xs : List T) :
    ∀ (ys : List T) (init : ℚ), 0 ≤ init →
      0 ≤ (List.zipWith dist xs ys).foldl (fun delta d => delta + d) init := by
  induction xs with
  | nil => intro ys init h; simpa using h
  | cons x xs ih =>
    intro ys init h
    cases ys with
    | nil => simpa using h
    | cons y ys =>
      simp only [List.zipWith_cons_cons, List.foldl_cons]
      exact ih ys _ (add_nonneg h (hdist x y))

theorem convergenceDelta_nonneg (dist : T → T → ℚ) (hdist : ∀ (a b : T), 0 ≤ dist a b)
    (previousClusterCenters : List T) (clusters : List (KMeansCluster T)) :
    0 ≤ convergenceDelta dist previousClusterCenters clusters :=
  foldl_zipWith_nonneg dist hdist _ _ 0 (le_refl 0)

theorem vec2f_distSq_nonneg (a b : vec2f) : 0 ≤ Vec2fKMeansMetric.Dist a b := by
  unfold Vec2fKMeansMetric.Dist vec2f.distSq
  exact add_nonneg (mul_self_nonneg _) (mul_self_nonneg _)

theorem vec3f_distSq_nonneg (a b : vec3f) : 0 ≤ Vec3fKMeansMetric.Dist a b := by
  unfold Vec3fKMeansMetric.Dist vec3f.distSq
  exact add_nonneg (add_nonneg (mul_self_nonneg _) (mul_self_nonneg _)) (mul_self_nonneg _)

/-- C14: the metrics `Vec2fKMeansMetric::Dist` and `Vec3fKMeansMetric::Dist`, squared
Euclidean distances in exact arithmetic, are non-negative, symmetric and zero on equal
points; hence the convergence delta, a sum of such distances over the clusters, is
non-negative. -/
theorem metric_contract_and_delta_nonneg :
    (∀ (a b : vec2f), 0 ≤ Vec2fKMeansMetric.Dist a b ∧
      Vec2fKMeansMetric.Dist a b = Vec2fKMeansMetric.Dist b a ∧
      Vec2fKMeansMetric.Dist a a = 0) ∧
    (∀ (a b : vec3f), 0 ≤ Vec3fKMeansMetric.Dist a b ∧
      Vec3fKMeansMetric.Dist a b = Vec3fKMeansMetric.Dist b a ∧
      Vec3fKMeansMetric.Dist a a = 0) ∧
    (∀ (previousClusterCenters : List vec2f) (clusters : List (KMeansCluster vec2f)),
      0 ≤ convergenceDelta Vec2fKMeansMetric.Dist previousClusterCenters clusters) ∧
    (∀ (previousClusterCenters : List vec3f) (clusters : List (KMeansCluster vec3f)),
      0 ≤ convergenceDelta Vec3fKMeansMetric.Dist previousClusterCenters clusters) := by
  refine ⟨?_, ?_, ?_, ?_⟩
  · intro a b
    refine ⟨vec2f_distSq_nonneg a b, ?_, ?_⟩
    · unfold Vec2fKMeansMetric.Dist vec2f.distSq
      ring
    · unfold Vec2fKMeansMetric.Dist vec2f.distSq
      ring
  · intro a b
    refine ⟨vec3f_distSq_nonneg a b, ?_, ?_⟩
    · unfold Vec3fKMeansMetric.Dist vec3f.distSq
      ring
    · unfold Vec3fKMeansMetric.Dist vec3f.distSq
      ring
  · intro prev clusters
    exact convergenceDelta_nonneg _ vec2f_distSq_nonneg prev clusters
  · intro prev clusters
    exact convergenceDelta_nonneg _ vec3f_distSq_nonneg prev clusters

theorem forEach_getElem {α β : Type} (body : α → Option β) (l : List α) :
    ∀ (bs : List β), forEach body l = some bs →
      ∀ (k : Nat) (a : α), l[k]? = some a → body a = bs[k]? := by
  induction l with
  | nil => intro bs _ k a hk; simp at hk
  | cons a0 rest ih =>
    intro bs h k a hk
    simp only [forEach] at h
    cases hb : body a0 with
    | none => rw [hb] at h; cases h
    | some b =>
      rw [hb] at h
      cases hr : forEach body rest with
      | none => rw [hr] at h; cases h
      | some bs1 =>
        rw [hr] at h
        simp only [Option.some.injEq] at h
        subst h
        cases k with
        | zero =>
          simp only [List.getElem?_cons_zero, Option.some.injEq] at hk
          subst hk
          simpa using hb
        | succ n =>
          simp only [List.getElem?_cons_succ] at hk ⊢
          exact ih bs1 hr n a hk

/-- C15: for every list of clusters, elements, weighted elements and weights, the first loop
of the weighted `iterate` stores the same indices as the first loop of the unweighted
`iterate`; the index stored for an element is the one the scan finds for the raw element. -/
theorem classification_unaffected_by_weight (dist : T → T → ℚ)
    (clusters : List (KMeansCluster T)) (elements weightedElements : List T)
    (weights : List ℚ) :
    iterateWeightedStorage dist clusters elements weightedElements weights =
      iterateStorage dist clusters elements ∧
    ∀ (storage : List Nat),
      iterateWeightedStorage dist clusters elements weightedElements weights = some storage →
      storage.length = elements.length ∧
      ∀ (k : Nat) (e : T), elements[k]? = some e →
        storage[k]? = closestClusterIndex dist clusters e := by
  refine ⟨rfl, ?_⟩
  intro storage h
  refine ⟨forEach_length _ elements storage h, ?_⟩
  intro k e hk
  exact (forEach_getElem _ elements storage h k e hk).symm

theorem runPasses_of_some (dist : T → T → ℚ)
    (step : List (KMeansCluster T) → Nat → Option (List (KMeansCluster T) × Nat))
    (maxIterations : Nat) (maxDelta : ℚ) (seeded : List (KMeansCluster T)) (pos : Nat)
    (r : CallResult T) (h : runPasses dist step maxIterations maxDelta seeded pos = some r) :
    r.outcome = CallOutcome.returned ∧
      ∃ n, 0 < n ∧ r.trace.length = n ∧
        iteratePasses step n seeded pos = some (r.m_clusters, r.pos) := by
  simp only [runPasses] at h
  cases hl : passLoop dist step maxIterations maxDelta (2 ^ 32) 0 seeded pos [] with
  | none => rw [hl] at h; cases h
  | some lr =>
    rw [hl] at h
    simp only [Option.some.injEq] at h
    subst h
    obtain ⟨n, n1, n2, n3⟩ := passLoop_iteratePasses dist step maxIterations maxDelta _ 0 seeded
      pos [] lr hl
    exact ⟨rfl, n, n1, by simpa using n2, n3⟩

theorem cluster_of_some [Zero T] [Add T] [SMul ℚ T] (dist : T → T → ℚ) (rng : Nat → Nat)
    (elements : List T) (k maxIterations : Nat) (maxDelta : ℚ)
    (m_clusters : List (KMeansCluster T)) (pos : Nat) (r : CallResult T) (hk : k ≤ elements.length)
    (h : cluster dist rng elements k maxIterations maxDelta m_clusters pos = some r) :
    ∃ seeded n, seed rng elements (allocate k) pos = some (seeded, pos + k) ∧
      r.outcome = CallOutcome.returned ∧ 0 < n ∧ r.trace.length = n ∧
      iteratePasses (iterate dist rng elements) n seeded (pos + k) =
        some (r.m_clusters, r.pos) := by
  unfold cluster at h
  rw [if_neg (not_not.mpr hk)] at h
  cases hs : seed rng elements (allocate k) pos with
  | none => rw [hs] at h; cases h
  | some sd =>
    obtain ⟨seeded, pos1⟩ := sd
    rw [hs] at h
    simp only at h
    have hp := (seed_of_some rng elements k pos seeded pos1 hs).2.1
    subst hp
    obtain ⟨r1, n, n1, n2, n3⟩ := runPasses_of_some dist _ maxIterations maxDelta seeded _ r h
    exact ⟨seeded, n, rfl, r1, n1, n2, n3⟩

theorem clusterWeighted_of_some [Zero T] [Add T] [SMul ℚ T] (dist : T → T → ℚ)
    (rng : Nat → Nat) (elements : List T) (weights : List ℚ) (k maxIterations : Nat)
    (maxDelta : ℚ) (m_clusters : List (KMeansCluster T)) (pos : Nat) (r : CallResult T)
    (hk : k ≤ elements.length) (hw : elements.length = weights.length)
    (h : clusterWeighted dist rng elements weights k maxIterations maxDelta m_clusters pos =
      some r) :
    ∃ seeded n, seed rng elements (allocate k) pos = some (seeded, pos + k) ∧
      r.outcome = CallOutcome.returned ∧ 0 < n ∧ r.trace.length = n ∧
      iteratePasses (iterateWeighted dist rng elements (weightElements elements weights) weights)
        n seeded (pos + k) = some (r.m_clusters, r.pos) := by
  unfold clusterWeighted at h
  rw [if_neg (not_not.mpr hk), if_neg (not_not.mpr hw)] at h
  cases hs : seed rng elements (allocate k) pos with
  | none => rw [hs] at h; cases h
  | some sd =>
    obtain ⟨seeded, pos1⟩ := sd
    rw [hs] at h
    simp only at h
    have hp := (seed_of_some rng elements k pos seeded pos1 hs).2.1
    subst hp
    obtain ⟨r1, n, n1, n2, n3⟩ := runPasses_of_some dist _ maxIterations maxDelta seeded _ r h
    exact ⟨seeded, n, rfl, r1, n1, n2, n3⟩

/-- C16: a call of `cluster` whose preconditions hold does not depend on the clusters the
engine held before: from any two prior engine states, the same arguments and the same random
draws give the same result (outcome, clusters, passes), and after a call that returns,
`clusterCount()` equals the `clusterCount` argument. The same holds for the weighted
overload. -/
theorem cluster_resets_engine [Zero T] [Add T] [SMul ℚ T] (dist : T → T → ℚ)
    (rng : Nat → Nat) (elements : List T) (weights : List ℚ) (k maxIterations : Nat)
    (maxDelta : ℚ) (prior1 prior2 : List (KMeansCluster T)) (pos : Nat)
    (hk : k ≤ elements.length) :
    cluster dist rng elements k maxIterations maxDelta prior1 pos =
      cluster dist rng elements k maxIterations maxDelta prior2 pos ∧
    (∀ (r : CallResult T),
      cluster dist rng elements k maxIterations maxDelta prior1 pos = some r →
      r.outcome = CallOutcome.returned ∧ clusterCount r.m_clusters = k) ∧
    (elements.length = weights.length →
      clusterWeighted dist rng elements weights k maxIterations maxDelta prior1 pos =
        clusterWeighted dist rng elements weights k maxIterations maxDelta prior2 pos ∧
      ∀ (r : CallResult T),
        clusterWeighted dist rng elements weights k maxIterations maxDelta prior1 pos = some r →
        r.outcome = CallOutcome.returned ∧ clusterCount r.m_clusters = k) := by
  refine ⟨?_, ?_, ?_⟩
  · unfold cluster
    rw [if_neg (not_not.mpr hk), if_neg (not_not.mpr hk)]
  · intro r h
    obtain ⟨seeded, n, s1, r1, _, _, n3⟩ :=
      cluster_of_some dist rng elements k maxIterations maxDelta prior1 pos r hk h
    refine ⟨r1, ?_⟩
    exact iteratePasses_invariant (iterate dist rng elements) (fun l => l.length = k)
      (fun a b q1 q2 hs ha =>
        (iterate_of_some dist rng elements a b q1 q2 hs).1.trans ha)
      n seeded r.m_clusters (pos + k) r.pos n3
      (seed_of_some rng elements k pos seeded (pos + k) s1).1
  · intro hw
    constructor
    · unfold clusterWeighted
      rw [if_neg (not_not.mpr hk), if_neg (not_not.mpr hk), if_neg (not_not.mpr hw),
        if_neg (not_not.mpr hw)]
    · intro r h
      obtain ⟨seeded, n, s1, r1, _, _, n3⟩ :=
        clusterWeighted_of_some dist rng elements weights k maxIterations maxDelta prior1 pos r
          hk hw h
      refine ⟨r1, ?_⟩
      exact iteratePasses_invariant
        (iterateWeighted dist rng elements (weightElements elements weights) weights)
        (fun l => l.length = k)
        (fun a b q1 q2 hs ha =>
          (iterateWeighted_of_some dist rng elements _ weights a b q1 q2 hs).1.trans ha)
        n seeded r.m_clusters (pos + k) r.pos n3
        (seed_of_some rng elements k pos seeded (pos + k) s1).1

/-! Unit weights, and the index safety of a pass. -/

theorem weightElements_replicate_one [MulAction ℚ T] (elements : List T) :
    weightElements elements (List.replicate elements.length 1) = elements := by
  induction elements with
  | nil => rfl
  | cons e rest ih =>
    have h : weightElements (e :: rest) (List.replicate (e :: rest).length 1) =
        ((1 : ℚ) • e) :: weightElements rest (List.replicate rest.length 1) := rfl
    rw [h, ih, one_smul]

theorem iterate_eq_iterateWeighted_unit [Add T] [SMul ℚ T] (dist : T → T → ℚ)
    (rng : Nat → Nat) (elements : List T) (cs : List (KMeansCluster T)) (pos : Nat) :
    iterate dist rng elements cs pos =
      iterateWeighted dist rng elements elements (List.replicate elements.length 1) cs pos := by
  have hst : iterateWeightedStorage dist cs elements elements
      (List.replicate elements.length 1) = iterateStorage dist cs elements := rfl
  simp only [iterate, iterateWeighted, hst]
  cases hs : iterateStorage dist cs elements with
  | none => rfl
  | some storage =>
    simp only
    rw [accumulate_eq_accumulateWeighted elements storage cs
      (forEach_length _ elements storage hs)]

/-- C18: in exact arithmetic, where scaling an element by `1` leaves it unchanged, the
weighted `cluster` with all weights equal to `1` gives the same result as the unweighted
`cluster` for every elements list, cluster count, `maxIterations`, `maxDelta`, prior engine
state and sequence of random draws: the same outcome, the same passes with the same deltas,
and the same clusters with the same centers. -/
theorem clusterWeighted_unit_weights_eq_cluster [Zero T] [Add T] [MulAction ℚ T]
    (dist : T → T → ℚ) (rng : Nat → Nat) (elements : List T) (k maxIterations : Nat)
    (maxDelta : ℚ) (m_clusters : List (KMeansCluster T)) (pos : Nat) :
    clusterWeighted dist rng elements (List.replicate elements.length 1) k maxIterations
        maxDelta m_clusters pos =
      cluster dist rng elements k maxIterations maxDelta m_clusters pos := by
  have hstep : iterateWeighted dist rng elements
      (weightElements elements (List.replicate elements.length 1))
      (List.replicate elements.length 1) = iterate dist rng elements := by
    funext cs p
    rw [weightElements_replicate_one, iterate_eq_iterateWeighted_unit]
  unfold clusterWeighted cluster
  rw [hstep]
  by_cases hk : elements.length ≥ k
  · rw [if_neg (not_not.mpr hk), if_neg (not_not.mpr hk),
      if_neg (not_not.mpr (List.length_replicate _ _).symm)]
  · rw [if_pos hk, if_pos hk]

theorem iteratePasses_total
    (step : List (KMeansCluster T) → Nat → Option (List (KMeansCluster T) × Nat))
    (Inv : List (KMeansCluster T) → Prop)
    (hstep : ∀ (cs : List (KMeansCluster T)) (pos : Nat), Inv cs →
      ∃ c1 pos1, step cs pos = some (c1, pos1) ∧ Inv c1) (n : Nat) :
    ∀ (cs : List (KMeansCluster T)) (pos : Nat), Inv cs →
      ∃ c1 p1, iteratePasses step n cs pos = some (c1, p1) ∧ Inv c1 := by
  induction n with
  | zero => intro cs pos hinv; exact ⟨cs, pos, rfl, hinv⟩
  | succ m ih =>
    intro cs pos hinv
    obtain ⟨c2, p2, hs, hinv2⟩ := hstep cs pos hinv
    obtain ⟨c1, p1, h1, h2⟩ := ih c2 p2 hinv2
    exact ⟨c1, p1, by simp only [iteratePasses, hs]; exact h1, h2⟩

/-- C19: under `1 <= clusterCount <= elements.size()` no access of a call of `cluster` is out
of range. The seeding succeeds, and in the state before every pass there are `clusterCount`
clusters; the assignment loop stores one index below `clusterCount` for every element, so the
accumulation loop's accesses `clusters[storage[i]]` succeed; every random fallback draw is
an element; the centers snapshot and the clusters after the pass both have `clusterCount`
entries, as the convergence loop reads them; and with `maxIterations` a 32-bit value the
whole call returns. -/
theorem pass_index_safety [Zero T] [Add T] [SMul ℚ T] (dist : T → T → ℚ) (rng : Nat → Nat)
    (elements : List T) (k maxIterations : Nat) (maxDelta : ℚ)
    (m_clusters : List (KMeansCluster T)) (pos : Nat)
    (h1 : 0 < k) (h2 : k ≤ elements.length) (hmax : maxIterations < 2 ^ 32) :
    (∃ r, cluster dist rng elements k maxIterations maxDelta m_clusters pos = some r ∧
      r.outcome = CallOutcome.returned) ∧
    ∃ seeded, seed rng elements (allocate k) pos = some (seeded, pos + k) ∧
      ∀ (n : Nat), ∃ cs p,
        iteratePasses (iterate dist rng elements) n seeded (pos + k) = some (cs, p) ∧
        cs.length = k ∧ (cs.map (fun c => c.center)).length = k ∧
        ∃ storage acc res,
          iterateStorage dist cs elements = some storage ∧
          storage.length = elements.length ∧
          (∀ (s : Nat), s ∈ storage → s < k) ∧
          accumulate cs elements storage = some acc ∧ acc.length = k ∧
          (∀ (j : Nat), j < k →
            ∃ d, randomElement elements (rng (p + j)) = some d ∧ d ∈ elements) ∧
          iterate dist rng elements cs p = some (res, p + k) ∧ res.length = k := by
  have he : elements ≠ [] := by
    intro h
    rw [h] at h2
    simp at h2
    omega
  constructor
  · obtain ⟨r, r1, r2, _⟩ :=
      cluster_returns dist rng elements k maxIterations maxDelta m_clusters pos h1 h2 hmax
    exact ⟨r, r1, r2⟩
  · obtain ⟨seeded, s1, s2, s3⟩ := seed_allocate_spec rng elements he k pos
    refine ⟨seeded, s1, ?_⟩
    intro n
    obtain ⟨cs, p, c1, c2, c3⟩ := iteratePasses_total (iterate dist rng elements)
      (fun l => l.length = k ∧ ∀ (x : KMeansCluster T), x ∈ l → x.entries = [])
      (fun l q hinv => iterate_preserves dist rng elements k h1 he l q hinv)
      n seeded (pos + k) ⟨s2, fun x hx => (s3 x hx).1⟩
    have hcs : cs ≠ [] := by
      intro h
      rw [h] at c2
      simp at c2
      omega
    obtain ⟨acc, a1, a2, _, _⟩ := accumulateWeighted_total dist elements elements
      (List.replicate elements.length 1) cs hcs c3 rfl (by simp)
    obtain ⟨res, r1, r2, _⟩ := iterateWeighted_pass dist rng elements elements
      (List.replicate elements.length 1) cs p hcs he rfl (by simp)
    refine ⟨cs, p, c1, c2, by simp [c2], elements.map (storedIndex dist cs), acc, res,
      iterateStorage_eq dist cs elements hcs, by simp, ?_, ?_, by rw [a2, c2], ?_, ?_,
      by rw [r2, c2]⟩
    · intro s hs
      obtain ⟨e, _, rfl⟩ := List.mem_map.mp hs
      rw [← c2]
      exact storedIndex_lt dist cs e hcs
    · rw [accumulate_eq_accumulateWeighted elements _ cs (by simp)]
      exact a1
    · intro j _
      exact randomElement_some elements (rng (p + j)) he
    · rw [iterate_eq_iterateWeighted_unit, r1, c2]

/-! Runs of one, two and three passes, and a pass over two clusters. -/

theorem passLoop_stop (dist : T → T → ℚ)
    (step : List (KMeansCluster T) → Nat → Option (List (KMeansCluster T) × Nat))
    (maxIterations : Nat) (maxDelta : ℚ) (fuel pass : Nat) (cs c1 : List (KMeansCluster T))
    (pos p1 : Nat) (trace : List (Nat × ℚ)) (hf : 0 < fuel) (hs : step cs pos = some (c1, p1))
    (ht : convergedTest (convergenceDelta dist (cs.map (fun c => c.center)) c1) maxDelta
      (nextPass pass) maxIterations = true) :
    passLoop dist step maxIterations maxDelta fuel pass cs pos trace =
      some { m_clusters := c1, pos := p1, pass := nextPass pass,
             trace := trace ++
               [(nextPass pass, convergenceDelta dist (cs.map (fun c => c.center)) c1)] } := by
  obtain ⟨f, rfl⟩ := Nat.exists_eq_succ_of_ne_zero (Nat.pos_iff_ne_zero.mp hf)
  simp only [passLoop, hs, if_pos ht]

theorem passLoop_continue (dist : T → T → ℚ)
    (step : List (KMeansCluster T) → Nat → Option (List (KMeansCluster T) × Nat))
    (maxIterations : Nat) (maxDelta : ℚ) (fuel pass : Nat) (cs c1 : List (KMeansCluster T))
    (pos p1 : Nat) (trace : List (Nat × ℚ)) (hf : 0 < fuel) (hs : step cs pos = some (c1, p1))
    (ht : convergedTest (convergenceDelta dist (cs.map (fun c => c.center)) c1) maxDelta
      (nextPass pass) maxIterations = false) :
    passLoop dist step maxIterations maxDelta fuel pass cs pos trace =
      passLoop dist step maxIterations maxDelta (fuel - 1) (nextPass pass) c1 p1
        (trace ++ [(nextPass pass, convergenceDelta dist (cs.map (fun c => c.center)) c1)]) := by
  obtain ⟨f, rfl⟩ := Nat.exists_eq_succ_of_ne_zero (Nat.pos_iff_ne_zero.mp hf)
  have hne : ¬ (convergedTest (convergenceDelta dist (cs.map (fun c => c.center)) c1) maxDelta
      (nextPass pass) maxIterations = true) := by
    rw [ht]
    exact Bool.false_ne_true
  simp only [passLoop, hs, if_neg hne]
  rfl

theorem runPasses_one_pass (dist : T → T → ℚ)
    (step : List (KMeansCluster T) → Nat → Option (List (KMeansCluster T) × Nat))
    (maxIterations : Nat) (maxDelta : ℚ) (s0 s1 : List (KMeansCluster T)) (p0 p1 : Nat)
    (h1 : step s0 p0 = some (s1, p1))
    (t1 : convergedTest (convergenceDelta dist (s0.map (fun c => c.center)) s1) maxDelta 1
      maxIterations = true) :
    ∃ r, runPasses dist step maxIterations maxDelta s0 p0 = some r ∧
      r.outcome = CallOutcome.returned ∧ r.m_clusters = s1 ∧ r.pos = p1 ∧
      r.trace.length = 1 := by
  have e1 : nextPass 0 = 1 := rfl
  have hl := passLoop_stop dist step maxIterations maxDelta (2 ^ 32) 0 s0 s1 p0 p1 []
    (by norm_num) h1 (by rw [e1]; exact t1)
  have hr : runPasses dist step maxIterations maxDelta s0 p0 =
      some { outcome := CallOutcome.returned, m_clusters := s1, pos := p1,
             trace := [] ++ [(nextPass 0,
               convergenceDelta dist (s0.map (fun c => c.center)) s1)] } := by
    simp only [runPasses, hl]
  exact ⟨_, hr, rfl, rfl, rfl, by simp⟩

theorem runPasses_two_passes (dist : T → T → ℚ)
    (step : List (KMeansCluster T) → Nat → Option (List (KMeansCluster T) × Nat))
    (maxIterations : Nat) (maxDelta : ℚ) (s0 s1 s2 : List (KMeansCluster T)) (p0 p1 p2 : Nat)
    (h1 : step s0 p0 = some (s1, p1)) (h2 : step s1 p1 = some (s2, p2))
    (t1 : convergedTest (convergenceDelta dist (s0.map (fun c => c.center)) s1) maxDelta 1
      maxIterations = false)
    (t2 : convergedTest (convergenceDelta dist (s1.map (fun c => c.center)) s2) maxDelta 2
      maxIterations = true) :
    ∃ r, runPasses dist step maxIterations maxDelta s0 p0 = some r ∧
      r.outcome = CallOutcome.returned ∧ r.m_clusters = s2 ∧ r.pos = p2 ∧
      r.trace.length = 2 := by
  have e1 : nextPass 0 = 1 := rfl
  have e2 : nextPass 1 = 2 := rfl
  have hl1 := passLoop_continue dist step maxIterations maxDelta (2 ^ 32) 0 s0 s1 p0 p1 []
    (by norm_num) h1 (by rw [e1]; exact t1)
  have hl2 := passLoop_stop dist step maxIterations maxDelta (2 ^ 32 - 1) (nextPass 0) s1 s2 p1 p2
    ([] ++ [(nextPass 0, convergenceDelta dist (s0.map (fun c => c.center)) s1)])
    (by norm_num) h2 (by rw [e1, e2]; exact t2)
  have hr : runPasses dist step maxIterations maxDelta s0 p0 =
      some { outcome := CallOutcome.returned, m_clusters := s2, pos := p2,
             trace := [] ++ [(nextPass 0,
               convergenceDelta dist (s0.map (fun c => c.center)) s1)] ++
               [(nextPass (nextPass 0),
                 convergenceDelta dist (s1.map (fun c => c.center)) s2)] } := by
    simp only [runPasses, hl1, hl2]
  exact ⟨_, hr, rfl, rfl, rfl, by simp⟩

theorem runPasses_three_passes (dist : T → T → ℚ)
    (step : List (KMeansCluster T) → Nat → Option (List (KMeansCluster T) × Nat))
    (maxIterations : Nat) (maxDelta : ℚ) (s0 s1 s2 s3 : List (KMeansCluster T))
    (p0 p1 p2 p3 : Nat)
    (h1 : step s0 p0 = some (s1, p1)) (h2 : step s1 p1 = some (s2, p2))
    (h3 : step s2 p2 = some (s3, p3))
    (t1 : convergedTest (convergenceDelta dist (s0.map (fun c => c.center)) s1) maxDelta 1
      maxIterations = false)
    (t2 : convergedTest (convergenceDelta dist (s1.map (fun c => c.center)) s2) maxDelta 2
      maxIterations = false)
    (t3 : convergedTest (convergenceDelta dist (s2.map (fun c => c.center)) s3) maxDelta 3
      maxIterations = true) :
    ∃ r, runPasses dist step maxIterations maxDelta s0 p0 = some r ∧
      r.outcome = CallOutcome.returned ∧ r.m_clusters = s3 ∧ r.pos = p3 ∧
      r.trace.length = 3 := by
  have e1 : nextPass 0 = 1 := rfl
  have e2 : nextPass 1 = 2 := rfl
  have e3 : nextPass 2 = 3 := rfl
  have hl1 := passLoop_continue dist step maxIterations maxDelta (2 ^ 32) 0 s0 s1 p0 p1 []
    (by norm_num) h1 (by rw [e1]; exact t1)
  have hl2 := passLoop_continue dist step maxIterations maxDelta (2 ^ 32 - 1) (nextPass 0) s1 s2
    p1 p2 ([] ++ [(nextPass 0, convergenceDelta dist (s0.map (fun c => c.center)) s1)])
    (by norm_num) h2 (by rw [e1, e2]; exact t2)
  have hl3 := passLoop_stop dist step maxIterations maxDelta (2 ^ 32 - 1 - 1)
    (nextPass (nextPass 0)) s2 s3 p2 p3
    ([] ++ [(nextPass 0, convergenceDelta dist (s0.map (fun c => c.center)) s1)] ++
      [(nextPass (nextPass 0), convergenceDelta dist (s1.map (fun c => c.center)) s2)])
    (by norm_num) h3 (by rw [e1, e2, e3]; exact t3)
  have hr : runPasses dist step maxIterations maxDelta s0 p0 =
      some { outcome := CallOutcome.returned, m_clusters := s3, pos := p3,
             trace := [] ++ [(nextPass 0,
               convergenceDelta dist (s0.map (fun c => c.center)) s1)] ++
               [(nextPass (nextPass 0),
                 convergenceDelta dist (s1.map (fun c => c.center)) s2)] ++
               [(nextPass (nextPass (nextPass 0)),
                 convergenceDelta dist (s2.map (fun c => c.center)) s3)] } := by
    simp only [runPasses, hl1, hl2, hl3]
  exact ⟨_, hr, rfl, rfl, rfl, by simp⟩

theorem iterateWeighted_two [Add T] [SMul ℚ T] (dist : T → T → ℚ) (rng : Nat → Nat)
    (elements wE : List T) (ws : List ℚ) (a b : T) (pos : Nat) (he : elements ≠ [])
    (h1 : wE.length = elements.length) (h2 : ws.length = elements.length) :
    ∃ d0 d1, randomElement elements (rng pos) = some d0 ∧
      randomElement elements (rng (pos + 1)) = some d1 ∧ d0 ∈ elements ∧ d1 ∈ elements ∧
      iterateWeighted dist rng elements wE ws
          [{ center := a, entries := [] }, { center := b, entries := [] }] pos =
        some ([KMeansCluster.finalizeIteration
                { center := a,
                  entries := entriesOf 0 wE ws (elements.map (storedIndex dist
                    [{ center := a, entries := [] }, { center := b, entries := [] }])) } d0,
               KMeansCluster.finalizeIteration
                { center := b,
                  entries := entriesOf 1 wE ws (elements.map (storedIndex dist
                    [{ center := a, entries := [] }, { center := b, entries := [] }])) } d1],
              pos + 2) := by
  obtain ⟨res, r1, r2, r3⟩ := iterateWeighted_pass dist rng elements wE ws
    [{ center := a, entries := [] }, { center := b, entries := [] }] pos (by simp) he h1 h2
  obtain ⟨d0, a1, a2, a3⟩ := r3 0 _ rfl
  obtain ⟨d1, b1, b2, b3⟩ := r3 1 _ rfl
  refine ⟨d0, d1, a1, b1, a2, b2, ?_⟩
  rw [r1]
  match res, r2, a3, b3 with
  | [x, y], _, a3, b3 =>
    simp only [List.getElem?_cons_zero, List.getElem?_cons_succ, Option.some.injEq,
      List.nil_append] at a3 b3
    rw [a3, b3]
    rfl

theorem seed_two [Zero T] (rng : Nat → Nat) (elements : List T) (pos : Nat)
    (he : elements ≠ []) :
    ∃ s0 s1, randomElement elements (rng pos) = some s0 ∧
      randomElement elements (rng (pos + 1)) = some s1 ∧ s0 ∈ elements ∧ s1 ∈ elements ∧
      seed rng elements (allocate 2) pos =
        some ([{ center := s0, entries := [] }, { center := s1, entries := [] }], pos + 2) := by
  obtain ⟨s0, a1, a2⟩ := randomElement_some elements (rng pos) he
  obtain ⟨s1, b1, b2⟩ := randomElement_some elements (rng (pos + 1)) he
  refine ⟨s0, s1, a1, b1, a2, b2, ?_⟩
  simp [seed, allocate, List.replicate, forEachClusterDraw, a1, b1, KMeansCluster.init]

/-! The weighted one-dimensional example: elements `[0, 10]`, weights `[1, 1]`, two clusters. -/

theorem line_mem (d : ℚ) (h : d ∈ lineElements) : d = 0 ∨ d = 10 := by
  simpa [lineElements] using h

theorem line_pass (rng : Nat → Nat) (a b : ℚ) (pos : Nat) :
    ∃ d0 d1, d1 ∈ lineElements ∧
      iterateWeighted distSq1 rng lineElements (weightElements lineElements lineWeights)
          lineWeights (twoClusters a b) pos =
        some ([KMeansCluster.finalizeIteration
                { center := a,
                  entries := entriesOf 0 (weightElements lineElements lineWeights) lineWeights
                    (lineElements.map (storedIndex distSq1 (twoClusters a b))) } d0,
               KMeansCluster.finalizeIteration
                { center := b,
                  entries := entriesOf 1 (weightElements lineElements lineWeights) lineWeights
                    (lineElements.map (storedIndex distSq1 (twoClusters a b))) } d1],
              pos + 2) := by
  obtain ⟨d0, d1, _, _, _, h4, h5⟩ := iterateWeighted_two distSq1 rng lineElements
    (weightElements lineElements lineWeights) lineWeights a b pos (by simp [lineElements])
    (by simp [weightElements, lineElements, lineWeights]) (by simp [lineElements, lineWeights])
  exact ⟨d0, d1, h4, h5⟩

theorem line_pass_0_10 (rng : Nat → Nat) (pos : Nat) :
    iterateWeighted distSq1 rng lineElements (weightElements lineElements lineWeights)
        lineWeights (twoClusters 0 10) pos = some (twoClusters 0 10, pos + 2) := by
  obtain ⟨d0, d1, _, h⟩ := line_pass rng 0 10 pos
  rw [h]
  norm_num [entriesOf, weightElements, lineElements, lineWeights, twoClusters, storedIndex,
    closestClusterIndex, closestLoop, distSq1, KMeansCluster.finalizeIteration,
    KMeansCluster.finalizeLoop]

theorem line_pass_10_0 (rng : Nat → Nat) (pos : Nat) :
    iterateWeighted distSq1 rng lineElements (weightElements lineElements lineWeights)
        lineWeights (twoClusters 10 0) pos = some (twoClusters 10 0, pos + 2) := by
  obtain ⟨d0, d1, _, h⟩ := line_pass rng 10 0 pos
  rw [h]
  norm_num [entriesOf, weightElements, lineElements, lineWeights, twoClusters, storedIndex,
    closestClusterIndex, closestLoop, distSq1, KMeansCluster.finalizeIteration,
    KMeansCluster.finalizeLoop]

theorem line_pass_equal_seeds (rng : Nat → Nat) (a : ℚ) (pos : Nat) :
    ∃ d1, d1 ∈ lineElements ∧
      iterateWeighted distSq1 rng lineElements (weightElements lineElements lineWeights)
        lineWeights (twoClusters a a) pos = some (twoClusters 5 d1, pos + 2) := by
  obtain ⟨d0, d1, hd, h⟩ := line_pass rng a a pos
  refine ⟨d1, hd, ?_⟩
  rw [h]
  norm_num [entriesOf, weightElements, lineElements, lineWeights, twoClusters, storedIndex,
    closestClusterIndex, closestLoop, distSq1, KMeansCluster.finalizeIteration,
    KMeansCluster.finalizeLoop]

theorem line_pass_5_0 (rng : Nat → Nat) (pos : Nat) :
    iterateWeighted distSq1 rng lineElements (weightElements lineElements lineWeights)
        lineWeights (twoClusters 5 0) pos = some (twoClusters 10 0, pos + 2) := by
  obtain ⟨d0, d1, _, h⟩ := line_pass rng 5 0 pos
  rw [h]
  norm_num [entriesOf, weightElements, lineElements, lineWeights, twoClusters, storedIndex,
    closestClusterIndex, closestLoop, distSq1, KMeansCluster.finalizeIteration,
    KMeansCluster.finalizeLoop]

theorem line_pass_5_10 (rng : Nat → Nat) (pos : Nat) :
    iterateWeighted distSq1 rng lineElements (weightElements lineElements lineWeights)
        lineWeights (twoClusters 5 10) pos = some (twoClusters 0 10, pos + 2) := by
  obtain ⟨d0, d1, _, h⟩ := line_pass rng 5 10 pos
  rw [h]
  norm_num [entriesOf, weightElements, lineElements, lineWeights, twoClusters, storedIndex,
    closestClusterIndex, closestLoop, distSq1, KMeansCluster.finalizeIteration,
    KMeansCluster.finalizeLoop]

theorem line_run (rng : Nat → Nat) (prior : List (KMeansCluster ℚ)) (pos : Nat) :
    ∃ r s0 s1, randomElement lineElements (rng pos) = some s0 ∧
      randomElement lineElements (rng (pos + 1)) = some s1 ∧
      clusterWeighted distSq1 rng lineElements lineWeights 2 0 0 prior pos = some r ∧
      r.outcome = CallOutcome.returned ∧
      (r.m_clusters = twoClusters 0 10 ∨ r.m_clusters = twoClusters 10 0) ∧
      ((s0 ≠ s1 ∧ r.trace.length = 1) ∨ (s0 = s1 ∧ r.trace.length = 3)) := by
  obtain ⟨s0, s1, hs0, hs1, m0, m1, hseed⟩ :=
    seed_two rng lineElements pos (by simp [lineElements])
  have hcw : clusterWeighted distSq1 rng lineElements lineWeights 2 0 0 prior pos =
      runPasses distSq1
        (iterateWeighted distSq1 rng lineElements (weightElements lineElements lineWeights)
          lineWeights) 0 0 (twoClusters s0 s1) (pos + 2) := by
    unfold clusterWeighted
    rw [if_neg (by simp [lineElements]), if_neg (by simp [lineElements, lineWeights]), hseed]
    rfl
  have hequal : ∀ (a : ℚ), ∃ r,
      runPasses distSq1
        (iterateWeighted distSq1 rng lineElements (weightElements lineElements lineWeights)
          lineWeights) 0 0 (twoClusters a a) (pos + 2) = some r ∧
      r.outcome = CallOutcome.returned ∧
      (r.m_clusters = twoClusters 0 10 ∨ r.m_clusters = twoClusters 10 0) ∧
      r.trace.length = 3 := by
    intro a
    obtain ⟨d1, hd1, hp1⟩ := line_pass_equal_seeds rng a (pos + 2)
    rcases line_mem d1 hd1 with h | h
    · subst h
      obtain ⟨r, r1, r2, r3, _, r5⟩ := runPasses_three_passes distSq1 _ 0 0 (twoClusters a a)
        (twoClusters 5 0) (twoClusters 10 0) (twoClusters 10 0) _ _ _ _ hp1
        (line_pass_5_0 rng _) (line_pass_10_0 rng _)
        (by
          have h25 : ¬ ((a - 5) * (a - 5) + a * a ≤ 0) := by nlinarith [mul_self_nonneg a]
          simp [convergedTest, convergenceDelta, twoClusters, distSq1, h25])
        (by norm_num [convergedTest, convergenceDelta, twoClusters, distSq1])
        (by norm_num [convergedTest, convergenceDelta, twoClusters, distSq1])
      exact ⟨r, r1, r2, Or.inr r3, r5⟩
    · subst h
      obtain ⟨r, r1, r2, r3, _, r5⟩ := runPasses_three_passes distSq1 _ 0 0 (twoClusters a a)
        (twoClusters 5 10) (twoClusters 0 10) (twoClusters 0 10) _ _ _ _ hp1
        (line_pass_5_10 rng _) (line_pass_0_10 rng _)
        (by
          have h25 : ¬ ((a - 5) * (a - 5) + (a - 10) * (a - 10) ≤ 0) := by
            nlinarith [mul_self_nonneg (a - 5), mul_self_nonneg (a - 10)]
          simp [convergedTest, convergenceDelta, twoClusters, distSq1, h25])
        (by norm_num [convergedTest, convergenceDelta, twoClusters, distSq1])
        (by norm_num [convergedTest, convergenceDelta, twoClusters, distSq1])
      exact ⟨r, r1, r2, Or.inl r3, r5⟩
  rcases line_mem s0 m0 with h0 | h0 <;> rcases line_mem s1 m1 with h1 | h1
  · subst h0 h1
    obtain ⟨r, r1, r2, r3, r4⟩ := hequal 0
    exact ⟨r, 0, 0, hs0, hs1, by rw [hcw]; exact r1, r2, r3, Or.inr ⟨rfl, r4⟩⟩
  · subst h0 h1
    obtain ⟨r, r1, r2, r3, _, r5⟩ := runPasses_one_pass distSq1 _ 0 0 (twoClusters 0 10)
      (twoClusters 0 10) _ _ (line_pass_0_10 rng (pos + 2))
      (by norm_num [convergedTest, convergenceDelta, twoClusters, distSq1])
    exact ⟨r, 0, 10, hs0, hs1, by rw [hcw]; exact r1, r2, Or.inl r3,
      Or.inl ⟨by norm_num, r5⟩⟩
  · subst h0 h1
    obtain ⟨r, r1, r2, r3, _, r5⟩ := runPasses_one_pass distSq1 _ 0 0 (twoClusters 10 0)
      (twoClusters 10 0) _ _ (line_pass_10_0 rng (pos + 2))
      (by norm_num [convergedTest, convergenceDelta, twoClusters, distSq1])
    exact ⟨r, 10, 0, hs0, hs1, by rw [hcw]; exact r1, r2, Or.inr r3,
      Or.inl ⟨by norm_num, r5⟩⟩
  · subst h0 h1
    obtain ⟨r, r1, r2, r3, r4⟩ := hequal 10
    exact ⟨r, 10, 10, hs0, hs1, by rw [hcw]; exact r1, r2, r3, Or.inr ⟨rfl, r4⟩⟩

/-- C12 (as amended): for every outcome of the random seed and fallback draws and every prior
engine state, the weighted `cluster` on elements `[0, 10]`, weights `[1, 1]`,
`clusterCount = 2`, `maxIterations = 0`, `maxDelta = 0` with the squared-distance metric
returns after at most three passes with the cluster centers `0` and `10` (in either
order); it returns after a single pass exactly when the two seeds are different elements,
and after three passes when both seeds are the same element. -/
theorem clusterWeighted_line_example (rng : Nat → Nat) (prior : List (KMeansCluster ℚ))
    (pos : Nat) :
    ∃ r, clusterWeighted distSq1 rng lineElements lineWeights 2 0 0 prior pos = some r ∧
      r.outcome = CallOutcome.returned ∧ r.trace.length ≤ 3 ∧
      (r.m_clusters.map (fun c => c.center) = [0, 10] ∨
        r.m_clusters.map (fun c => c.center) = [10, 0]) ∧
      (r.trace.length = 1 ↔
        randomElement lineElements (rng pos) ≠ randomElement lineElements (rng (pos + 1))) ∧
      (r.trace.length = 3 ↔
        randomElement lineElements (rng pos) = randomElement lineElements (rng (pos + 1))) := by
  obtain ⟨r, s0, s1, hs0, hs1, h1, h2, h3, h4⟩ := line_run rng prior pos
  refine ⟨r, h1, h2, ?_, ?_, ?_, ?_⟩
  · rcases h4 with ⟨_, h⟩ | ⟨_, h⟩ <;> omega
  · rcases h3 with h | h
    · left; rw [h]; rfl
    · right; rw [h]; rfl
  · rw [hs0, hs1]
    rcases h4 with ⟨hne, h⟩ | ⟨he, h⟩
    · simp [h, hne]
    · simp [h, he]
  · rw [hs0, hs1]
    rcases h4 with ⟨hne, h⟩ | ⟨he, h⟩
    · simp [h, hne]
    · simp [h, he]

/-- C12 (counterexample): when the random source returns `0` at every draw, both seeds are
the element `0`, and the weighted `cluster` on elements `[0, 10]`, weights `[1, 1]`,
`clusterCount = 2`, `maxIterations = 0`, `maxDelta = 0` runs three passes, not one. -/
theorem clusterWeighted_line_equal_seeds_counterexample :
    ∃ r, clusterWeighted distSq1 (fun _ => 0) lineElements lineWeights 2 0 0 [] 0 = some r ∧
      r.trace.length = 3 ∧ r.trace.length ≠ 1 := by
  obtain ⟨r, s0, s1, hs0, hs1, h1, _, _, h4⟩ := line_run (fun _ => 0) [] 0
  have e0 : s0 = 0 := by
    simp [randomElement, lineElements] at hs0
    exact hs0.symm
  have e1 : s1 = 0 := by
    simp [randomElement, lineElements] at hs1
    exact hs1.symm
  refine ⟨r, h1, ?_⟩
  rcases h4 with ⟨hne, _⟩ | ⟨_, h⟩
  · exact absurd (e0.trans e1.symm) hne
  · exact ⟨h, by omega⟩

/-! The 2D example: the four corners of a rectangle, two clusters, squared Euclidean metric. -/

theorem rect_mem (d : vec2f) (h : d ∈ rectElements) :
    d = (0, 0) ∨ d = (0, 1) ∨ d = (10, 0) ∨ d = (10, 1) := by
  simpa [rectElements] using h

theorem rect_pass (rng : Nat → Nat) (a b : vec2f) (pos : Nat) :
    ∃ d0 d1, d1 ∈ rectElements ∧
      iterate Vec2fKMeansMetric.Dist rng rectElements (twoClusters a b) pos =
        some ([KMeansCluster.finalizeIteration
                { center := a,
                  entries := entriesOf 0 rectElements (List.replicate rectElements.length 1)
                    (rectElements.map
                      (storedIndex Vec2fKMeansMetric.Dist (twoClusters a b))) } d0,
               KMeansCluster.finalizeIteration
                { center := b,
                  entries := entriesOf 1 rectElements (List.replicate rectElements.length 1)
                    (rectElements.map
                      (storedIndex Vec2fKMeansMetric.Dist (twoClusters a b))) } d1],
              pos + 2) := by
  obtain ⟨d0, d1, _, _, _, h4, h5⟩ := iterateWeighted_two Vec2fKMeansMetric.Dist rng rectElements
    rectElements (List.replicate rectElements.length 1) a b pos (by simp [rectElements])
    rfl (by simp)
  refine ⟨d0, d1, h4, ?_⟩
  rw [iterate_eq_iterateWeighted_unit]
  exact h5

theorem rect_pass_left_right (rng : Nat → Nat) (a b : vec2f) (pos : Nat)
    (ha : a = (0, 0) ∨ a = (0, 1)) (hb : b = (10, 0) ∨ b = (10, 1)) :
    iterate Vec2fKMeansMetric.Dist rng rectElements (twoClusters a b) pos =
      some (twoClusters (0, 1 / 2) (10, 1 / 2), pos + 2) := by
  obtain ⟨d0, d1, _, h⟩ := rect_pass rng a b pos
  rw [h]
  rcases ha with rfl | rfl <;> rcases hb with rfl | rfl <;>
    norm_num [entriesOf, rectElements, twoClusters, storedIndex, List.replicate,
      closestClusterIndex, closestLoop, Vec2fKMeansMetric.Dist, vec2f.distSq,
      KMeansCluster.finalizeIteration, KMeansCluster.finalizeLoop]

theorem rect_pass_right_left (rng : Nat → Nat) (a b : vec2f) (pos : Nat)
    (ha : a = (10, 0) ∨ a = (10, 1)) (hb : b = (0, 0) ∨ b = (0, 1)) :
    iterate Vec2fKMeansMetric.Dist rng rectElements (twoClusters a b) pos =
      some (twoClusters (10, 1 / 2) (0, 1 / 2), pos + 2) := by
  obtain ⟨d0, d1, _, h⟩ := rect_pass rng a b pos
  rw [h]
  rcases ha with rfl | rfl <;> rcases hb with rfl | rfl <;>
    norm_num [entriesOf, rectElements, twoClusters, storedIndex, List.replicate,
      closestClusterIndex, closestLoop, Vec2fKMeansMetric.Dist, vec2f.distSq,
      KMeansCluster.finalizeIteration, KMeansCluster.finalizeLoop]

theorem rect_pass_good_fixed (rng : Nat → Nat) (pos : Nat) :
    iterate Vec2fKMeansMetric.Dist rng rectElements (twoClusters (0, 1 / 2) (10, 1 / 2)) pos =
        some (twoClusters (0, 1 / 2) (10, 1 / 2), pos + 2) ∧
    iterate Vec2fKMeansMetric.Dist rng rectElements (twoClusters (10, 1 / 2) (0, 1 / 2)) pos =
        some (twoClusters (10, 1 / 2) (0, 1 / 2), pos + 2) := by
  constructor
  · obtain ⟨d0, d1, _, h⟩ := rect_pass rng (0, 1 / 2) (10, 1 / 2) pos
    rw [h]
    norm_num [entriesOf, rectElements, twoClusters, storedIndex, List.replicate,
      closestClusterIndex, closestLoop, Vec2fKMeansMetric.Dist, vec2f.distSq,
      KMeansCluster.finalizeIteration, KMeansCluster.finalizeLoop]
  · obtain ⟨d0, d1, _, h⟩ := rect_pass rng (10, 1 / 2) (0, 1 / 2) pos
    rw [h]
    norm_num [entriesOf, rectElements, twoClusters, storedIndex, List.replicate,
      closestClusterIndex, closestLoop, Vec2fKMeansMetric.Dist, vec2f.distSq,
      KMeansCluster.finalizeIteration, KMeansCluster.finalizeLoop]

theorem rect_pass_equal_seeds (rng : Nat → Nat) (a : vec2f) (pos : Nat) :
    ∃ d1, d1 ∈ rectElements ∧
      iterate Vec2fKMeansMetric.Dist rng rectElements (twoClusters a a) pos =
        some (twoClusters (5, 1 / 2) d1, pos + 2) := by
  obtain ⟨d0, d1, hd, h⟩ := rect_pass rng a a pos
  refine ⟨d1, hd, ?_⟩
  rw [h]
  norm_num [entriesOf, rectElements, twoClusters, storedIndex, List.replicate,
    closestClusterIndex, closestLoop, Vec2fKMeansMetric.Dist, vec2f.distSq,
    KMeansCluster.finalizeIteration, KMeansCluster.finalizeLoop]

theorem rect_pass_middle_left (rng : Nat → Nat) (d : vec2f) (pos : Nat)
    (hd : d = (0, 0) ∨ d = (0, 1)) :
    iterate Vec2fKMeansMetric.Dist rng rectElements (twoClusters (5, 1 / 2) d) pos =
      some (twoClusters (10, 1 / 2) (0, 1 / 2), pos + 2) := by
  obtain ⟨d0, d1, _, h⟩ := rect_pass rng (5, 1 / 2) d pos
  rw [h]
  rcases hd with rfl | rfl <;>
    norm_num [entriesOf, rectElements, twoClusters, storedIndex, List.replicate,
      closestClusterIndex, closestLoop, Vec2fKMeansMetric.Dist, vec2f.distSq,
      KMeansCluster.finalizeIteration, KMeansCluster.finalizeLoop]

theorem rect_pass_middle_right (rng : Nat → Nat) (d : vec2f) (pos : Nat)
    (hd : d = (10, 0) ∨ d = (10, 1)) :
    iterate Vec2fKMeansMetric.Dist rng rectElements (twoClusters (5, 1 / 2) d) pos =
      some (twoClusters (0, 1 / 2) (10, 1 / 2), pos + 2) := by
  obtain ⟨d0, d1, _, h⟩ := rect_pass rng (5, 1 / 2) d pos
  rw [h]
  rcases hd with rfl | rfl <;>
    norm_num [entriesOf, rectElements, twoClusters, storedIndex, List.replicate,
      closestClusterIndex, closestLoop, Vec2fKMeansMetric.Dist, vec2f.distSq,
      KMeansCluster.finalizeIteration, KMeansCluster.finalizeLoop]

theorem rect_pass_same_side (rng : Nat → Nat) (x : ℚ) (pos : Nat) (hx : x = 0 ∨ x = 10) :
    iterate Vec2fKMeansMetric.Dist rng rectElements (twoClusters (x, 0) (x, 1)) pos =
        some (twoClusters (5, 0) (5, 1), pos + 2) ∧
    iterate Vec2fKMeansMetric.Dist rng rectElements (twoClusters (x, 1) (x, 0)) pos =
        some (twoClusters (5, 1) (5, 0), pos + 2) := by
  constructor
  · obtain ⟨d0, d1, _, h⟩ := rect_pass rng (x, 0) (x, 1) pos
    rw [h]
    rcases hx with rfl | rfl <;>
      norm_num [entriesOf, rectElements, twoClusters, storedIndex, List.replicate,
        closestClusterIndex, closestLoop, Vec2fKMeansMetric.Dist, vec2f.distSq,
        KMeansCluster.finalizeIteration, KMeansCluster.finalizeLoop]
  · obtain ⟨d0, d1, _, h⟩ := rect_pass rng (x, 1) (x, 0) pos
    rw [h]
    rcases hx with rfl | rfl <;>
      norm_num [entriesOf, rectElements, twoClusters, storedIndex, List.replicate,
        closestClusterIndex, closestLoop, Vec2fKMeansMetric.Dist, vec2f.distSq,
        KMeansCluster.finalizeIteration, KMeansCluster.finalizeLoop]

theorem rect_pass_split_fixed (rng : Nat → Nat) (pos : Nat) :
    iterate Vec2fKMeansMetric.Dist rng rectElements (twoClusters (5, 0) (5, 1)) pos =
        some (twoClusters (5, 0) (5, 1), pos + 2) ∧
    iterate Vec2fKMeansMetric.Dist rng rectElements (twoClusters (5, 1) (5, 0)) pos =
        some (twoClusters (5, 1) (5, 0), pos + 2) := by
  constructor
  · obtain ⟨d0, d1, _, h⟩ := rect_pass rng (5, 0) (5, 1) pos
    rw [h]
    norm_num [entriesOf, rectElements, twoClusters, storedIndex, List.replicate,
      closestClusterIndex, closestLoop, Vec2fKMeansMetric.Dist, vec2f.distSq,
      KMeansCluster.finalizeIteration, KMeansCluster.finalizeLoop]
  · obtain ⟨d0, d1, _, h⟩ := rect_pass rng (5, 1) (5, 0) pos
    rw [h]
    norm_num [entriesOf, rectElements, twoClusters, storedIndex, List.replicate,
      closestClusterIndex, closestLoop, Vec2fKMeansMetric.Dist, vec2f.distSq,
      KMeansCluster.finalizeIteration, KMeansCluster.finalizeLoop]

theorem rect_run_left_right (rng : Nat → Nat) (a b : vec2f) (pos : Nat)
    (ha : a = (0, 0) ∨ a = (0, 1)) (hb : b = (10, 0) ∨ b = (10, 1)) :
    ∃ r, runPasses Vec2fKMeansMetric.Dist (iterate Vec2fKMeansMetric.Dist rng rectElements)
        10 0 (twoClusters a b) pos = some r ∧
      r.outcome = CallOutcome.returned ∧
      r.m_clusters = twoClusters (0, 1 / 2) (10, 1 / 2) ∧ r.trace.length = 2 := by
  obtain ⟨r, r1, r2, r3, _, r5⟩ := runPasses_two_passes Vec2fKMeansMetric.Dist _ 10 0
    (twoClusters a b) (twoClusters (0, 1 / 2) (10, 1 / 2)) (twoClusters (0, 1 / 2) (10, 1 / 2))
    _ _ _ (rect_pass_left_right rng a b pos ha hb) (rect_pass_good_fixed rng _).1
    (by
      rcases ha with rfl | rfl <;> rcases hb with rfl | rfl <;>
        norm_num [convergedTest, convergenceDelta, twoClusters, Vec2fKMeansMetric.Dist,
          vec2f.distSq])
    (by
      norm_num [convergedTest, convergenceDelta, twoClusters, Vec2fKMeansMetric.Dist,
        vec2f.distSq])
  exact ⟨r, r1, r2, r3, r5⟩

theorem rect_run_right_left (rng : Nat → Nat) (a b : vec2f) (pos : Nat)
    (ha : a = (10, 0) ∨ a = (10, 1)) (hb : b = (0, 0) ∨ b = (0, 1)) :
    ∃ r, runPasses Vec2fKMeansMetric.Dist (iterate Vec2fKMeansMetric.Dist rng rectElements)
        10 0 (twoClusters a b) pos = some r ∧
      r.outcome = CallOutcome.returned ∧
      r.m_clusters = twoClusters (10, 1 / 2) (0, 1 / 2) ∧ r.trace.length = 2 := by
  obtain ⟨r, r1, r2, r3, _, r5⟩ := runPasses_two_passes Vec2fKMeansMetric.Dist _ 10 0
    (twoClusters a b) (twoClusters (10, 1 / 2) (0, 1 / 2)) (twoClusters (10, 1 / 2) (0, 1 / 2))
    _ _ _ (rect_pass_right_left rng a b pos ha hb) (rect_pass_good_fixed rng _).2
    (by
      rcases ha with rfl | rfl <;> rcases hb with rfl | rfl <;>
        norm_num [convergedTest, convergenceDelta, twoClusters, Vec2fKMeansMetric.Dist,
          vec2f.distSq])
    (by
      norm_num [convergedTest, convergenceDelta, twoClusters, Vec2fKMeansMetric.Dist,
        vec2f.distSq])
  exact ⟨r, r1, r2, r3, r5⟩

theorem rect_run_equal_seeds (rng : Nat → Nat) (a : vec2f) (pos : Nat)
    (ha : a ∈ rectElements) :
    ∃ r, runPasses Vec2fKMeansMetric.Dist (iterate Vec2fKMeansMetric.Dist rng rectElements)
        10 0 (twoClusters a a) pos = some r ∧
      r.outcome = CallOutcome.returned ∧
      (r.m_clusters = twoClusters (0, 1 / 2) (10, 1 / 2) ∨
        r.m_clusters = twoClusters (10, 1 / 2) (0, 1 / 2)) ∧ r.trace.length = 3 := by
  obtain ⟨d1, hd1, hp1⟩ := rect_pass_equal_seeds rng a pos
  have hleft : (d1 = (0, 0) ∨ d1 = (0, 1)) ∨ (d1 = (10, 0) ∨ d1 = (10, 1)) := by
    rcases rect_mem d1 hd1 with h | h | h | h
    · exact Or.inl (Or.inl h)
    · exact Or.inl (Or.inr h)
    · exact Or.inr (Or.inl h)
    · exact Or.inr (Or.inr h)
  rcases hleft with hd | hd
  · obtain ⟨r, r1, r2, r3, _, r5⟩ := runPasses_three_passes Vec2fKMeansMetric.Dist _ 10 0
      (twoClusters a a) (twoClusters (5, 1 / 2) d1) (twoClusters (10, 1 / 2) (0, 1 / 2))
      (twoClusters (10, 1 / 2) (0, 1 / 2)) _ _ _ _ hp1 (rect_pass_middle_left rng d1 _ hd)
      (rect_pass_good_fixed rng _).2
      (by
        rcases rect_mem a ha with rfl | rfl | rfl | rfl <;> rcases hd with rfl | rfl <;>
          norm_num [convergedTest, convergenceDelta, twoClusters, Vec2fKMeansMetric.Dist,
            vec2f.distSq])
      (by
        rcases hd with rfl | rfl <;>
          norm_num [convergedTest, convergenceDelta, twoClusters, Vec2fKMeansMetric.Dist,
            vec2f.distSq])
      (by
        norm_num [convergedTest, convergenceDelta, twoClusters, Vec2fKMeansMetric.Dist,
          vec2f.distSq])
    exact ⟨r, r1, r2, Or.inr r3, r5⟩
  · obtain ⟨r, r1, r2, r3, _, r5⟩ := runPasses_three_passes Vec2fKMeansMetric.Dist _ 10 0
      (twoClusters a a) (twoClusters (5, 1 / 2) d1) (twoClusters (0, 1 / 2) (10, 1 / 2))
      (twoClusters (0, 1 / 2) (10, 1 / 2)) _ _ _ _ hp1 (rect_pass_middle_right rng d1 _ hd)
      (rect_pass_good_fixed rng _).1
      (by
        rcases rect_mem a ha with rfl | rfl | rfl | rfl <;> rcases hd with rfl | rfl <;>
          norm_num [convergedTest, convergenceDelta, twoClusters, Vec2fKMeansMetric.Dist,
            vec2f.distSq])
      (by
        rcases hd with rfl | rfl <;>
          norm_num [convergedTest, convergenceDelta, twoClusters, Vec2fKMeansMetric.Dist,
            vec2f.distSq])
      (by
        norm_num [convergedTest, convergenceDelta, twoClusters, Vec2fKMeansMetric.Dist,
          vec2f.distSq])
    exact ⟨r, r1, r2, Or.inl r3, r5⟩

theorem rect_run_same_side (rng : Nat → Nat) (x : ℚ) (pos : Nat) (hx : x = 0 ∨ x = 10) :
    (∃ r, runPasses Vec2fKMeansMetric.Dist (iterate Vec2fKMeansMetric.Dist rng rectElements)
        10 0 (twoClusters (x, 0) (x, 1)) pos = some r ∧
      r.outcome = CallOutcome.returned ∧
      r.m_clusters = twoClusters (5, 0) (5, 1) ∧ r.trace.length = 2) ∧
    (∃ r, runPasses Vec2fKMeansMetric.Dist (iterate Vec2fKMeansMetric.Dist rng rectElements)
        10 0 (twoClusters (x, 1) (x, 0)) pos = some r ∧
      r.outcome = CallOutcome.returned ∧
      r.m_clusters = twoClusters (5, 1) (5, 0) ∧ r.trace.length = 2) := by
  constructor
  · obtain ⟨r, r1, r2, r3, _, r5⟩ := runPasses_two_passes Vec2fKMeansMetric.Dist _ 10 0
      (twoClusters (x, 0) (x, 1)) (twoClusters (5, 0) (5, 1)) (twoClusters (5, 0) (5, 1))
      _ _ _ (rect_pass_same_side rng x pos hx).1 (rect_pass_split_fixed rng _).1
      (by
        rcases hx with rfl | rfl <;>
          norm_num [convergedTest, convergenceDelta, twoClusters, Vec2fKMeansMetric.Dist,
            vec2f.distSq])
      (by
        norm_num [convergedTest, convergenceDelta, twoClusters, Vec2fKMeansMetric.Dist,
          vec2f.distSq])
    exact ⟨r, r1, r2, r3, r5⟩
  · obtain ⟨r, r1, r2, r3, _, r5⟩ := runPasses_two_passes Vec2fKMeansMetric.Dist _ 10 0
      (twoClusters (x, 1) (x, 0)) (twoClusters (5, 1) (5, 0)) (twoClusters (5, 1) (5, 0))
      _ _ _ (rect_pass_same_side rng x pos hx).2 (rect_pass_split_fixed rng _).2
      (by
        rcases hx with rfl | rfl <;>
          norm_num [convergedTest, convergenceDelta, twoClusters, Vec2fKMeansMetric.Dist,
            vec2f.distSq])
      (by
        norm_num [convergedTest, convergenceDelta, twoClusters, Vec2fKMeansMetric.Dist,
          vec2f.distSq])
    exact ⟨r, r1, r2, r3, r5⟩

theorem rect_run (rng : Nat → Nat) (a b : vec2f) (pos : Nat)
    (ha : a ∈ rectElements) (hb : b ∈ rectElements) :
    ∃ r, runPasses Vec2fKMeansMetric.Dist (iterate Vec2fKMeansMetric.Dist rng rectElements)
        10 0 (twoClusters a b) pos = some r ∧
      r.outcome = CallOutcome.returned ∧ r.trace.length ≤ 3 ∧
      (((a = b ∨ a.1 ≠ b.1) ∧
          (r.m_clusters = twoClusters (0, 1 / 2) (10, 1 / 2) ∨
            r.m_clusters = twoClusters (10, 1 / 2) (0, 1 / 2))) ∨
        ((a ≠ b ∧ a.1 = b.1) ∧
          (r.m_clusters = twoClusters (5, 0) (5, 1) ∨
            r.m_clusters = twoClusters (5, 1) (5, 0)))) := by
  rcases rect_mem a ha with rfl | rfl | rfl | rfl <;>
    rcases rect_mem b hb with rfl | rfl | rfl | rfl
  · obtain ⟨r, r1, r2, r3, r4⟩ := rect_run_equal_seeds rng (0, 0) pos (by simp [rectElements])
    exact ⟨r, r1, r2, by omega, Or.inl ⟨Or.inl rfl, r3⟩⟩
  · obtain ⟨r, r1, r2, r3, r4⟩ := (rect_run_same_side rng 0 pos (Or.inl rfl)).1
    exact ⟨r, r1, r2, by omega, Or.inr ⟨⟨fun h => by have h2 := congrArg Prod.snd h; norm_num at h2, rfl⟩, Or.inl r3⟩⟩
  · obtain ⟨r, r1, r2, r3, r4⟩ := rect_run_left_right rng (0, 0) (10, 0) pos (Or.inl rfl) (Or.inl rfl)
    exact ⟨r, r1, r2, by omega, Or.inl ⟨Or.inr (by norm_num), Or.inl r3⟩⟩
  · obtain ⟨r, r1, r2, r3, r4⟩ := rect_run_left_right rng (0, 0) (10, 1) pos (Or.inl rfl) (Or.inr rfl)
    exact ⟨r, r1, r2, by omega, Or.inl ⟨Or.inr (by norm_num), Or.inl r3⟩⟩
  · obtain ⟨r, r1, r2, r3, r4⟩ := (rect_run_same_side rng 0 pos (Or.inl rfl)).2
    exact ⟨r, r1, r2, by omega, Or.inr ⟨⟨fun h => by have h2 := congrArg Prod.snd h; norm_num at h2, rfl⟩, Or.inr r3⟩⟩
  · obtain ⟨r, r1, r2, r3, r4⟩ := rect_run_equal_seeds rng (0, 1) pos (by simp [rectElements])
    exact ⟨r, r1, r2, by omega, Or.inl ⟨Or.inl rfl, r3⟩⟩
  · obtain ⟨r, r1, r2, r3, r4⟩ := rect_run_left_right rng (0, 1) (10, 0) pos (Or.inr rfl) (Or.inl rfl)
    exact ⟨r, r1, r2, by omega, Or.inl ⟨Or.inr (by norm_num), Or.inl r3⟩⟩
  · obtain ⟨r, r1, r2, r3, r4⟩ := rect_run_left_right rng (0, 1) (10, 1) pos (Or.inr rfl) (Or.inr rfl)
    exact ⟨r, r1, r2, by omega, Or.inl ⟨Or.inr (by norm_num), Or.inl r3⟩⟩
  · obtain ⟨r, r1, r2, r3, r4⟩ := rect_run_right_left rng (10, 0) (0, 0) pos (Or.inl rfl) (Or.inl rfl)
    exact ⟨r, r1, r2, by omega, Or.inl ⟨Or.inr (by norm_num), Or.inr r3⟩⟩
  · obtain ⟨r, r1, r2, r3, r4⟩ := rect_run_right_left rng (10, 0) (0, 1) pos (Or.inl rfl) (Or.inr rfl)
    exact ⟨r, r1, r2, by omega, Or.inl ⟨Or.inr (by norm_num), Or.inr r3⟩⟩
  · obtain ⟨r, r1, r2, r3, r4⟩ := rect_run_equal_seeds rng (10, 0) pos (by simp [rectElements])
    exact ⟨r, r1, r2, by omega, Or.inl ⟨Or.inl rfl, r3⟩⟩
  · obtain ⟨r, r1, r2, r3, r4⟩ := (rect_run_same_side rng 10 pos (Or.inr rfl)).1
    exact ⟨r, r1, r2, by omega, Or.inr ⟨⟨fun h => by have h2 := congrArg Prod.snd h; norm_num at h2, rfl⟩, Or.inl r3⟩⟩
  · obtain ⟨r, r1, r2, r3, r4⟩ := rect_run_right_left rng (10, 1) (0, 0) pos (Or.inr rfl) (Or.inl rfl)
    exact ⟨r, r1, r2, by omega, Or.inl ⟨Or.inr (by norm_num), Or.inr r3⟩⟩
  · obtain ⟨r, r1, r2, r3, r4⟩ := rect_run_right_left rng (10, 1) (0, 1) pos (Or.inr rfl) (Or.inr rfl)
    exact ⟨r, r1, r2, by omega, Or.inl ⟨Or.inr (by norm_num), Or.inr r3⟩⟩
  · obtain ⟨r, r1, r2, r3, r4⟩ := (rect_run_same_side rng 10 pos (Or.inr rfl)).2
    exact ⟨r, r1, r2, by omega, Or.inr ⟨⟨fun h => by have h2 := congrArg Prod.snd h; norm_num at h2, rfl⟩, Or.inr r3⟩⟩
  · obtain ⟨r, r1, r2, r3, r4⟩ := rect_run_equal_seeds rng (10, 1) pos (by simp [rectElements])
    exact ⟨r, r1, r2, by omega, Or.inl ⟨Or.inl rfl, r3⟩⟩

theorem cluster_rect_eq_runPasses (rng : Nat → Nat) (prior : List (KMeansCluster vec2f))
    (pos : Nat) :
    ∃ s0 s1, randomElement rectElements (rng pos) = some s0 ∧
      randomElement rectElements (rng (pos + 1)) = some s1 ∧
      s0 ∈ rectElements ∧ s1 ∈ rectElements ∧
      cluster Vec2fKMeansMetric.Dist rng rectElements 2 10 0 prior pos =
        runPasses Vec2fKMeansMetric.Dist (iterate Vec2fKMeansMetric.Dist rng rectElements)
          10 0 (twoClusters s0 s1) (pos + 2) := by
  obtain ⟨s0, s1, hs0, hs1, m0, m1, hseed⟩ :=
    seed_two rng rectElements pos (by simp [rectElements])
  refine ⟨s0, s1, hs0, hs1, m0, m1, ?_⟩
  unfold cluster
  rw [if_neg (by simp [rectElements]), hseed]
  rfl

theorem rect_good_holds (e : vec2f) (he : e ∈ rectElements) :
    (∃ i c, quantizeToNearestClusterIndex Vec2fKMeansMetric.Dist
        (twoClusters (0, 1 / 2) (10, 1 / 2)) e = some i ∧
      (twoClusters ((0 : ℚ), (1 / 2 : ℚ)) (10, 1 / 2))[i]? = some c ∧
      c.center = (e.1, 1 / 2)) ∧
    (∃ i c, quantizeToNearestClusterIndex Vec2fKMeansMetric.Dist
        (twoClusters (10, 1 / 2) (0, 1 / 2)) e = some i ∧
      (twoClusters ((10 : ℚ), (1 / 2 : ℚ)) (0, 1 / 2))[i]? = some c ∧
      c.center = (e.1, 1 / 2)) := by
  rcases rect_mem e he with rfl | rfl | rfl | rfl <;>
    norm_num [quantizeToNearestClusterIndex, closestLoop, twoClusters,
      Vec2fKMeansMetric.Dist, vec2f.distSq]

/-- C13 (as amended): for every outcome of the random draws and every prior engine state, the
unweighted `cluster` on the elements `(0,0), (0,1), (10,0), (10,1)` with the squared
Euclidean metric, `clusterCount = 2`, `maxIterations = 10`, `maxDelta = 0` returns after at
most three passes. When the two seeds are the same element or have different first
coordinates, it ends with the centers `(0, 1/2)` and `(10, 1/2)` (in either order), and
every element is nearest to the center with its own first coordinate, so one cluster holds
`(0,0), (0,1)` and the other `(10,0), (10,1)`. When the two seeds are the two different
elements with the same first coordinate, it ends with the centers `(5, 0)` and `(5, 1)`
instead. -/
theorem cluster_rect_example (rng : Nat → Nat) (prior : List (KMeansCluster vec2f))
    (pos : Nat) :
    ∃ r s0 s1, randomElement rectElements (rng pos) = some s0 ∧
      randomElement rectElements (rng (pos + 1)) = some s1 ∧
      cluster Vec2fKMeansMetric.Dist rng rectElements 2 10 0 prior pos = some r ∧
      r.outcome = CallOutcome.returned ∧ r.trace.length ≤ 3 ∧
      ((s0 = s1 ∨ s0.1 ≠ s1.1) →
        (r.m_clusters.map (fun c => c.center) = [(0, 1 / 2), (10, 1 / 2)] ∨
          r.m_clusters.map (fun c => c.center) = [(10, 1 / 2), (0, 1 / 2)]) ∧
        ∀ (e : vec2f), e ∈ rectElements →
          ∃ i c, quantizeToNearestClusterIndex Vec2fKMeansMetric.Dist r.m_clusters e = some i ∧
            r.m_clusters[i]? = some c ∧ c.center = (e.1, 1 / 2)) ∧
      ((s0 ≠ s1 ∧ s0.1 = s1.1) →
        (r.m_clusters.map (fun c => c.center) = [(5, 0), (5, 1)] ∨
          r.m_clusters.map (fun c => c.center) = [(5, 1), (5, 0)])) := by
  obtain ⟨s0, s1, hs0, hs1, m0, m1, hcw⟩ := cluster_rect_eq_runPasses rng prior pos
  obtain ⟨r, r1, r2, r3, r4⟩ := rect_run rng s0 s1 (pos + 2) m0 m1
  refine ⟨r, s0, s1, hs0, hs1, by rw [hcw]; exact r1, r2, r3, ?_, ?_⟩
  · intro hgood
    rcases r4 with ⟨_, hg⟩ | ⟨⟨hne, hx⟩, _⟩
    · rcases hg with hg | hg
      · rw [hg]
        exact ⟨Or.inl rfl, fun e he => (rect_good_holds e he).1⟩
      · rw [hg]
        exact ⟨Or.inr rfl, fun e he => (rect_good_holds e he).2⟩
    · rcases hgood with h | h
      · exact absurd h hne
      · exact absurd hx h
  · intro hbad
    rcases r4 with ⟨hgood, _⟩ | ⟨_, hb⟩
    · rcases hgood with h | h
      · exact absurd h hbad.1
      · exact absurd hbad.2 h
    · rcases hb with hb | hb
      · rw [hb]; exact Or.inl rfl
      · rw [hb]; exact Or.inr rfl

/-- C13 (witness): with the draws `0, 2, 4, ...` the seeds are `(0,0)` and `(10,0)`, on
different sides, and the run ends with the centers `(0, 1/2)` and `(10, 1/2)`. -/
theorem cluster_rect_example_witness :
    ∃ r, cluster Vec2fKMeansMetric.Dist (fun n => 2 * n) rectElements 2 10 0 [] 0 = some r ∧
      (r.m_clusters.map (fun c => c.center) = [(0, 1 / 2), (10, 1 / 2)] ∨
        r.m_clusters.map (fun c => c.center) = [(10, 1 / 2), (0, 1 / 2)]) := by
  obtain ⟨r, s0, s1, hs0, hs1, hc, _, _, hgood, _⟩ :=
    cluster_rect_example (fun n => 2 * n) [] 0
  have e0 : s0 = (0, 0) := by
    simp [randomElement, rectElements] at hs0
    exact hs0.symm
  have e1 : s1 = (10, 0) := by
    simp [randomElement, rectElements] at hs1
    exact hs1.symm
  refine ⟨r, hc, (hgood (Or.inr ?_)).1⟩
  rw [e0, e1]
  norm_num

/-- C13 (counterexample): with the draws `0, 1, 2, ...` the seeds are `(0,0)` and `(0,1)`,
and the unweighted `cluster` on the four elements with `clusterCount = 2`,
`maxIterations = 10`, `maxDelta = 0` ends with the centers `(5, 0)` and `(5, 1)`: no cluster
is centered at `(0, 1/2)` or at `(10, 1/2)`. -/
theorem cluster_rect_same_side_seeds_counterexample :
    ∃ r, cluster Vec2fKMeansMetric.Dist (fun n => n) rectElements 2 10 0 [] 0 = some r ∧
      r.m_clusters.map (fun c => c.center) = [(5, 0), (5, 1)] ∧
      r.m_clusters.map (fun c => c.center) ≠ [(0, 1 / 2), (10, 1 / 2)] ∧
      r.m_clusters.map (fun c => c.center) ≠ [(10, 1 / 2), (0, 1 / 2)] := by
  obtain ⟨s0, s1, hs0, hs1, _, _, hcw⟩ := cluster_rect_eq_runPasses (fun n => n) [] 0
  have e0 : s0 = (0, 0) := by
    simp [randomElement, rectElements] at hs0
    exact hs0.symm
  have e1 : s1 = (0, 1) := by
    simp [randomElement, rectElements] at hs1
    exact hs1.symm
  subst e0 e1
  obtain ⟨r, r1, _, r3, _⟩ := (rect_run_same_side (fun n => n) 0 (0 + 2) (Or.inl rfl)).1
  have hcenters : r.m_clusters.map (fun c => c.center) = [(5, 0), (5, 1)] := by
    rw [r3]; rfl
  refine ⟨r, by rw [hcw]; exact r1, hcenters, ?_, ?_⟩
  · rw [hcenters]
    intro h
    have h2 := congrArg (fun l => (l.headD (0, 0)).1) h
    norm_num at h2
  · rw [hcenters]
    intro h
    have h2 := congrArg (fun l => (l.headD (0, 0)).1) h
    norm_num at h2

/-! The k-means objective: one unweighted pass does not increase it. -/

theorem foldl_min_le_init (f : KMeansCluster T → ℚ) (rest : List (KMeansCluster T)) :
    ∀ (init : ℚ), rest.foldl (fun m c => min m (f c)) init ≤ init := by
  induction rest with
  | nil => intro init; exact le_refl _
  | cons c rest ih =>
    intro init
    exact le_trans (ih _) (min_le_left _ _)

theorem foldl_min_le_mem (f : KMeansCluster T → ℚ) (rest : List (KMeansCluster T)) :
    ∀ (init : ℚ) (c : KMeansCluster T), c ∈ rest →
      rest.foldl (fun m c => min m (f c)) init ≤ f c := by
  induction rest with
  | nil => intro init c hc; simp at hc
  | cons c0 rest ih =>
    intro init c hc
    rcases List.mem_cons.mp hc with h | h
    · subst h
      exact le_trans (foldl_min_le_init f rest _) (min_le_right _ _)
    · exact ih _ c h

theorem foldl_min_attained (f : KMeansCluster T → ℚ) (rest : List (KMeansCluster T)) :
    ∀ (init : ℚ), rest.foldl (fun m c => min m (f c)) init = init ∨
      ∃ c, c ∈ rest ∧ rest.foldl (fun m c => min m (f c)) init = f c := by
  induction rest with
  | nil => intro init; exact Or.inl rfl
  | cons c0 rest ih =>
    intro init
    rcases ih (min init (f c0)) with h | ⟨c, hc, h⟩
    · rcases min_choice init (f c0) with hm | hm
      · left
        simp only [List.foldl_cons]
        rw [h, hm]
      · right
        refine ⟨c0, List.mem_cons_self c0 rest, ?_⟩
        simp only [List.foldl_cons]
        rw [h, hm]
    · exact Or.inr ⟨c, List.mem_cons_of_mem c0 hc, h⟩

theorem minDist_le (dist : T → T → ℚ) (cs : List (KMeansCluster T)) (e : T)
    (c : KMeansCluster T) (hc : c ∈ cs) : minDist dist cs e ≤ dist e c.center := by
  cases cs with
  | nil => simp at hc
  | cons c0 rest =>
    rcases List.mem_cons.mp hc with h | h
    · subst h
      exact foldl_min_le_init (fun x => dist e x.center) rest _
    · exact foldl_min_le_mem (fun x => dist e x.center) rest _ c h

theorem minDist_attained (dist : T → T → ℚ) (cs : List (KMeansCluster T)) (e : T)
    (hne : cs ≠ []) : ∃ c, c ∈ cs ∧ minDist dist cs e = dist e c.center := by
  cases cs with
  | nil => exact absurd rfl hne
  | cons c0 rest =>
    rcases foldl_min_attained (fun x => dist e x.center) rest (dist e c0.center) with h | h
    · exact ⟨c0, List.mem_cons_self c0 rest, h⟩
    · obtain ⟨c, hc, h⟩ := h
      exact ⟨c, List.mem_cons_of_mem c0 hc, h⟩

theorem minDist_eq_stored (dist : T → T → ℚ) (cs : List (KMeansCluster T)) (e : T)
    (hne : cs ≠ []) :
    ∃ ci, cs[storedIndex dist cs e]? = some ci ∧ minDist dist cs e = dist e ci.center := by
  obtain ⟨ci, h1, h2, _⟩ := storedIndex_spec dist cs e hne
  refine ⟨ci, h1, le_antisymm (minDist_le dist cs e ci (List.getElem?_mem h1)) ?_⟩
  obtain ⟨c, hc, hmin⟩ := minDist_attained dist cs e hne
  obtain ⟨j, hj⟩ := List.mem_iff_getElem?.mp hc
  rw [hmin]
  exact h2 j c hj

theorem sum_sq_expand (xs : List ℚ) (c : ℚ) :
    (xs.map (fun x => (x - c) * (x - c))).sum =
      (xs.map (fun x => x * x)).sum - 2 * c * xs.sum + (xs.length : ℚ) * (c * c) := by
  induction xs with
  | nil => simp
  | cons x xs ih =>
    simp only [List.map_cons, List.sum_cons, List.length_cons, Nat.cast_succ, ih]
    ring

theorem mean_minimises_sum_sq (xs : List ℚ) (hne : xs ≠ []) (c : ℚ) :
    (xs.map (fun x => (x - (1 / (xs.length : ℚ)) * xs.sum) *
        (x - (1 / (xs.length : ℚ)) * xs.sum))).sum ≤
      (xs.map (fun x => (x - c) * (x - c))).sum := by
  have hn : (0 : ℚ) < (xs.length : ℚ) := by
    exact_mod_cast List.length_pos.mpr hne
  have hS : xs.sum = (xs.length : ℚ) * ((1 / (xs.length : ℚ)) * xs.sum) := by
    field_simp
  rw [sum_sq_expand xs c, sum_sq_expand xs ((1 / (xs.length : ℚ)) * xs.sum)]
  have key : (xs.map (fun x => x * x)).sum - 2 * c * xs.sum + (xs.length : ℚ) * (c * c) -
      ((xs.map (fun x => x * x)).sum - 2 * ((1 / (xs.length : ℚ)) * xs.sum) * xs.sum +
        (xs.length : ℚ) * (((1 / (xs.length : ℚ)) * xs.sum) *
          ((1 / (xs.length : ℚ)) * xs.sum))) =
      (xs.length : ℚ) * ((c - (1 / (xs.length : ℚ)) * xs.sum) *
        (c - (1 / (xs.length : ℚ)) * xs.sum)) := by
    field_simp
    ring
  have hnonneg : 0 ≤ (xs.length : ℚ) * ((c - (1 / (xs.length : ℚ)) * xs.sum) *
      (c - (1 / (xs.length : ℚ)) * xs.sum)) :=
    mul_nonneg (le_of_lt hn) (mul_self_nonneg _)
  linarith

theorem sum_regroup {α : Type} (l : List α) (a : α → Nat) (k : Nat)
    (h : ∀ (x : α), x ∈ l → a x < k) (G : α → Nat → ℚ) :
    (l.map (fun x => G x (a x))).sum =
      ∑ j in Finset.range k, ((l.filter (fun x => decide (a x = j))).map (fun x => G x j)).sum := by
  induction l with
  | nil => simp
  | cons x l ih =>
    have hx : a x < k := h x (List.mem_cons_self x l)
    have hterm : ∀ (j : Nat),
        (((x :: l).filter (fun y => decide (a y = j))).map (fun y => G y j)).sum =
          (if a x = j then G x j else 0) +
            ((l.filter (fun y => decide (a y = j))).map (fun y => G y j)).sum := by
      intro j
      by_cases hj : a x = j <;> simp [List.filter_cons, hj]
    simp only [hterm, Finset.sum_add_distrib, List.map_cons, List.sum_cons]
    rw [ih (fun y hy => h y (List.mem_cons_of_mem x hy)),
      Finset.sum_ite_eq (Finset.range k) (a x) (fun j => G x j)]
    simp [Finset.mem_range, hx]

theorem coord_zero [AddMonoid T] (φ : T → ℚ) (hadd : ∀ (a b : T), φ (a + b) = φ a + φ b) :
    φ 0 = 0 := by
  have h := hadd 0 0
  rw [add_zero] at h
  linarith

theorem coord_sum [AddMonoid T] (φ : T → ℚ) (hadd : ∀ (a b : T), φ (a + b) = φ a + φ b)
    (l : List T) : φ l.sum = (l.map φ).sum := by
  induction l with
  | nil => simpa using coord_zero φ hadd
  | cons x l ih => simp [hadd, ih]

theorem mean_minimises_dist [AddMonoid T] [SMul ℚ T] (coords : List (T → ℚ))
    (S : List T) (hne : S ≠ []) (c : T)
    (hadd : ∀ (φ : T → ℚ), φ ∈ coords → ∀ (a b : T), φ (a + b) = φ a + φ b)
    (hsmul : ∀ (φ : T → ℚ), φ ∈ coords → ∀ (r : ℚ) (a : T), φ (r • a) = r * φ a) :
    (S.map (fun e => (coords.map (fun φ =>
        (φ e - φ ((1 / (S.length : ℚ)) • S.sum)) *
          (φ e - φ ((1 / (S.length : ℚ)) • S.sum)))).sum)).sum ≤
      (S.map (fun e => (coords.map (fun φ => (φ e - φ c) * (φ e - φ c))).sum)).sum := by
  induction coords with
  | nil => simp
  | cons φ rest ih =>
    have hrest := ih (fun ψ hψ => hadd ψ (List.mem_cons_of_mem φ hψ))
      (fun ψ hψ => hsmul ψ (List.mem_cons_of_mem φ hψ))
    have hφm : φ ((1 / (S.length : ℚ)) • S.sum) =
        (1 / ((S.map φ).length : ℚ)) * (S.map φ).sum := by
      rw [hsmul φ (List.mem_cons_self φ rest),
        coord_sum φ (hadd φ (List.mem_cons_self φ rest)), List.length_map]
    have hhead := mean_minimises_sum_sq (S.map φ) (by simpa using hne) (φ c)
    rw [← hφm] at hhead
    simp only [List.map_map] at hhead
    simp only [List.map_cons, List.sum_cons, List.sum_map_add]
    exact add_le_add hhead hrest

theorem zip_map_filter_unit {α : Type} (l : List α) (a : α → Nat) (j : Nat) :
    ((l.zip (l.map a)).filter (fun p => decide (p.2 = j))).map (fun p => (p.1, (1 : ℚ))) =
      (l.filter (fun x => decide (a x = j))).map (fun x => (x, (1 : ℚ))) := by
  induction l with
  | nil => rfl
  | cons x l ih =>
    by_cases h : a x = j <;> simp [List.filter_cons, h, ih]

theorem entriesOf_unit_eq_filter (dist : T → T → ℚ) (cs : List (KMeansCluster T))
    (elements : List T) (j : Nat) :
    entriesOf j elements (List.replicate elements.length 1)
        (elements.map (storedIndex dist cs)) =
      (elements.filter (fun e => decide (storedIndex dist cs e = j))).map
        (fun e => (e, (1 : ℚ))) := by
  rw [entriesOf_replicate_one, zip_map_filter_unit]

theorem sum_map_const_one {α : Type} (S : List α) :
    (S.map (fun _ => (1 : ℚ))).sum = (S.length : ℚ) := by
  induction S with
  | nil => simp
  | cons x S ih =>
    simp only [List.map_cons, List.sum_cons, List.length_cons, Nat.cast_succ, ih]
    ring

theorem finalizeIteration_unit_entries [AddMonoid T] [SMul ℚ T] (center d : T) (S : List T)
    (hne : S ≠ []) :
    (KMeansCluster.finalizeIteration
      { center := center, entries := S.map (fun e => (e, (1 : ℚ))) } d).center =
      (1 / (S.length : ℚ)) • S.sum := by
  have hlen : (0 : ℚ) < (S.length : ℚ) := by
    exact_mod_cast List.length_pos.mpr hne
  rw [finalizeIteration_nonempty _ d (by simpa using hne)]
  have hw : ((S.map (fun e => (e, (1 : ℚ)))).map Prod.snd).sum = (S.length : ℚ) := by
    rw [List.map_map]
    exact sum_map_const_one S
  have hv : ((S.map (fun e => (e, (1 : ℚ)))).map Prod.fst).sum = S.sum := by
    rw [List.map_map]
    have : (Prod.fst ∘ fun e : T => (e, (1 : ℚ))) = id := rfl
    rw [this, List.map_id]
  simp only [hw, hv, if_pos hlen]

theorem iterate_objective_le [AddMonoid T] [SMul ℚ T] (coords : List (T → ℚ))
    (dist : T → T → ℚ)
    (hadd : ∀ (φ : T → ℚ), φ ∈ coords → ∀ (a b : T), φ (a + b) = φ a + φ b)
    (hsmul : ∀ (φ : T → ℚ), φ ∈ coords → ∀ (r : ℚ) (a : T), φ (r • a) = r * φ a)
    (hdist : ∀ (a b : T), dist a b = (coords.map (fun φ => (φ a - φ b) * (φ a - φ b))).sum)
    (rng : Nat → Nat) (elements : List T) (cs : List (KMeansCluster T)) (pos : Nat)
    (hc : cs ≠ []) (he : elements ≠ [])
    (hempty : ∀ (c : KMeansCluster T), c ∈ cs → c.entries = []) :
    ∃ res, iterate dist rng elements cs pos = some res ∧
      objective dist res.1 elements ≤ objective dist cs elements := by
  obtain ⟨res, r1, r2, r3⟩ := iterateWeighted_pass dist rng elements elements
    (List.replicate elements.length 1) cs pos hc he rfl (by simp)
  refine ⟨(res, pos + cs.length), by rw [iterate_eq_iterateWeighted_unit]; exact r1, ?_⟩
  have hlt : ∀ (e : T), e ∈ elements → storedIndex dist cs e < cs.length :=
    fun e _ => storedIndex_lt dist cs e hc
  have hA : objective dist res elements ≤
      (elements.map (fun e =>
        (res[storedIndex dist cs e]?).elim 0 (fun c => dist e c.center))).sum := by
    unfold objective
    apply List.sum_le_sum
    intro e hmem
    have hi : storedIndex dist cs e < res.length := by rw [r2]; exact hlt e hmem
    rw [List.getElem?_eq_getElem hi]
    exact minDist_le dist res e _ (List.getElem_mem hi)
  have hD : (elements.map (fun e =>
      (cs[storedIndex dist cs e]?).elim 0 (fun c => dist e c.center))).sum =
      objective dist cs elements := by
    unfold objective
    congr 1
    apply List.map_congr_left
    intro e _
    obtain ⟨ci, h1, h2⟩ := minDist_eq_stored dist cs e hc
    rw [h1, h2]
    rfl
  refine le_trans hA ?_
  rw [← hD,
    sum_regroup elements (storedIndex dist cs) cs.length hlt
      (fun e j => (res[j]?).elim 0 (fun c => dist e c.center)),
    sum_regroup elements (storedIndex dist cs) cs.length hlt
      (fun e j => (cs[j]?).elim 0 (fun c => dist e c.center))]
  apply Finset.sum_le_sum
  intro j hj
  have hjlt : j < cs.length := Finset.mem_range.mp hj
  obtain ⟨d, _, _, hres⟩ := r3 j cs[j] (List.getElem?_eq_getElem hjlt)
  rw [hempty _ (List.getElem_mem hjlt), List.nil_append, entriesOf_unit_eq_filter] at hres
  simp only [hres, List.getElem?_eq_getElem hjlt, Option.elim]
  by_cases hS : elements.filter (fun e => decide (storedIndex dist cs e = j)) = []
  · rw [hS]
    simp
  · rw [finalizeIteration_unit_entries _ d _ hS]
    simp only [hdist]
    exact mean_minimises_dist coords _ hS _ hadd hsmul

/-- C20: with the squared Euclidean metric of `Vec2fKMeansMetric` or `Vec3fKMeansMetric` in
exact arithmetic, one pass of the unweighted `iterate` from clusters with empty accumulators,
for every non-empty list of elements, every non-empty list of clusters and every sequence of
random fallback draws, succeeds and does not increase the k-means objective
`J(c) = sum over the elements e of min over the clusters j of Dist(e, c_j)`; clusters left
empty, whose centers are resampled, are counted among the new centers. -/
theorem iterate_does_not_increase_objective :
    (∀ (rng : Nat → Nat) (elements : List vec2f) (cs : List (KMeansCluster vec2f)) (pos : Nat),
      elements ≠ [] → cs ≠ [] → (∀ (c : KMeansCluster vec2f), c ∈ cs → c.entries = []) →
      ∃ res, iterate Vec2fKMeansMetric.Dist rng elements cs pos = some res ∧
        objective Vec2fKMeansMetric.Dist res.1 elements ≤
          objective Vec2fKMeansMetric.Dist cs elements) ∧
    (∀ (rng : Nat → Nat) (elements : List vec3f) (cs : List (KMeansCluster vec3f)) (pos : Nat),
      elements ≠ [] → cs ≠ [] → (∀ (c : KMeansCluster vec3f), c ∈ cs → c.entries = []) →
      ∃ res, iterate Vec3fKMeansMetric.Dist rng elements cs pos = some res ∧
        objective Vec3fKMeansMetric.Dist res.1 elements ≤
          objective Vec3fKMeansMetric.Dist cs elements) := by
  constructor
  · intro rng elements cs pos he hc hempty
    refine iterate_objective_le [fun p => p.1, fun p => p.2] Vec2fKMeansMetric.Dist ?_ ?_ ?_
      rng elements cs pos hc he hempty
    · intro φ hφ a b
      simp only [List.mem_cons, List.mem_singleton, List.not_mem_nil, or_false] at hφ
      rcases hφ with rfl | rfl <;> simp
    · intro φ hφ r a
      simp only [List.mem_cons, List.mem_singleton, List.not_mem_nil, or_false] at hφ
      rcases hφ with rfl | rfl <;> simp
    · intro a b
      simp [Vec2fKMeansMetric.Dist, vec2f.distSq]
  · intro rng elements cs pos he hc hempty
    refine iterate_objective_le [fun p => p.1, fun p => p.2.1, fun p => p.2.2]
      Vec3fKMeansMetric.Dist ?_ ?_ ?_ rng elements cs pos hc he hempty
    · intro φ hφ a b
      simp only [List.mem_cons, List.mem_singleton, List.not_mem_nil, or_false] at hφ
      rcases hφ with rfl | rfl | rfl <;> simp
    · intro φ hφ r a
      simp only [List.mem_cons, List.mem_singleton, List.not_mem_nil, or_false] at hφ
      rcases hφ with rfl | rfl | rfl <;> simp
    · intro a b
      simp [Vec3fKMeansMetric.Dist, vec3f.distSq, add_assoc]

/-- C20 at the four corners of the rectangle and two clusters seeded at `(0,0)` and `(0,1)`. -/
theorem iterate_does_not_increase_objective_witness :
    rectElements ≠ [] ∧ twoClusters ((0 : ℚ), (0 : ℚ)) (0, 1) ≠ [] ∧
    (∀ (c : KMeansCluster vec2f), c ∈ twoClusters ((0 : ℚ), (0 : ℚ)) (0, 1) → c.entries = []) ∧
    ∃ res, iterate Vec2fKMeansMetric.Dist (fun n => n) rectElements
        (twoClusters (0, 0) (0, 1)) 0 = some res ∧
      objective Vec2fKMeansMetric.Dist res.1 rectElements ≤
        objective Vec2fKMeansMetric.Dist (twoClusters (0, 0) (0, 1)) rectElements :=
  ⟨by simp [rectElements], by simp [twoClusters],
    by
      intro c hc
      simp only [twoClusters, List.mem_cons, List.mem_singleton, List.not_mem_nil,
        or_false] at hc
      rcases hc with h | h <;> rw [h],
    iterate_does_not_increase_objective.1 (fun n => n) rectElements (twoClusters (0, 0) (0, 1)) 0
      (by simp [rectElements]) (by simp [twoClusters])
      (by
        intro c hc
        simp only [twoClusters, List.mem_cons, List.mem_singleton, List.not_mem_nil,
          or_false] at hc
        rcases hc with h | h <;> rw [h])⟩

/-! The theorems of this part at concrete inputs. -/

theorem exampleElements_length : exampleElements.length = 3 := rfl

/-- C11 at the example elements with two clusters: the state after one pass. -/
theorem accumulator_empty_after_finalize_and_at_pass_start_witness :
    ∃ seeded cs pos1 p,
      seed (fun n => n) exampleElements (allocate 2) 0 = some (seeded, pos1) ∧
      iteratePasses (iterate distSq1 (fun n => n) exampleElements) 1 seeded pos1 =
        some (cs, p) ∧
      ∀ (x : KMeansCluster ℚ), x ∈ cs → x.entries = [] := by
  obtain ⟨seeded, s1, s2, s3⟩ :=
    seed_allocate_spec (fun n => n) exampleElements exampleElements_ne_nil 2 0
  obtain ⟨cs, p, c1, _⟩ := iteratePasses_total (iterate distSq1 (fun n => n) exampleElements)
    (fun l => l.length = 2 ∧ ∀ (x : KMeansCluster ℚ), x ∈ l → x.entries = [])
    (fun l q hinv =>
      iterate_preserves distSq1 (fun n => n) exampleElements 2 (by norm_num)
        exampleElements_ne_nil l q hinv)
    1 seeded (0 + 2) ⟨s2, fun x hx => (s3 x hx).1⟩
  exact ⟨seeded, cs, 0 + 2, p, s1, c1,
    (accumulator_empty_after_finalize_and_at_pass_start distSq1 (fun n => n) exampleElements
      exampleWeights 2 0).2.1 seeded cs (0 + 2) p 1 s1 c1⟩

/-- C15 at the example clusters, elements and weights. -/
theorem classification_unaffected_by_weight_witness :
    ∃ storage,
      iterateWeightedStorage distSq1 exampleClusters exampleElements
        (weightElements exampleElements exampleWeights) exampleWeights = some storage ∧
      iterateStorage distSq1 exampleClusters exampleElements = some storage ∧
      storage.length = exampleElements.length := by
  have h := iterateWeightedStorage_eq distSq1 exampleClusters exampleElements
    (weightElements exampleElements exampleWeights) exampleWeights exampleClusters_ne_nil
  have hc := classification_unaffected_by_weight distSq1 exampleClusters exampleElements
    (weightElements exampleElements exampleWeights) exampleWeights
  exact ⟨_, h, by rw [← hc.1]; exact h, (hc.2 _ h).1⟩

/-- C16 at the example elements with two clusters, from the example clusters and from an
engine without clusters as the two prior states. -/
theorem cluster_resets_engine_witness :
    2 ≤ exampleElements.length ∧
    cluster distSq1 (fun n => n) exampleElements 2 10 0 exampleClusters 0 =
      cluster distSq1 (fun n => n) exampleElements 2 10 0 [] 0 ∧
    ∀ (r : CallResult ℚ),
      cluster distSq1 (fun n => n) exampleElements 2 10 0 exampleClusters 0 = some r →
      r.outcome = CallOutcome.returned ∧ clusterCount r.m_clusters = 2 :=
  ⟨by rw [exampleElements_length]; norm_num,
    (cluster_resets_engine distSq1 (fun n => n) exampleElements exampleWeights 2 10 0
      exampleClusters [] 0 (by rw [exampleElements_length]; norm_num)).1,
    (cluster_resets_engine distSq1 (fun n => n) exampleElements exampleWeights 2 10 0
      exampleClusters [] 0 (by rw [exampleElements_length]; norm_num)).2.1⟩

/-- C19 at the example elements with two clusters and `maxIterations = 10`. -/
theorem pass_index_safety_witness :
    0 < 2 ∧ 2 ≤ exampleElements.length ∧ 10 < 2 ^ 32 ∧
    ∃ r, cluster distSq1 (fun n => n) exampleElements 2 10 0 exampleClusters 0 = some r ∧
      r.outcome = CallOutcome.returned :=
  ⟨by norm_num, by rw [exampleElements_length]; norm_num, by norm_num,
    (pass_index_safety distSq1 (fun n => n) exampleElements 2 10 0 exampleClusters 0
      (by norm_num) (by rw [exampleElements_length]; norm_num) (by norm_num)).1⟩

end KMeans

namespace ml

namespace MeshData

variable {FloatType : Type}

/-! The detailed check of `isConsistent`. -/

theorem checkFace_spec (bound : Nat) (face : List Nat) :
    ∀ (acc : Bool),
      face.foldl (fun acc1 idx => if idx ≥ bound then false else acc1) acc = true →
      acc = true ∧ ∀ (idx : Nat), idx ∈ face → idx < bound := by
  induction face with
  | nil => intro acc h; exact ⟨h, by intro idx hidx; simp at hidx⟩
  | cons i rest ih =>
    intro acc h
    simp only [List.foldl_cons] at h
    obtain ⟨h1, h2⟩ := ih _ h
    by_cases hi : i ≥ bound
    · rw [if_pos hi] at h1
      cases h1
    · rw [if_neg hi] at h1
      refine ⟨h1, ?_⟩
      intro idx hidx
      rcases List.mem_cons.mp hidx with h3 | h3
      · rw [h3]; omega
      · exact h2 idx h3

theorem checkIndices_spec (bound : Nat) (faces : List (List Nat)) :
    ∀ (consistent : Bool), checkIndices faces bound consistent = true →
      consistent = true ∧
      ∀ (face : List Nat), face ∈ faces → ∀ (idx : Nat), idx ∈ face → idx < bound := by
  induction faces with
  | nil => intro consistent h; exact ⟨h, by intro face hface; simp at hface⟩
  | cons f rest ih =>
    intro consistent h
    unfold checkIndices at h
    simp only [List.foldl_cons] at h
    obtain ⟨h1, h2⟩ := ih _ h
    obtain ⟨h3, h4⟩ := checkFace_spec bound f consistent h1
    refine ⟨h3, ?_⟩
    intro face hface
    rcases List.mem_cons.mp hface with h5 | h5
    · rw [h5]; exact h4
    · exact h2 face h5

theorem isConsistent_detailed_spec (m : MeshData FloatType)
    (h : m.isConsistent true = true) :
    (∀ (face : List Nat), face ∈ m.m_FaceIndicesVertices → ∀ (idx : Nat), idx ∈ face →
      idx < m.m_Vertices.length) ∧
    (∀ (face : List Nat), face ∈ m.m_FaceIndicesColors → ∀ (idx : Nat), idx ∈ face →
      idx < m.m_Colors.length) ∧
    (∀ (face : List Nat), face ∈ m.m_FaceIndicesNormals → ∀ (idx : Nat), idx ∈ face →
      idx < m.m_FaceIndicesNormals.length) := by
  unfold isConsistent at h
  simp only [if_true] at h
  obtain ⟨h1, hn⟩ := checkIndices_spec _ _ _ h
  obtain ⟨h2, hcol⟩ := checkIndices_spec _ _ _ h1
  obtain ⟨_, hv⟩ := checkIndices_spec _ _ _ h2
  exact ⟨hv, hcol, hn⟩

/-- C17 (the code at the failing input): on the mesh with three vertices, one normal and the
normal faces `[1, 1, 1]` and `[0, 0, 0]`, `isConsistent(true)` returns `true` although the
normal index `1` is not below `m_Normals.size() = 1`: the detailed check compares the normal
indices with `m_FaceIndicesNormals.size() = 2`. -/
theorem isConsistent_accepts_stray_normal_index :
    strayNormalMesh.isConsistent true = true ∧
    strayNormalMesh.m_Normals.length = 1 ∧
    [1, 1, 1] ∈ strayNormalMesh.m_FaceIndicesNormals ∧
    ¬ (∀ (face : List Nat), face ∈ strayNormalMesh.m_FaceIndicesNormals →
      ∀ (idx : Nat), idx ∈ face → idx < strayNormalMesh.m_Normals.length) := by
  refine ⟨by decide, rfl, by simp [strayNormalMesh], ?_⟩
  intro h
  have h1 := h [1, 1, 1] (by simp [strayNormalMesh]) 1 (by simp)
  simp [strayNormalMesh] at h1

/-! The method `merge`: vertices and vertex faces. -/

theorem merge_error_iff (m other : MeshData FloatType) :
    (∃ message, m.merge other = Except.error message) ↔
      m.hasVertexIndices ≠ other.hasVertexIndices := by
  unfold merge
  by_cases h : m.hasVertexIndices = other.hasVertexIndices
  · simp [h]
  · simp [h]

theorem merge_ok_fields (m other : MeshData FloatType)
    (h : m.hasVertexIndices = other.hasVertexIndices) :
    ∃ r, m.merge other = Except.ok r ∧
      r.m_Vertices = m.m_Vertices ++ other.m_Vertices ∧
      r.m_FaceIndicesVertices =
        if m.hasVertexIndices = true then
          m.m_FaceIndicesVertices ++ shiftFaces other.m_FaceIndicesVertices m.m_Vertices.length
        else m.m_FaceIndicesVertices := by
  unfold merge
  rw [if_neg (by simp [h])]
  refine ⟨_, rfl, ?_, ?_⟩
  · simp only [apply_ite MeshData.m_Vertices, ite_self]
  · simp only [hasVertexIndices, apply_ite MeshData.m_FaceIndicesVertices,
      apply_ite MeshData.m_Vertices, ite_self]

theorem shiftFaces_eq (faces : List (List Nat)) (before : Nat)
    (h : ∀ (face : List Nat), face ∈ faces → ∀ (idx : Nat), idx ∈ face →
      idx + before < 2 ^ 32) :
    shiftFaces faces before = faces.map (fun face => face.map (fun idx => idx + before)) := by
  unfold shiftFaces
  apply List.map_congr_left
  intro face hface
  apply List.map_congr_left
  intro idx hidx
  have h1 := h face hface idx hidx
  have h2 : before < 2 ^ 32 := lt_of_le_of_lt (Nat.le_add_left before idx) h1
  rw [Nat.mod_eq_of_lt h2, Nat.mod_eq_of_lt h1]

/-- C21: `merge(other)` throws exactly when `hasVertexIndices()` differs between the two
meshes. On two meshes that both have vertex faces, and when no shifted index overflows 32
bits, it does not throw; the resulting `m_Vertices` is this mesh's vertices followed by the
other's; the resulting `m_FaceIndicesVertices` is this mesh's faces unchanged followed by the
other's faces with every index increased by this mesh's former vertex count; and if every
face vertex index was in range in both meshes, every face vertex index is in range in the
result. -/
theorem merge_vertex_faces (m other : MeshData FloatType) :
    ((∃ message, m.merge other = Except.error message) ↔
      m.hasVertexIndices ≠ other.hasVertexIndices) ∧
    (m.hasVertexIndices = true → other.hasVertexIndices = true →
      (∀ (face : List Nat), face ∈ other.m_FaceIndicesVertices → ∀ (idx : Nat), idx ∈ face →
        idx + m.m_Vertices.length < 2 ^ 32) →
      ∃ r, m.merge other = Except.ok r ∧
        r.m_Vertices = m.m_Vertices ++ other.m_Vertices ∧
        r.m_FaceIndicesVertices =
          m.m_FaceIndicesVertices ++
            other.m_FaceIndicesVertices.map
              (fun face => face.map (fun idx => idx + m.m_Vertices.length)) ∧
        ((∀ (face : List Nat), face ∈ m.m_FaceIndicesVertices → ∀ (idx : Nat), idx ∈ face →
            idx < m.m_Vertices.length) →
          (∀ (face : List Nat), face ∈ other.m_FaceIndicesVertices → ∀ (idx : Nat),
            idx ∈ face → idx < other.m_Vertices.length) →
          ∀ (face : List Nat), face ∈ r.m_FaceIndicesVertices → ∀ (idx : Nat), idx ∈ face →
            idx < r.m_Vertices.length)) := by
  refine ⟨merge_error_iff m other, ?_⟩
  intro hm ho hno
  obtain ⟨r, r1, r2, r3⟩ := merge_ok_fields m other (hm.trans ho.symm)
  rw [if_pos hm, shiftFaces_eq _ _ hno] at r3
  refine ⟨r, r1, r2, r3, ?_⟩
  intro hin1 hin2 face hface idx hidx
  rw [r2, List.length_append]
  rw [r3] at hface
  rcases List.mem_append.mp hface with h | h
  · have := hin1 face h idx hidx
    omega
  · obtain ⟨face0, hf0, rfl⟩ := List.mem_map.mp h
    obtain ⟨idx0, hi0, rfl⟩ := List.mem_map.mp hidx
    have := hin2 face0 hf0 idx0 hi0
    omega

/-- C21 at the mesh of two faces over three vertices merged with the mesh of one triangle. -/
theorem merge_vertex_faces_witness :
    strayNormalMesh.hasVertexIndices = true ∧ triangleMesh.hasVertexIndices = true ∧
    (∀ (face : List Nat), face ∈ triangleMesh.m_FaceIndicesVertices → ∀ (idx : Nat),
      idx ∈ face → idx + strayNormalMesh.m_Vertices.length < 2 ^ 32) ∧
    ∃ r, strayNormalMesh.merge triangleMesh = Except.ok r ∧
      r.m_Vertices = strayNormalMesh.m_Vertices ++ triangleMesh.m_Vertices ∧
      r.m_FaceIndicesVertices =
        strayNormalMesh.m_FaceIndicesVertices ++
          triangleMesh.m_FaceIndicesVertices.map
            (fun face => face.map (fun idx => idx + strayNormalMesh.m_Vertices.length)) ∧
      ((∀ (face : List Nat), face ∈ strayNormalMesh.m_FaceIndicesVertices → ∀ (idx : Nat),
          idx ∈ face → idx < strayNormalMesh.m_Vertices.length) →
        (∀ (face : List Nat), face ∈ triangleMesh.m_FaceIndicesVertices → ∀ (idx : Nat),
          idx ∈ face → idx < triangleMesh.m_Vertices.length) →
        ∀ (face : List Nat), face ∈ r.m_FaceIndicesVertices → ∀ (idx : Nat), idx ∈ face →
          idx < r.m_Vertices.length) :=
  ⟨by decide, by decide, by decide,
    (merge_vertex_faces strayNormalMesh triangleMesh).2 (by decide) (by decide) (by decide)⟩

end MeshData

end ml
